import Mathlib

/-!
OpenYMM playback cache: `VideoCacheThread` and `Frame`

A shallow embedding of `src/src/Qt/VideoCacheThread.cpp` (the pre-roll worker) and of
the constructors and `AddAudio` of `src/src/Frame.cpp`.

* Frame numbers, counters and speeds are `Int`.  The C++ fields are `int64_t`
  (frames and counters) and `int` (speeds); signed overflow is undefined behaviour in
  C++ and is not modelled for them.  The `int` products of `getBytes` wrap modulo
  `2 ^ 32`.  The one narrowing conversion the source performs,
  `int16_t increment = current_speed`, is modelled by `toInt16`.
* A `float` value (`fps`, `VIDEO_CACHE_PERCENT_AHEAD`) is a rational.  Every float
  operation, and every conversion of an integer to `float`, rounds its exact result to
  the nearest value with a 24-bit significand, ties to even (IEEE 754 binary32,
  `roundFloat`); the exponent range of the format (overflow, subnormals) is not
  modelled.  A conversion of a `float` to an integer truncates toward zero.
* The reader, its cache store and the settings singleton are collaborators whose
  code is outside `src/`; they are modelled from their contract.
* `trace` is ghost state: the calls the worker makes on the reader, in order.
* The buffers of a `Frame` (`Magick::Image`, `juce::AudioSampleBuffer`) are library
  types whose code is outside `src/`; they are modelled from their contract, audio
  samples as rationals.
-/

namespace openshot

/-! ## Collaborators -/

/-- Result of `reader->GetFrame(n)`: a frame, the `OutOfBoundsFrame` exception, or any
other exception. -/
inductive GetFrameResult where
  | frame
  | OutOfBoundsFrame
  | otherFailure
  deriving DecidableEq, Repr

/-- Modelled from the spec: the process-wide `Settings` singleton (section 6), of which
the source only reads these five options. -/
structure Settings where
  VIDEO_CACHE_MIN_PREROLL_FRAMES : Int
  VIDEO_CACHE_MAX_PREROLL_FRAMES : Int
  VIDEO_CACHE_PERCENT_AHEAD : ℚ
  VIDEO_CACHE_MAX_FRAMES : Int
  ENABLE_PLAYBACK_CACHING : Bool

/-- Modelled from the spec: the reader-as-timeline and its cache store (section 6).
`GetFrame` gives the outcome of `reader->GetFrame(n)` for every frame number, `cache`
lists the frame numbers resident in `reader->GetCache()`, and `max_bytes` is the
store's `GetMaxBytes()`.  The pointers `reader` and `reader->GetCache()` are taken to be
non-null, as `run()` and `Seek(n, start_preroll)` dereference them unguarded. -/
structure Reader where
  width : Int
  height : Int
  sample_rate : Int
  channels : Int
  fps : ℚ
  preview_width : Int
  preview_height : Int
  GetFrame : Int → GetFrameResult
  cache : List Int
  max_bytes : Int

/-- Modelled from the spec: `cache.Contains(n)`. -/
def Reader.Contains (r : Reader) (n : Int) : Bool := decide (n ∈ r.cache)

/-- Modelled from the spec: `cache.Count()`. -/
def Reader.Count (r : Reader) : Int := (r.cache.length : Int)

/-- Modelled from the spec: `cache.GetMaxBytes()`. -/
def Reader.GetMaxBytes (r : Reader) : Int := r.max_bytes

/-- Modelled from the spec: the timeline's `ClearAllCache()` empties the store. -/
def Reader.ClearAllCache (r : Reader) : Reader := { r with cache := [] }

/-- Modelled from the spec: a successful `GetFrame(n)` has the side effect of inserting
frame `n` into the store; a failing one leaves the store as it was. -/
def Reader.afterGetFrame (r : Reader) (n : Int) : Reader :=
  match r.GetFrame n with
  | .frame => if n ∈ r.cache then r else { r with cache := n :: r.cache }
  | _ => r

/-! ## Worker state -/

/-- Calls of the worker on its collaborators, and the end of each frame visit. -/
inductive Event where
  /-- A call `reader->GetCache()->Contains(frame)` in the window loop. -/
  | Contains (frame : Int)
  /-- A call `reader->GetFrame(frame)`. -/
  | GetFrame (frame : Int)
  /-- A call `ClearAllCache()` from `Seek(n, start_preroll)`. -/
  | ClearAllCache
  /-- The fetch block of one loop iteration is over for `frame`; `count` is
  `cached_frame_count` and `ready` is `isReady()` at that point. -/
  | visited (frame : Int) (count : Int) (ready : Bool)
  deriving DecidableEq, Repr

/-- The data members of `VideoCacheThread`.  `last_cached_frame` holds the number of
the frame last returned by `GetFrame`. -/
structure VideoCacheThread where
  speed : Int
  last_speed : Int
  is_playing : Bool
  current_display_frame : Int
  requested_display_frame : Int
  cached_frame_count : Int
  min_frames_ahead : Int
  max_frames_ahead : Int
  should_pause_cache : Bool
  last_cached_frame : Option Int
  deriving DecidableEq, Repr

/-- The worker together with its reader, the thread's should-exit flag and the trace. -/
structure World where
  thread : VideoCacheThread
  reader : Reader
  threadShouldExit : Bool
  trace : List Event

/-- The constructor `VideoCacheThread::VideoCacheThread()`.  The initialiser list does not mention
`requested_display_frame` (nor `last_cached_frame`); its initial value is the
parameter `requested`. -/
def VideoCacheThread.ctor (requested : Int) : VideoCacheThread :=
  { speed := 0, last_speed := 1, is_playing := false,
    current_display_frame := 1, requested_display_frame := requested,
    cached_frame_count := 0, min_frames_ahead := 4, max_frames_ahead := 8,
    should_pause_cache := false, last_cached_frame := none }

/-- Method `VideoCacheThread::Seek(int64_t new_position)`. -/
def VideoCacheThread.Seek (t : VideoCacheThread) (new_position : Int) : VideoCacheThread :=
  { t with requested_display_frame := new_position }

/-- The local `previous_frame` of `Seek(int64_t, bool)` (lines 51-62). -/
def previous_frame (last_speed new_position : Int) : Int :=
  let previous_frame := new_position
  let previous_frame :=
    if last_speed < 0 then previous_frame + 1
    else if last_speed > 0 then previous_frame - 1
    else previous_frame
  if previous_frame ≤ 0 then 1 else previous_frame

/-- Method `VideoCacheThread::Seek(int64_t new_position, bool start_preroll)`. -/
def World.Seek (w : World) (new_position : Int) (start_preroll : Bool) : World :=
  let previous_frame := previous_frame w.thread.last_speed new_position
  let w : World :=
    if !w.reader.Contains previous_frame then
      { w with reader := w.reader.ClearAllCache, trace := w.trace ++ [Event.ClearAllCache] }
    else w
  let w : World :=
    if start_preroll && !w.reader.Contains new_position then
      let t : VideoCacheThread := { w.thread with cached_frame_count := 0 }
      let t : VideoCacheThread := if t.speed = 0 then { t with should_pause_cache := false } else t
      { w with thread := t }
    else w
  { w with thread := w.thread.Seek new_position }

/-- Number of binary digits of `n`, by `fuel` halvings; `bitLength n n` is the full
length. -/
def bitLength : Nat → Nat → Nat
  | 0, _ => 0
  | fuel + 1, n => if n = 0 then 0 else bitLength fuel (n / 2) + 1

/-- The binary exponent of a non-zero rational: the `e` with `2 ^ e ≤ |q| < 2 ^ (e + 1)`. -/
def floatExponent (q : ℚ) : Int :=
  let n := q.num.natAbs
  let d := q.den
  let bn := bitLength n n
  let bd := bitLength d d
  if 2 ^ bn * d ≤ n * 2 ^ bd then (bn : Int) - bd else (bn : Int) - bd - 1

/-- The power of two `2 ^ e` as a rational. -/
def pow2 (e : Int) : ℚ :=
  if 0 ≤ e then ((2 ^ e.toNat : Nat) : ℚ) else 1 / ((2 ^ (-e).toNat : Nat) : ℚ)

/-- Rounding to the nearest integer, ties to the even one. -/
def roundHalfEven (q : ℚ) : Int :=
  let f := Rat.floor q
  if q - f < 1 / 2 then f
  else if 1 / 2 < q - f then f + 1
  else if f % 2 = 0 then f else f + 1

/-- Rounding of an exact result to `float` (IEEE 754 binary32): the nearest multiple of
`2 ^ (e - 23)`, where `e` is the binary exponent of `q`, ties to even. -/
def roundFloat (q : ℚ) : ℚ :=
  if q = 0 then 0
  else
    let ulp := pow2 (floatExponent q - 23)
    (roundHalfEven (q / ulp) : ℚ) * ulp

/-- Conversion of an integer to `float`. -/
def intToFloat (n : Int) : ℚ := roundFloat (n : ℚ)

/-- Addition of two `float` values. -/
def fadd (a b : ℚ) : ℚ := roundFloat (a + b)

/-- Multiplication of two `float` values. -/
def fmul (a b : ℚ) : ℚ := roundFloat (a * b)

/-- Division of two `float` values (the divisor is not zero). -/
def fdiv (a b : ℚ) : ℚ := roundFloat (a / b)

/-- Truncation toward zero, the conversion of a floating value to an integer. -/
def truncate (q : ℚ) : Int := Int.tdiv q.num q.den

/-- The value of an `int` expression (32 bits, two's complement).  Signed overflow is
undefined behaviour in C++; the compiled product wraps modulo `2 ^ 32`. -/
def toInt32 (x : Int) : Int := (x + 2147483648) % 4294967296 - 2147483648

/-- The value of a `size_t` expression (64 bits, unsigned): arithmetic modulo `2 ^ 64`. -/
def toUInt64 (x : Int) : Int := x % 18446744073709551616

/-- The value of an `int64_t` expression (64 bits, two's complement). -/
def toInt64 (x : Int) : Int :=
  (x + 9223372036854775808) % 18446744073709551616 - 9223372036854775808

/-- Method `VideoCacheThread::getBytes`.  `sizeof(char)` is 1 and `sizeof(float)` is 4,
both of type `size_t`.  In `width * height * sizeof(char) * 4` the product
`width * height` is an `int` product, which is converted to `size_t` for the two
multiplications that follow; the result is cast to `int64_t`.  In
`(sample_rate * channels) / fps * sizeof(float)` the `int` product and the `size_t` are
converted to `float` and the quotient and the product are `float` operations; the
compound assignment `total_bytes += <float>` converts `total_bytes` to `float`, adds in
`float` and converts the sum back to `int64_t`. -/
def getBytes (width height sample_rate channels : Int) (fps : ℚ) : Int :=
  let total_bytes : Int := 0
  let total_bytes := toInt64 (total_bytes +
    toInt64 (toUInt64 (toUInt64 (toUInt64 (toInt32 (width * height)) * 1) * 4)))
  truncate (fadd (intToFloat total_bytes)
    (fmul (fdiv (intToFloat (toInt32 (sample_rate * channels))) fps) (intToFloat 4)))

/-- Method `VideoCacheThread::Play()`. -/
def VideoCacheThread.Play (t : VideoCacheThread) : VideoCacheThread :=
  { t with is_playing := true }

/-- Method `VideoCacheThread::Stop()`. -/
def VideoCacheThread.Stop (t : VideoCacheThread) : VideoCacheThread :=
  { t with is_playing := false }

/-- Method `VideoCacheThread::isReady()`. -/
def VideoCacheThread.isReady (t : VideoCacheThread) : Bool :=
  decide (t.cached_frame_count > t.min_frames_ahead)

/-- Modelled from the spec: the writes of the UI thread (section 5).  `setSpeed` is the
UI's write of `speed`, and `signalThreadShouldExit` raises the flag that
`threadShouldExit()` reads; neither is defined under `src/`. -/
inductive UIOp where
  | Seek (new_position : Int)
  | SeekPreroll (new_position : Int) (start_preroll : Bool)
  | Play
  | Stop
  | setSpeed (new_speed : Int)
  | signalThreadShouldExit
  deriving DecidableEq, Repr

/-- One write of the UI thread applied to the world. -/
def UIOp.apply (op : UIOp) (w : World) : World :=
  match op with
  | .Seek n => { w with thread := w.thread.Seek n }
  | .SeekPreroll n b => w.Seek n b
  | .Play => { w with thread := w.thread.Play }
  | .Stop => { w with thread := w.thread.Stop }
  | .setSpeed k => { w with thread := { w.thread with speed := k } }
  | .signalThreadShouldExit => { w with threadShouldExit := true }

/-- A sequence of UI writes, applied in order. -/
def applyOps (ops : List UIOp) (w : World) : World :=
  ops.foldl (fun w op => op.apply w) w

/-! ## One pass of `run()` -/

/-- The conversion `int16_t increment = current_speed` (line 139). -/
def toInt16 (x : Int) : Int := (x + 32768) % 65536 - 32768

/-- How one pass of the loop body of `run()` can end.  Every case carries the world
as it is at that point. -/
inductive PassResult where
  /-- The pass reached the end of the loop body (or its `continue`). -/
  | completed (w : World)
  /-- A failure of `GetFrame` other than `OutOfBoundsFrame` left the window loop. -/
  | threw (w : World)
  /-- The integer division by `bytes_per_frame = 0` on line 170. -/
  | divideByZero (w : World)
  /-- The window loop had not ended after the allowed number of frame visits. -/
  | outOfFuel (w : World)

/-- The world at the point where the pass ended. -/
def PassResult.world : PassResult → World
  | .completed w => w
  | .threw w => w
  | .divideByZero w => w
  | .outOfFuel w => w

/-- How the fetch block of one loop iteration can end. -/
inductive VisitResult where
  | ok (w : World) (uncached_frame_count already_cached_frame_count : Int)
  | threw (w : World)

/-- Lines 215-227: the body of the window loop up to the cancellation checks. -/
def visitFrame (cache_frame : Int) (w : World)
    (uncached_frame_count already_cached_frame_count : Int) : VisitResult :=
  let t : VideoCacheThread :=
    { w.thread with cached_frame_count := w.thread.cached_frame_count + 1 }
  let tr := w.trace ++ [Event.Contains cache_frame]
  if !w.reader.Contains cache_frame then
    let tr := tr ++ [Event.GetFrame cache_frame]
    match w.reader.GetFrame cache_frame with
    | .frame =>
      let t : VideoCacheThread := { t with last_cached_frame := some cache_frame }
      .ok { w with thread := t, reader := w.reader.afterGetFrame cache_frame,
                   trace := tr ++ [Event.visited cache_frame t.cached_frame_count t.isReady] }
        (uncached_frame_count + 1) already_cached_frame_count
    | .OutOfBoundsFrame =>
      .ok { w with thread := t,
                   trace := tr ++ [Event.visited cache_frame t.cached_frame_count t.isReady] }
        uncached_frame_count already_cached_frame_count
    | .otherFailure => .threw { w with thread := t, trace := tr }
  else
    let tr := tr ++ [Event.Contains cache_frame]
    .ok { w with thread := t,
                 trace := tr ++ [Event.visited cache_frame t.cached_frame_count t.isReady] }
      uncached_frame_count (already_cached_frame_count + 1)

/-- Lines 229-247: the cancellation checks after a frame visit.  The first component
is `true` when the loop is left by `break`. -/
def checkpoints (current_speed starting_frame ending_frame : Int) (w : World) :
    Bool × World :=
  let t := w.thread
  if t.requested_display_frame ≠ t.current_display_frame ∧ t.speed ≥ 0 ∧
      (t.requested_display_frame < starting_frame ∨ t.requested_display_frame > ending_frame) then
    (true, { w with thread := { t with should_pause_cache := false } })
  else if t.requested_display_frame ≠ t.current_display_frame ∧ t.speed < 0 ∧
      (t.requested_display_frame > starting_frame ∨ t.requested_display_frame < ending_frame) then
    (true, { w with thread := { t with should_pause_cache := false } })
  else if current_speed ≠ t.speed then (true, w)
  else if !t.is_playing then (true, w)
  else (false, w)

/-- How the window loop can end. -/
inductive LoopResult where
  | finished (w : World) (uncached_frame_count already_cached_frame_count : Int)
  | threw (w : World)
  | outOfFuel (w : World)

/-- Lines 214-248: the window loop
`for (cache_frame = starting_frame; cache_frame != ending_frame + increment; cache_frame += increment)`.
`fuel` bounds the number of frame visits, `i` counts the visits made so far, and
`ui i` are the writes of the UI thread that land during visit `i`, seen by the
cancellation checks of that visit. -/
def windowLoop (ui : Nat → List UIOp)
    (current_speed starting_frame ending_frame increment : Int) :
    Nat → Nat → Int → Int → Int → World → LoopResult
  | 0, _, cache_frame, uncached_frame_count, already_cached_frame_count, w =>
    if cache_frame = ending_frame + increment then
      .finished w uncached_frame_count already_cached_frame_count
    else .outOfFuel w
  | fuel + 1, i, cache_frame, uncached_frame_count, already_cached_frame_count, w =>
    if cache_frame = ending_frame + increment then
      .finished w uncached_frame_count already_cached_frame_count
    else
      match visitFrame cache_frame w uncached_frame_count already_cached_frame_count with
      | .threw w => .threw w
      | .ok w uncached_frame_count already_cached_frame_count =>
        match checkpoints current_speed starting_frame ending_frame (applyOps (ui i) w) with
        | (true, w) => .finished w uncached_frame_count already_cached_frame_count
        | (false, w) =>
          windowLoop ui current_speed starting_frame ending_frame increment
            fuel (i + 1) (cache_frame + increment)
            uncached_frame_count already_cached_frame_count w

/-- Lines 153-164: `bytes_per_frame` of the paused-filling branch. -/
def bytes_per_frame (r : Reader) : Int :=
  let bytes_per_frame := getBytes r.width r.height r.sample_rate r.channels r.fps
  if r.preview_width ≠ r.width ∨ r.preview_height ≠ r.height then
    getBytes r.preview_width r.preview_height r.sample_rate r.channels r.fps
  else bytes_per_frame

/-- Lines 166-175: `max_frames_ahead` of the paused-filling branch; `none` is the
division by zero. -/
def pausedMaxFramesAhead (s : Settings) (r : Reader) (max_frames_ahead : Int) : Option Int :=
  if r.GetMaxBytes > 0 then
    if bytes_per_frame r = 0 then none
    else
      let max_frames_ahead : Int :=
        truncate (fmul (intToFloat (Int.tdiv r.GetMaxBytes (bytes_per_frame r)))
          s.VIDEO_CACHE_PERCENT_AHEAD)
      if max_frames_ahead > s.VIDEO_CACHE_MAX_FRAMES then some s.VIDEO_CACHE_MAX_FRAMES
      else some max_frames_ahead
  else some max_frames_ahead

/-- Lines 194-209: `starting_frame` and `ending_frame` of a pass. -/
def window (current_display_frame last_speed max_frames_ahead : Int) : Int × Int :=
  let starting_frame := current_display_frame
  let ending_frame := starting_frame + max_frames_ahead
  let ending_frame := if last_speed < 0 then starting_frame - max_frames_ahead else ending_frame
  let starting_frame := if starting_frame < 1 then 1 else starting_frame
  let ending_frame := if ending_frame < 1 then 1 else ending_frame
  (starting_frame, ending_frame)

/-- Lines 250-260: the end of a pass after the window loop. -/
def endOfPass (current_speed uncached_frame_count : Int) (w : World) : World :=
  let t := w.thread
  let t : VideoCacheThread :=
    if current_speed = 1 ∧ t.cached_frame_count > t.max_frames_ahead ∧
        uncached_frame_count > t.min_frames_ahead then
      { t with cached_frame_count := 0 }
    else t
  let t : VideoCacheThread := { t with current_display_frame := t.requested_display_frame }
  let t : VideoCacheThread :=
    if current_speed ≠ 0 then { t with last_speed := current_speed } else t
  { w with thread := t }

/-- Lines 194-260: the window, the window loop and the end of the pass. -/
def cacheWindow (ui : Nat → List UIOp) (fuel : Nat) (current_speed increment : Int)
    (w : World) : PassResult :=
  let win := window w.thread.current_display_frame w.thread.last_speed w.thread.max_frames_ahead
  match windowLoop ui current_speed win.1 win.2 increment fuel 0 win.1 0 0 w with
  | .threw w => .threw w
  | .outOfFuel w => .outOfFuel w
  | .finished w uncached_frame_count _ => .completed (endOfPass current_speed uncached_frame_count w)

/-- Lines 119-135: the settings snapshot and the check for an empty cache at the head
of a pass. -/
def passHead (s : Settings) (w : World) : VideoCacheThread :=
  let t : VideoCacheThread :=
    { w.thread with min_frames_ahead := s.VIDEO_CACHE_MIN_PREROLL_FRAMES,
                    max_frames_ahead := s.VIDEO_CACHE_MAX_PREROLL_FRAMES }
  if w.reader.Count = 0 then { t with should_pause_cache := false, cached_frame_count := 0 }
  else t

/-- Lines 119-263: one pass of the loop body of `run()`.  The two `sleep_for` calls
change no state. -/
def pass (s : Settings) (ui : Nat → List UIOp) (fuel : Nat) (w : World) : PassResult :=
  let t : VideoCacheThread := passHead s w
  let current_speed := t.speed
  let increment := toInt16 current_speed
  if (current_speed = 0 ∧ t.should_pause_cache = true) ∨ s.ENABLE_PLAYBACK_CACHING = false then
    .completed { w with thread := { t with current_display_frame := t.requested_display_frame } }
  else if current_speed = 0 then
    let t : VideoCacheThread := { t with should_pause_cache := true }
    match pausedMaxFramesAhead s w.reader t.max_frames_ahead with
    | none => .divideByZero { w with thread := t }
    | some max_frames_ahead =>
      let t : VideoCacheThread := { t with max_frames_ahead := max_frames_ahead }
      let increment : Int := if t.last_speed > 0 then 1 else -1
      cacheWindow ui fuel current_speed increment { w with thread := t }
  else
    let t : VideoCacheThread := { t with should_pause_cache := false }
    cacheWindow ui fuel current_speed increment { w with thread := t }

/-- The loop `while (!threadShouldExit() && is_playing)` of `run()` (lines 118-264).
`passes` bounds the number of passes, `p` counts the passes made so far, `ui p` are
the UI writes during pass `p` and `idle p` those during the sleep that follows it. -/
def run (s : Settings) (ui : Nat → Nat → List UIOp) (idle : Nat → List UIOp) (fuel : Nat) :
    Nat → Nat → World → PassResult
  | 0, _, w => if !w.threadShouldExit && w.thread.is_playing then .outOfFuel w else .completed w
  | passes + 1, p, w =>
    if !w.threadShouldExit && w.thread.is_playing then
      match pass s (ui p) fuel w with
      | .completed w => run s ui idle fuel passes (p + 1) (applyOps (idle p) w)
      | r => r
    else .completed w

/-- No write of the UI thread. -/
def noUI : Nat → List UIOp := fun _ => []

/-! ## Reading the trace -/

/-- The frame numbers passed to `reader->GetFrame`, in call order. -/
def getFrameCalls : List Event → List Int
  | [] => []
  | Event.GetFrame k :: tr => k :: getFrameCalls tr
  | _ :: tr => getFrameCalls tr

/-- The frame numbers passed to `Contains` or `GetFrame` in the window loop. -/
def usedFrames : List Event → List Int
  | [] => []
  | Event.GetFrame k :: tr => k :: usedFrames tr
  | Event.Contains k :: tr => k :: usedFrames tr
  | _ :: tr => usedFrames tr

/-- The frame visits of the window loop, in order: the frame, `cached_frame_count`
after it and `isReady()` after it. -/
def visits : List Event → List (Int × Int × Bool)
  | [] => []
  | Event.visited k c b :: tr => (k, c, b) :: visits tr
  | _ :: tr => visits tr

/-- The value of `isReady()` after each frame visit, in visit order. -/
def readyAfterVisits (tr : List Event) : List Bool := (visits tr).map (fun v => v.2.2)

/-- The frames visited by the window loop, in visit order. -/
def visitedFrames (tr : List Event) : List Int := (visits tr).map (fun v => v.1)

/-- Number of calls of `ClearAllCache()`. -/
def clearCount : List Event → Nat
  | [] => 0
  | Event.ClearAllCache :: tr => clearCount tr + 1
  | _ :: tr => clearCount tr

/-! ## Vocabulary of the statements and proofs -/

/-- The world at the point where the window loop ended. -/
def LoopResult.world : LoopResult → World
  | .finished w _ _ => w
  | .threw w => w
  | .outOfFuel w => w

/-- The world at the point where the fetch block ended. -/
def VisitResult.world : VisitResult → World
  | .ok w _ _ => w
  | .threw w => w

/-- The state in which none of the cancellation checks of the window loop fires: the
requested frame is the current one or lies inside the window, the speed is the
snapshot `current_speed`, and the worker is playing. -/
def Steady (current_speed starting_frame ending_frame : Int) (w : World) : Prop :=
  (w.thread.requested_display_frame = w.thread.current_display_frame ∨
    (0 ≤ current_speed ∧ starting_frame ≤ w.thread.requested_display_frame ∧
      w.thread.requested_display_frame ≤ ending_frame) ∨
    (current_speed < 0 ∧ ending_frame ≤ w.thread.requested_display_frame ∧
      w.thread.requested_display_frame ≤ starting_frame)) ∧
  w.thread.speed = current_speed ∧ w.thread.is_playing = true

/-- The events of `n` consecutive visits of uncached frames, starting at frame `a`
with `cached_frame_count = c`, when no `GetFrame` call fails fatally. -/
def fetchTrace (increment min_frames_ahead : Int) : Nat → Int → Int → List Event
  | 0, _, _ => []
  | n + 1, a, c =>
    [Event.Contains a, Event.GetFrame a,
      Event.visited a (c + 1) (decide (c + 1 > min_frames_ahead))]
      ++ fetchTrace increment min_frames_ahead n (a + increment) (c + 1)

/-- The frames `a, a + d, ..., a + (n - 1) * d`. -/
def frameSeq (a d : Int) (n : Nat) : List Int :=
  (List.range n).map (fun j : Nat => a + (j : Int) * d)

/-- What a run of frame visits without UI writes leaves unchanged: every field of the
worker except `cached_frame_count` (advanced by `n`) and `last_cached_frame`, the
reader except that its cache may have grown by frames of `added`, and the flag. -/
def Advanced (w w1 : World) (n : Nat) (added : List Int) : Prop :=
  w1.thread = { w.thread with
    cached_frame_count := w.thread.cached_frame_count + (n : Int),
    last_cached_frame := w1.thread.last_cached_frame } ∧
  w1.reader = { w.reader with cache := w1.reader.cache } ∧
  (∀ x, x ∈ w.reader.cache → x ∈ w1.reader.cache) ∧
  (∀ x, x ∈ w1.reader.cache → x ∈ w.reader.cache ∨ x ∈ added) ∧
  w1.threadShouldExit = w.threadShouldExit

/-- What neither the window loop nor a UI write changes: the window sizes, the last
speed, the playhead, and the reader apart from its cache. -/
def SameConfig (w w1 : World) : Prop :=
  w1.thread.max_frames_ahead = w.thread.max_frames_ahead ∧
  w1.thread.min_frames_ahead = w.thread.min_frames_ahead ∧
  w1.thread.last_speed = w.thread.last_speed ∧
  w1.thread.current_display_frame = w.thread.current_display_frame ∧
  w1.reader = { w.reader with cache := w1.reader.cache }

/-- The world right after construction: the worker as `VideoCacheThread()` leaves it,
with `requested` the initial value of `requested_display_frame`, attached to `reader`. -/
def World.init (requested : Int) (reader : Reader) : World :=
  { thread := VideoCacheThread.ctor requested, reader := reader,
    threadShouldExit := false, trace := [] }

/-- A seek names a frame number `≥ 1`; the other UI writes are unrestricted. -/
def UIOp.framesPositive : UIOp → Prop
  | .Seek n => 1 ≤ n
  | .SeekPreroll n _ => 1 ≤ n
  | _ => True

/-- The states reachable from `w0` by UI writes satisfying `allowed` and by worker
passes (entered only while `is_playing` and not asked to exit), including the states
in which a pass is cut off after any number of frame visits. -/
inductive Reachable (allowed : UIOp → Prop) (w0 : World) : World → Prop where
  | init : Reachable allowed w0 w0
  | uiWrite {w : World} (op : UIOp) :
      Reachable allowed w0 w → allowed op → Reachable allowed w0 (op.apply w)
  | workerPass {w : World} (s : Settings) (ui : Nat → List UIOp) (fuel : Nat) :
      Reachable allowed w0 w → w.thread.is_playing = true → w.threadShouldExit = false →
      (∀ i, ∀ op ∈ ui i, allowed op) → Reachable allowed w0 (pass s ui fuel w).world

/-- Both playhead fields are `≥ 1`. -/
def PlayheadPositive (w : World) : Prop :=
  1 ≤ w.thread.current_display_frame ∧ 1 ≤ w.thread.requested_display_frame

/-! ## Concrete scenarios -/

/-- A reader of a 1920x1080, 30 fps, stereo 48 kHz timeline on which every frame can
be produced, with the cache `cache` and byte budget `max_bytes`. -/
def demoReader (cache : List Int) (max_bytes : Int) : Reader :=
  { width := 1920, height := 1080, sample_rate := 48000, channels := 2, fps := (30 : ℚ),
    preview_width := 1920, preview_height := 1080,
    GetFrame := (fun _ => GetFrameResult.frame), cache := cache, max_bytes := max_bytes }

/-- Settings with min preroll 4, max preroll 8, 90 % ahead (the `float` nearest to 0.9),
at most 200 frames, caching switched by `enabled`. -/
def demoSettings (enabled : Bool) : Settings :=
  { VIDEO_CACHE_MIN_PREROLL_FRAMES := 4, VIDEO_CACHE_MAX_PREROLL_FRAMES := 8,
    VIDEO_CACHE_PERCENT_AHEAD := roundFloat (9 / 10), VIDEO_CACHE_MAX_FRAMES := 200,
    ENABLE_PLAYBACK_CACHING := enabled }

/-- The freshly constructed worker after `Play()` with `speed = 1`, on an empty cache. -/
def coldStartWorld : World :=
  { thread := { (VideoCacheThread.ctor 1).Play with speed := 1 },
    reader := demoReader [] 0, threadShouldExit := false, trace := [] }

/-- Steady reverse play at playhead 50. -/
def reversePlayWorld : World :=
  { thread := { speed := -1, last_speed := -1, is_playing := true,
                current_display_frame := 50, requested_display_frame := 50,
                cached_frame_count := 0, min_frames_ahead := 4, max_frames_ahead := 8,
                should_pause_cache := false, last_cached_frame := none },
    reader := demoReader [] 0, threadShouldExit := false, trace := [] }

/-- The state of a reverse pass with a seek to frame 500 pending: `speed = -1`,
`last_speed = -1`, playhead 50. -/
def reversePendingSeekWorld : World :=
  { thread := { speed := -1, last_speed := -1, is_playing := true,
                current_display_frame := 50, requested_display_frame := 500,
                cached_frame_count := 0, min_frames_ahead := 4, max_frames_ahead := 8,
                should_pause_cache := false, last_cached_frame := none },
    reader := demoReader [] 0, threadShouldExit := false, trace := [] }

/-- The first pass after the UI reversed the direction at playhead 50: `speed = -1`
while `last_speed = 1`. -/
def justReversedWorld : World :=
  { thread := { speed := -1, last_speed := 1, is_playing := true,
                current_display_frame := 50, requested_display_frame := 50,
                cached_frame_count := 0, min_frames_ahead := 4, max_frames_ahead := 8,
                should_pause_cache := false, last_cached_frame := none },
    reader := demoReader [] 0, threadShouldExit := false, trace := [] }

/-- The worker of scenario 2: caching 100..108 at speed 1, `isReady()` true. -/
def midPlaybackWorld : World :=
  { thread := { speed := 1, last_speed := 1, is_playing := true,
                current_display_frame := 100, requested_display_frame := 100,
                cached_frame_count := 9, min_frames_ahead := 4, max_frames_ahead := 8,
                should_pause_cache := false, last_cached_frame := some 108 },
    reader := demoReader [108, 107, 106, 105, 104, 103, 102, 101, 100] 0,
    threadShouldExit := false, trace := [] }

/-- A worker paused on frames 100..108 of the cache whose `min_frames_ahead` is -1
(as left by a pass under `VIDEO_CACHE_MIN_PREROLL_FRAMES = -1`). -/
def negativePrerollWorld : World :=
  { thread := { speed := 1, last_speed := 1, is_playing := true,
                current_display_frame := 100, requested_display_frame := 100,
                cached_frame_count := 9, min_frames_ahead := -1, max_frames_ahead := 8,
                should_pause_cache := false, last_cached_frame := some 108 },
    reader := demoReader [108, 107, 106, 105, 104, 103, 102, 101, 100] 0,
    threadShouldExit := false, trace := [] }

/-- A worker paused after forward play at frame 100, before the first paused pass; the
cache budget is 1 GiB and the preview is 1024x1024 with no audio, 4 MiB per frame. -/
def pausedWorld : World :=
  { thread := { speed := 0, last_speed := 1, is_playing := true,
                current_display_frame := 100, requested_display_frame := 100,
                cached_frame_count := 9, min_frames_ahead := 4, max_frames_ahead := 8,
                should_pause_cache := false, last_cached_frame := some 108 },
    reader :=
      { width := 1920, height := 1080, sample_rate := 0, channels := 2, fps := (30 : ℚ),
        preview_width := 1024, preview_height := 1024,
        GetFrame := (fun _ => GetFrameResult.frame),
        cache := [108, 107, 106, 105, 104, 103, 102, 101, 100],
        max_bytes := 1073741824 },
    threadShouldExit := false, trace := [] }

/-- The worker of scenario 3 at the moment the UI has set `speed = 0` after forward
play at frame 100, with frames 100..104 in the cache and no byte budget. -/
def justPausedWorld : World :=
  { thread := { speed := 0, last_speed := 1, is_playing := true,
                current_display_frame := 100, requested_display_frame := 100,
                cached_frame_count := 9, min_frames_ahead := 4, max_frames_ahead := 8,
                should_pause_cache := false, last_cached_frame := some 104 },
    reader := demoReader [104, 103, 102, 101, 100] 0,
    threadShouldExit := false, trace := [] }

/-- A freshly constructed worker after `Play()` (paused: `speed = 0`, `last_speed = 1`)
on an empty timeline: every `GetFrame` fails with `OutOfBoundsFrame` and the cache is
empty. -/
def emptyTimelineWorld : World :=
  { thread := (VideoCacheThread.ctor 1).Play,
    reader :=
      { width := 1920, height := 1080, sample_rate := 48000, channels := 2, fps := (30 : ℚ),
        preview_width := 1920, preview_height := 1080,
        GetFrame := (fun _ => GetFrameResult.OutOfBoundsFrame), cache := [], max_bytes := 0 },
    threadShouldExit := false, trace := [] }

/-- The freshly constructed worker started in reverse: `speed = -1` (while
`last_speed = 1` from construction), `requested_display_frame = 1`, after `Play()`. -/
def coldReverseWorld : World :=
  { thread := { (VideoCacheThread.ctor 1).Play with speed := -1 },
    reader := demoReader [] 0, threadShouldExit := false, trace := [] }

/-- A reader like `demoReader` on a timeline of five frames: `GetFrame` fails with
`OutOfBoundsFrame` beyond frame 5. -/
def shortTimelineWorld : World :=
  { thread := { (VideoCacheThread.ctor 1).Play with speed := 1 },
    reader :=
      { width := 1920, height := 1080, sample_rate := 48000, channels := 2, fps := (30 : ℚ),
        preview_width := 1920, preview_height := 1080,
        GetFrame := (fun k => if k ≤ 5 then GetFrameResult.frame
                              else GetFrameResult.OutOfBoundsFrame),
        cache := [], max_bytes := 0 },
    threadShouldExit := false, trace := [] }

/-- A reader whose `GetFrame` fails at frame 3 with a failure other than
`OutOfBoundsFrame`. -/
def brokenReaderWorld : World :=
  { thread := { (VideoCacheThread.ctor 1).Play with speed := 1 },
    reader :=
      { width := 1920, height := 1080, sample_rate := 48000, channels := 2, fps := (30 : ℚ),
        preview_width := 1920, preview_height := 1080,
        GetFrame := (fun k => if k = 3 then GetFrameResult.otherFailure
                              else GetFrameResult.frame),
        cache := [], max_bytes := 0 },
    threadShouldExit := false, trace := [] }

/-- Lines 139 and 177-183: the increment of the window loop of a pass whose speed
snapshot is `current_speed`. -/
def increment (current_speed last_speed : Int) : Int :=
  if current_speed = 0 then (if last_speed > 0 then 1 else -1) else toInt16 current_speed

/-- A worker playing at `speed = 65536` on an empty timeline (every `GetFrame` fails
with `OutOfBoundsFrame`). -/
def speed65536World : World :=
  { thread := { (VideoCacheThread.ctor 1).Play with speed := 65536 },
    reader :=
      { width := 1920, height := 1080, sample_rate := 48000, channels := 2, fps := (30 : ℚ),
        preview_width := 1920, preview_height := 1080,
        GetFrame := (fun _ => GetFrameResult.OutOfBoundsFrame), cache := [], max_bytes := 0 },
    threadShouldExit := false, trace := [] }

/-- The worker of scenario 2 with only frame 100 left in the cache: ready, playing
forward at frame 100. -/
def fragmentedCacheWorld : World :=
  { thread := { speed := 1, last_speed := 1, is_playing := true,
                current_display_frame := 100, requested_display_frame := 100,
                cached_frame_count := 9, min_frames_ahead := 4, max_frames_ahead := 8,
                should_pause_cache := false, last_cached_frame := some 108 },
    reader := demoReader [100] 0, threadShouldExit := false, trace := [] }

/-- The UI schedule with a single `Stop()`, landing during visit `i`. -/
def stopDuringVisit (i : Nat) : Nat → List UIOp :=
  fun j => if j = i then [UIOp.Stop] else []

/-- Lines 230-238: the condition under which the seek check clears
`should_pause_cache` and leaves the loop. -/
def seekedOutsideWindow (starting_frame ending_frame : Int) (t : VideoCacheThread) : Bool :=
  decide (t.requested_display_frame ≠ t.current_display_frame ∧
    ((t.speed ≥ 0 ∧ (t.requested_display_frame < starting_frame ∨
        t.requested_display_frame > ending_frame)) ∨
     (t.speed < 0 ∧ (t.requested_display_frame > starting_frame ∨
        t.requested_display_frame < ending_frame))))

/-- A worker paused after reverse play at frame 50 (`speed = 0`, `last_speed = -1`),
before its first paused pass, with a seek to frame 45 pending. -/
def pausedAfterReverseWorld : World :=
  { thread := { speed := 0, last_speed := -1, is_playing := true,
                current_display_frame := 50, requested_display_frame := 45,
                cached_frame_count := 9, min_frames_ahead := 4, max_frames_ahead := 8,
                should_pause_cache := false, last_cached_frame := some 42 },
    reader := demoReader [50, 49, 48] 0, threadShouldExit := false, trace := [] }

/-- A worker paused after forward play at frame 100 (`speed = 0`, `last_speed = 1`),
before its first paused pass, with a seek to frame 105 pending. -/
def pausedAfterForwardWorld : World :=
  { thread := { speed := 0, last_speed := 1, is_playing := true,
                current_display_frame := 100, requested_display_frame := 105,
                cached_frame_count := 9, min_frames_ahead := 4, max_frames_ahead := 8,
                should_pause_cache := false, last_cached_frame := some 104 },
    reader := demoReader [104, 103, 102, 101, 100] 0,
    threadShouldExit := false, trace := [] }

/-- The freshly constructed worker after a write of `speed = 3` and `Play()`, on an empty
cache: fast-forward from frame 1 with `last_speed = 1`. -/
def fastForwardWorld : World :=
  UIOp.Play.apply ((UIOp.setSpeed 3).apply (World.init 1 (demoReader [] 0)))

/-- Modelled from the spec: the image buffer of a frame (`Magick::Image`, whose code is
outside `src/`).  Only what the constructors of `Frame` pass to it is kept. -/
inductive ImageContent where
  | color (name : String)
  | pixels (map : String) (type : Nat) (pixels : List Nat)
  deriving DecidableEq, Repr

/-- Modelled from the spec: the image buffer of a frame (`Magick::Image`), with its width
and height in pixels. -/
structure Image where
  width : Int
  height : Int
  content : ImageContent
  deriving DecidableEq, Repr

/-- Modelled from the spec: `Magick::Image(Magick::Geometry(width, height),
Magick::Color(color))`, a solid-colour image. -/
def Image.solid (width height : Int) (color : String) : Image :=
  { width := width, height := height, content := ImageContent.color color }

/-- Modelled from the spec: `Magick::Image(width, height, map, type, pixels)`, an image
built from a raw pixel array. -/
def Image.fromPixels (width height : Int) (map : String) (type : Nat) (pixels : List Nat) :
    Image :=
  { width := width, height := height, content := ImageContent.pixels map type pixels }

/-- Modelled from the spec: the audio buffer of a frame (`juce::AudioSampleBuffer`, whose
code is outside `src/`): `numChannels` channels of `size` samples each.  Sample values are
rationals; the development only stores them, compares them with zero and mix-adds. -/
structure AudioSampleBuffer where
  numChannels : Int
  size : Int
  data : List (List ℚ)
  deriving DecidableEq

/-- Modelled from the spec: `new juce::AudioSampleBuffer(channels, samples)`.  The
allocated samples are not initialised: `memory c i` is whatever the allocation holds at
channel `c`, sample `i`. -/
def AudioSampleBuffer.alloc (memory : Nat → Nat → ℚ) (channels samples : Int) :
    AudioSampleBuffer :=
  { numChannels := channels, size := samples,
    data := (List.range channels.toNat).map
      (fun c => (List.range samples.toNat).map (fun i => memory c i)) }

/-- Modelled from the spec: `juce::AudioSampleBuffer::clear()`, which sets every sample to
zero. -/
def AudioSampleBuffer.clear (b : AudioSampleBuffer) : AudioSampleBuffer :=
  { b with data := b.data.map (fun channel => channel.map (fun _ => 0)) }

/-- Failures a call on a frame can report. -/
inductive FrameError where
  | outOfRange
  | nullPointer
  deriving DecidableEq, Repr

/-- Modelled from the spec: `juce::AudioSampleBuffer::addFrom`, whose code is outside
`src/`.  The spec's words: mix-add `gain * source[i]` into
`audio[dest_channel][dest_start_sample + i]` for `i ∈ [0, num_samples)`; fails with an
out-of-range error if `dest_channel` is outside `[0, channels)` or if the sample window
exceeds the audio buffer, and then leaves the buffer untouched.  The result is the
failure, if any, and the buffer after the call. -/
def AudioSampleBuffer.addFrom (b : AudioSampleBuffer) (destChannel destStartSample : Int)
    (source : Nat → ℚ) (numSamples : Int) (gainToApplyToSource : ℚ) :
    Option FrameError × AudioSampleBuffer :=
  if destChannel < 0 ∨ b.numChannels ≤ destChannel ∨ destStartSample < 0 ∨
      b.size < destStartSample + numSamples then
    (some FrameError.outOfRange, b)
  else
    (none,
      { b with
        data := (List.range b.data.length).map (fun (c : Nat) =>
          let channel := b.data.getD c []
          if (c : Int) = destChannel then
            (List.range channel.length).map (fun (j : Nat) =>
              if destStartSample ≤ (j : Int) ∧ (j : Int) < destStartSample + numSamples then
                channel.getD j 0 + gainToApplyToSource * source (j - destStartSample.toNat)
              else channel.getD j 0)
          else channel) })

/-- The `Frame` class: `number`, and the two owned buffers `image` and `audio`, which are
pointers in the source (`none` is the null pointer). -/
structure Frame where
  number : Int
  image : Option Image
  audio : Option AudioSampleBuffer
  deriving DecidableEq

/-- The member initialisers shared by all constructors: `number(n), image(0), audio(0)`. -/
def Frame.init (number : Int) : Frame :=
  { number := number, image := none, audio := none }

/-- The body shared by all constructors (lines 14-19 and alike): allocate the image,
allocate the audio buffer, then `audio->clear()`. -/
def Frame.build (f : Frame) (image : Image) (audio : AudioSampleBuffer) : Frame :=
  let f := { f with image := some image }
  let f := { f with audio := some audio }
  { f with audio := f.audio.map AudioSampleBuffer.clear }

/-- `Frame::Frame()` (lines 12-20): blank frame. -/
def Frame.Frame_blank (memory : Nat → Nat → ℚ) : Frame :=
  (Frame.init 1).build (Image.solid 300 200 "red") (AudioSampleBuffer.alloc memory 2 1600)

/-- `Frame::Frame(number, width, height, color)` (lines 23-31): image only. -/
def Frame.Frame_image (memory : Nat → Nat → ℚ) (number width height : Int) (color : String) :
    Frame :=
  (Frame.init number).build (Image.solid width height color)
    (AudioSampleBuffer.alloc memory 2 1600)

/-- `Frame::Frame(number, width, height, map, type, pixels)` (lines 34-43): image only,
from a pixel array. -/
def Frame.Frame_pixels (memory : Nat → Nat → ℚ) (number width height : Int) (map : String)
    (type : Nat) (pixels : List Nat) : Frame :=
  (Frame.init number).build (Image.fromPixels width height map type pixels)
    (AudioSampleBuffer.alloc memory 2 1600)

/-- `Frame::Frame(number, samples, channels)` (lines 46-54): audio only. -/
def Frame.Frame_audio (memory : Nat → Nat → ℚ) (number samples channels : Int) : Frame :=
  (Frame.init number).build (Image.solid 300 200 "white")
    (AudioSampleBuffer.alloc memory channels samples)

/-- `Frame::Frame(number, width, height, color, samples, channels)` (lines 57-65): image
and audio. -/
def Frame.Frame_image_audio (memory : Nat → Nat → ℚ) (number width height : Int)
    (color : String) (samples channels : Int) : Frame :=
  (Frame.init number).build (Image.solid width height color)
    (AudioSampleBuffer.alloc memory channels samples)

/-- `Frame::AddAudio` (lines 285-289): forwards to `audio->addFrom` and does nothing else.
The result is the failure, if any, and the frame after the call.  Calling through a null
`audio` is undefined behaviour in C++; the model reports it as `nullPointer`. -/
def Frame.AddAudio (f : Frame) (destChannel destStartSample : Int) (source : Nat → ℚ)
    (numSamples : Int) (gainToApplyToSource : ℚ) : Option FrameError × Frame :=
  match f.audio with
  | none => (some FrameError.nullPointer, f)
  | some audio =>
    let r := audio.addFrom destChannel destStartSample source numSamples gainToApplyToSource
    (r.1, { f with audio := some r.2 })

/-- Both buffers of the frame are allocated, the image is `width` by `height`, and the
audio buffer holds `channels` channels of `samples` samples, every one of them zero. -/
def Frame.Blank (f : Frame) (width height channels samples : Int) : Prop :=
  (∃ i, f.image = some i ∧ i.width = width ∧ i.height = height) ∧
  (∃ a, f.audio = some a ∧ a.numChannels = channels ∧ a.size = samples ∧
    a.data.length = channels.toNat ∧
    ∀ channel ∈ a.data, channel.length = samples.toNat ∧ ∀ x ∈ channel, x = 0)

/-- Allocated memory whose content is not silence. -/
def noisyMemory : Nat → Nat → ℚ := fun c i => (c : ℚ) + (i : ℚ) + 1

/-- Rounding of an exact result to `double` (IEEE 754 binary64): the nearest multiple of
`2 ^ (e - 52)`, where `e` is the binary exponent of `q`, ties to even. -/
def roundDouble (q : ℚ) : ℚ :=
  if q = 0 then 0
  else
    let ulp := pow2 (floatExponent q - 52)
    (roundHalfEven (q / ulp) : ℚ) * ulp

/-- Modelled from the spec: the drawing primitives of Magick++ (`Magick::Drawable...`)
that `DisplayWaveform` appends to its list, with their arguments.  The coordinates are
`double` in Magick++; those the source passes as `int` are kept as integers (the
conversion is exact). -/
inductive Drawable where
  | FillColor (color : String)
  | PointSize (size : Int)
  | StrokeColor (color : String)
  | StrokeWidth (width : ℚ)
  | Line (startX startY endX : Int) (endY : ℚ)
  | Point (x y : Int)
  | Text (x y : Int) (text : String)
  deriving DecidableEq

/-- What `DisplayWaveform` hands to the display: the canvas `wave_image` as it is created
(its geometry is that of `canvas`), the list `lines` drawn on it, the geometry of the
final resize if one is made, and the values written to `cout`. -/
structure WaveformDisplay where
  canvas : Image
  lines : List Drawable
  resize : Option (Int × Int)
  output : List ℚ
  deriving DecidableEq

/-- Lines 154-177: the loop over the samples of one channel, drawn at baseline `Y`.
`value = samples[sample] * 100` is a `float` product, `Y - value` a `float` difference. -/
def waveformSamples (Y : Int) (samples : List ℚ) :
    List Nat → List Drawable × List ℚ → List Drawable × List ℚ
  | [], acc => acc
  | sample :: rest, (lines, output) =>
    let value : ℚ := fmul (samples.getD sample 0) (intToFloat 100)
    let output := if value > 100 ∨ value < -100 then output ++ [value] else output
    let lines :=
      if value ≠ 0 then
        lines ++ [Drawable.StrokeColor "#0070ff", Drawable.StrokeWidth 1,
          Drawable.Line (sample : Int) Y (sample : Int) (roundFloat (intToFloat Y - value))]
      else
        lines ++ [Drawable.FillColor "#0070ff", Drawable.StrokeWidth 1,
          Drawable.Point (sample : Int) Y]
    waveformSamples Y samples rest (lines, output)

/-- Lines 148-189: the loop over the channels.  `Y` is the baseline of the channel at the
head of the list; after each channel `Y += (200 + height_padding)`. -/
def waveformChannels (audio : AudioSampleBuffer) (height_padding : Int) :
    List Nat → Int → List Drawable × List ℚ → List Drawable × List ℚ
  | [], _, acc => acc
  | channel :: rest, Y, acc =>
    let samples := audio.data.getD channel []
    let acc := waveformSamples Y samples (List.range audio.size.toNat) acc
    let lines := acc.1 ++
      [Drawable.StrokeColor "#ffffff", Drawable.FillColor "#ffffff",
        Drawable.StrokeWidth (roundDouble (1 / 10)),
        Drawable.Text 5 (Y - 5) ("Channel " ++ toString channel)]
    let Y := Y + (200 + height_padding)
    waveformChannels audio height_padding rest Y (lines, acc.2)

/-- `Frame::DisplayWaveform(resize)` (lines 126-216).  `none` is the call through a null
`audio`.  The arguments of the resize, `width * 0.6` and `total_height * 0.6`, are `double`
products converted to integers. -/
def Frame.DisplayWaveform (f : Frame) (resize : Bool) : Option WaveformDisplay :=
  match f.audio with
  | none => none
  | some audio =>
    let lines : List Drawable := [Drawable.FillColor "#0070ff", Drawable.PointSize 16]
    let width := audio.size
    if width > 0 then
      let height := 200 * audio.numChannels
      let height_padding := 20 * (audio.numChannels - 1)
      let total_height := height + height_padding
      let wave_image := Image.solid width total_height "#000000"
      let Y : Int := 100
      let drawn := waveformChannels audio height_padding
        (List.range audio.numChannels.toNat) Y (lines, [])
      some { canvas := wave_image, lines := drawn.1,
             resize :=
               if resize then
                 some (truncate (roundDouble (roundDouble (width : ℚ) * roundDouble (6 / 10))),
                   truncate (roundDouble (roundDouble (total_height : ℚ) * roundDouble (6 / 10))))
               else none,
             output := drawn.2 }
    else
      let wave_image := Image.solid 720 480 "#000000"
      let lines := lines ++
        [Drawable.StrokeColor "#ffffff", Drawable.FillColor "#ffffff",
          Drawable.StrokeWidth (roundDouble (1 / 10)),
          Drawable.Text 265 240 "No Audio Samples Found"]
      some { canvas := wave_image, lines := lines, resize := none, output := [] }

/-- The baseline of a drawn sample: the `Y` of a `Point`, the starting `Y` of a `Line`. -/
def Drawable.baseline : Drawable → Option Int
  | Drawable.Line _ startY _ _ => some startY
  | Drawable.Point _ y => some y
  | _ => none

/-- The baselines of the samples drawn, in drawing order. -/
def WaveformDisplay.baselines (d : WaveformDisplay) : List Int :=
  d.lines.filterMap Drawable.baseline

/-- The vertical midpoint of the 200-pixel row of channel `c`, the rows being separated by
20 pixels of padding. -/
def rowMidpoint (c : Nat) : Int := 100 + 220 * (c : Int)

/-! ## Lemmas on traces -/

theorem getFrameCalls_append (xs ys : List Event) :
    getFrameCalls (xs ++ ys) = getFrameCalls xs ++ getFrameCalls ys := by
  induction xs with
  | nil => rfl
  | cons e xs ih => cases e <;> simp [getFrameCalls, ih]

theorem usedFrames_append (xs ys : List Event) :
    usedFrames (xs ++ ys) = usedFrames xs ++ usedFrames ys := by
  induction xs with
  | nil => rfl
  | cons e xs ih => cases e <;> simp [usedFrames, ih]

theorem visits_append (xs ys : List Event) :
    visits (xs ++ ys) = visits xs ++ visits ys := by
  induction xs with
  | nil => rfl
  | cons e xs ih => cases e <;> simp [visits, ih]

theorem clearCount_append (xs ys : List Event) :
    clearCount (xs ++ ys) = clearCount xs + clearCount ys := by
  induction xs with
  | nil => simp [clearCount]
  | cons e xs ih =>
    cases e <;> simp [clearCount, ih]
    omega

theorem frameSeq_succ (a d : Int) (n : Nat) :
    frameSeq a d (n + 1) = a :: frameSeq (a + d) d n := by
  unfold frameSeq
  rw [List.range_succ_eq_map]
  simp only [List.map_cons, List.map_map, Nat.cast_zero, zero_mul, add_zero]
  congr 1
  apply List.map_congr_left
  intro j _
  simp only [Function.comp, Nat.cast_succ]
  ring

theorem getFrameCalls_fetchTrace (d m : Int) (n : Nat) (a c : Int) :
    getFrameCalls (fetchTrace d m n a c) = frameSeq a d n := by
  induction n generalizing a c with
  | zero => rfl
  | succ n ih => simp [fetchTrace, getFrameCalls, frameSeq_succ, ih]

theorem visits_fetchTrace (d m : Int) (n : Nat) (a c : Int) :
    visits (fetchTrace d m n a c) =
      (List.range n).map (fun j : Nat =>
        (a + (j : Int) * d, c + (j : Int) + 1, decide (c + (j : Int) + 1 > m))) := by
  induction n generalizing a c with
  | zero => rfl
  | succ n ih =>
    rw [List.range_succ_eq_map]
    have hstep : visits (fetchTrace d m (n + 1) a c) =
        (a, c + 1, decide (c + 1 > m)) :: visits (fetchTrace d m n (a + d) (c + 1)) := rfl
    rw [hstep, ih]
    simp only [List.map_cons, List.map_map, Nat.cast_zero, zero_mul, add_zero]
    congr 1
    apply List.map_congr_left
    intro j _
    simp only [Function.comp, Nat.cast_succ]
    have e1 : a + d + (j : Int) * d = a + ((j : Int) + 1) * d := by ring
    have e2 : c + 1 + (j : Int) + 1 = c + ((j : Int) + 1) + 1 := by ring
    rw [e1, e2]

/-! ## The window loop in a steady state -/

theorem checkpoints_steady (cs sf ef : Int) (w : World) (h : Steady cs sf ef w) :
    checkpoints cs sf ef w = (false, w) := by
  obtain ⟨h1, h2, h3⟩ := h
  have c1 : ¬ (w.thread.requested_display_frame ≠ w.thread.current_display_frame ∧
      w.thread.speed ≥ 0 ∧ (w.thread.requested_display_frame < sf ∨
        w.thread.requested_display_frame > ef)) := by
    rintro ⟨a, b, c⟩
    rcases h1 with h | ⟨_, h, h4⟩ | ⟨h, _, _⟩
    · exact a h
    · omega
    · omega
  have c2 : ¬ (w.thread.requested_display_frame ≠ w.thread.current_display_frame ∧
      w.thread.speed < 0 ∧ (w.thread.requested_display_frame > sf ∨
        w.thread.requested_display_frame < ef)) := by
    rintro ⟨a, b, c⟩
    rcases h1 with h | ⟨h, _, _⟩ | ⟨_, h, h4⟩
    · exact a h
    · omega
    · omega
  unfold checkpoints
  simp only []
  rw [if_neg c1, if_neg c2]
  simp [h2, h3]

theorem visitFrame_uncached (k : Int) (w : World) (unc alr : Int)
    (hk : k ∉ w.reader.cache) (hf : w.reader.GetFrame k ≠ .otherFailure) :
    ∃ w1 unc1, visitFrame k w unc alr = .ok w1 unc1 alr ∧
      w1.trace = w.trace ++ [Event.Contains k, Event.GetFrame k,
        Event.visited k (w.thread.cached_frame_count + 1)
          (decide (w.thread.cached_frame_count + 1 > w.thread.min_frames_ahead))] ∧
      Advanced w w1 1 [k] ∧ unc ≤ unc1 ∧ unc1 ≤ unc + 1 := by
  have hc : w.reader.Contains k = false := by simp [Reader.Contains, hk]
  cases hg : w.reader.GetFrame k with
  | otherFailure => exact absurd hg hf
  | frame =>
    simp only [visitFrame, hc, hg]
    refine ⟨_, _, rfl, ?_, ?_, ?_, ?_⟩
    · simp [VideoCacheThread.isReady]
    · refine ⟨by simp, by simp [Reader.afterGetFrame, hg, hk], ?_, ?_, rfl⟩
      · intro x hx
        simp [Reader.afterGetFrame, hg, hk, hx]
      · intro x hx
        simp only [Reader.afterGetFrame, hg, hk, if_false, List.mem_cons] at hx
        rcases hx with h | h
        · exact Or.inr (by simp [h])
        · exact Or.inl h
    · omega
    · omega
  | OutOfBoundsFrame =>
    simp only [visitFrame, hc, hg]
    refine ⟨_, _, rfl, ?_, ?_, ?_, ?_⟩
    · simp [VideoCacheThread.isReady]
    · exact ⟨by simp, rfl, fun x hx => hx, fun x hx => Or.inl hx, rfl⟩
    · omega
    · omega

theorem advanced_steady {w w1 : World} {n : Nat} {l : List Int} {cs sf ef : Int}
    (h : Advanced w w1 n l) (hs : Steady cs sf ef w) : Steady cs sf ef w1 := by
  obtain ⟨ht, -⟩ := h
  obtain ⟨h1, h2, h3⟩ := hs
  unfold Steady
  rw [ht]
  exact ⟨h1, h2, h3⟩

theorem advanced_refl (w : World) : Advanced w w 0 [] := by
  simp [Advanced]

theorem advanced_trans {w w1 w2 : World} {a d : Int} {n : Nat}
    (h1 : Advanced w w1 1 [a]) (h2 : Advanced w1 w2 n (frameSeq (a + d) d n)) :
    Advanced w w2 (n + 1) (frameSeq a d (n + 1)) := by
  obtain ⟨t1, r1, s1, c1, e1⟩ := h1
  obtain ⟨t2, r2, s2, c2, e2⟩ := h2
  refine ⟨?_, ?_, ?_, ?_, ?_⟩
  · rw [t2, t1]
    simp only [Nat.cast_add, Nat.cast_one, VideoCacheThread.mk.injEq, true_and, and_true]
    ring
  · rw [r2, r1]
  · exact fun x hx => s2 x (s1 x hx)
  · intro x hx
    rw [frameSeq_succ]
    rcases c2 x hx with h | h
    · rcases c1 x h with h | h
      · exact Or.inl h
      · right
        simp only [List.mem_singleton] at h
        simp [h]
    · right
      exact List.mem_cons_of_mem _ h
  · rw [e2, e1]

theorem windowLoop_fetch (cs sf ef inc : Int) (hinc : inc ≠ 0) :
    ∀ (n fuel i : Nat) (a unc alr : Int) (w : World),
      ef + inc = a + (n : Int) * inc → n ≤ fuel → Steady cs sf ef w →
      (∀ j : Nat, j < n → a + (j : Int) * inc ∉ w.reader.cache ∧
          w.reader.GetFrame (a + (j : Int) * inc) ≠ .otherFailure) →
      ∃ w1 unc1, windowLoop noUI cs sf ef inc fuel i a unc alr w = .finished w1 unc1 alr ∧
        w1.trace = w.trace ++
          fetchTrace inc w.thread.min_frames_ahead n a w.thread.cached_frame_count ∧
        Advanced w w1 n (frameSeq a inc n) ∧ unc ≤ unc1 ∧ unc1 ≤ unc + (n : Int) := by
  intro n
  induction n with
  | zero =>
    intro fuel i a unc alr w hend _ _ _
    have ha : a = ef + inc := by simpa using hend.symm
    refine ⟨w, unc, ?_, ?_, ?_, le_refl _, by simp⟩
    · cases fuel <;> simp [windowLoop, ha]
    · simp [fetchTrace]
    · exact advanced_refl w
  | succ n ih =>
    intro fuel i a unc alr w hend hfuel hs hfr
    obtain ⟨fuel, rfl⟩ : ∃ f, fuel = f + 1 := ⟨fuel - 1, by omega⟩
    have ha : a ≠ ef + inc := by
      intro h
      rw [hend] at h
      have h0 : ((n + 1 : Nat) : Int) * inc = 0 := by linarith
      rcases mul_eq_zero.mp h0 with h1 | h1
      · have : ((n + 1 : Nat) : Int) ≠ 0 := by exact_mod_cast Nat.succ_ne_zero n
        exact this h1
      · exact hinc h1
    have h0 := hfr 0 (Nat.succ_pos n)
    simp only [Nat.cast_zero, zero_mul, add_zero] at h0
    obtain ⟨w1, unc1, hv, htr, hadv, hu1, hu2⟩ := visitFrame_uncached a w unc alr h0.1 h0.2
    have hs1 : Steady cs sf ef w1 := advanced_steady hadv hs
    have hfr1 : ∀ j : Nat, j < n → a + inc + (j : Int) * inc ∉ w1.reader.cache ∧
        w1.reader.GetFrame (a + inc + (j : Int) * inc) ≠ .otherFailure := by
      intro j hj
      have hj1 := hfr (j + 1) (Nat.succ_lt_succ hj)
      have e : a + ((j + 1 : Nat) : Int) * inc = a + inc + (j : Int) * inc := by
        push_cast
        ring
      rw [e] at hj1
      obtain ⟨-, r1, -, c1, -⟩ := hadv
      refine ⟨?_, ?_⟩
      · intro hmem
        rcases c1 _ hmem with h | h
        · exact hj1.1 h
        · simp only [List.mem_singleton] at h
          have h2 : ((j : Int) + 1) * inc = 0 := by linarith
          rcases mul_eq_zero.mp h2 with h3 | h3
          · omega
          · exact hinc h3
      · rw [r1]
        exact hj1.2
    have hend1 : ef + inc = a + inc + (n : Int) * inc := by
      rw [hend]
      push_cast
      ring
    obtain ⟨w2, unc2, hl, htr2, hadv2, hu3, hu4⟩ :=
      ih fuel (i + 1) (a + inc) unc1 alr w1 hend1 (by omega) hs1 hfr1
    refine ⟨w2, unc2, ?_, ?_, advanced_trans hadv hadv2, by omega, ?_⟩
    · rw [windowLoop]
      simp only [ha, if_false, hv]
      have hop : applyOps (noUI i) w1 = w1 := rfl
      rw [hop, checkpoints_steady cs sf ef w1 hs1]
      exact hl
    · rw [htr2, htr]
      obtain ⟨t1, -⟩ := hadv
      rw [t1]
      simp [fetchTrace]
    · push_cast
      omega

theorem cacheWindow_fetch (cs inc : Int) (hinc : inc ≠ 0) (fuel n : Nat) (w : World)
    (sf ef : Int)
    (hwin : window w.thread.current_display_frame w.thread.last_speed
      w.thread.max_frames_ahead = (sf, ef))
    (hend : ef + inc = sf + (n : Int) * inc) (hfuel : n ≤ fuel) (hs : Steady cs sf ef w)
    (hfr : ∀ j : Nat, j < n → sf + (j : Int) * inc ∉ w.reader.cache ∧
      w.reader.GetFrame (sf + (j : Int) * inc) ≠ .otherFailure) :
    ∃ w1 unc, cacheWindow noUI fuel cs inc w = .completed (endOfPass cs unc w1) ∧
      w1.trace = w.trace ++
        fetchTrace inc w.thread.min_frames_ahead n sf w.thread.cached_frame_count ∧
      Advanced w w1 n (frameSeq sf inc n) ∧ 0 ≤ unc ∧ unc ≤ (n : Int) := by
  obtain ⟨w1, unc, hl, htr, hadv, h0, h1⟩ :=
    windowLoop_fetch cs sf ef inc hinc n fuel 0 sf 0 0 w hend hfuel hs hfr
  refine ⟨w1, unc, ?_, htr, hadv, h0, by simpa using h1⟩
  simp only [cacheWindow, hwin, hl]

theorem endOfPass_trace (cs unc : Int) (w : World) : (endOfPass cs unc w).trace = w.trace := rfl

theorem endOfPass_reader (cs unc : Int) (w : World) : (endOfPass cs unc w).reader = w.reader := rfl

theorem visitFrame_steady (k : Int) (w : World) (unc alr : Int)
    (hf : w.reader.GetFrame k ≠ .otherFailure) :
    ∃ w1 unc1 alr1, visitFrame k w unc alr = .ok w1 unc1 alr1 ∧
      visits w1.trace = visits w.trace ++
        [(k, w.thread.cached_frame_count + 1,
          decide (w.thread.cached_frame_count + 1 > w.thread.min_frames_ahead))] ∧
      Advanced w w1 1 [k] := by
  by_cases hk : k ∈ w.reader.cache
  · have hc : w.reader.Contains k = true := by simp [Reader.Contains, hk]
    simp only [visitFrame, hc]
    refine ⟨_, _, _, rfl, ?_, ?_⟩
    · simp [visits_append, visits, VideoCacheThread.isReady]
    · exact ⟨by simp, rfl, fun x hx => hx, fun x hx => Or.inl hx, rfl⟩
  · obtain ⟨w1, unc1, hv, htr, hadv, -, -⟩ := visitFrame_uncached k w unc alr hk hf
    refine ⟨w1, unc1, alr, hv, ?_, hadv⟩
    rw [htr]
    simp [visits_append, visits]

/-- The window loop without UI writes in a steady state: it visits the `n` frames from
`a` to `ending_frame`, one per step of `increment`, and then ends. -/
theorem windowLoop_walk (cs sf ef inc : Int) (hinc : inc ≠ 0) :
    ∀ (n fuel i : Nat) (a unc alr : Int) (w : World),
      ef + inc = a + (n : Int) * inc → n ≤ fuel → Steady cs sf ef w →
      (∀ k, w.reader.GetFrame k ≠ .otherFailure) →
      ∃ w1 unc1 alr1, windowLoop noUI cs sf ef inc fuel i a unc alr w = .finished w1 unc1 alr1 ∧
        visits w1.trace = visits w.trace ++
          (List.range n).map (fun j : Nat =>
            (a + (j : Int) * inc, w.thread.cached_frame_count + (j : Int) + 1,
              decide (w.thread.cached_frame_count + (j : Int) + 1 > w.thread.min_frames_ahead))) ∧
        Advanced w w1 n (frameSeq a inc n) := by
  intro n
  induction n with
  | zero =>
    intro fuel i a unc alr w hend _ _ _
    have ha : a = ef + inc := by simpa using hend.symm
    refine ⟨w, unc, alr, ?_, by simp, advanced_refl w⟩
    cases fuel <;> simp [windowLoop, ha]
  | succ n ih =>
    intro fuel i a unc alr w hend hfuel hs hfr
    obtain ⟨fuel, rfl⟩ : ∃ f, fuel = f + 1 := ⟨fuel - 1, by omega⟩
    have ha : a ≠ ef + inc := by
      intro h
      rw [hend] at h
      have h0 : ((n + 1 : Nat) : Int) * inc = 0 := by linarith
      rcases mul_eq_zero.mp h0 with h1 | h1
      · have : ((n + 1 : Nat) : Int) ≠ 0 := by exact_mod_cast Nat.succ_ne_zero n
        exact this h1
      · exact hinc h1
    obtain ⟨w1, unc1, alr1, hv, htr, hadv⟩ := visitFrame_steady a w unc alr (hfr a)
    have hs1 : Steady cs sf ef w1 := advanced_steady hadv hs
    have hfr1 : ∀ k, w1.reader.GetFrame k ≠ .otherFailure := by
      intro k
      obtain ⟨-, r1, -⟩ := hadv
      rw [r1]
      exact hfr k
    have hend1 : ef + inc = a + inc + (n : Int) * inc := by
      rw [hend]
      push_cast
      ring
    obtain ⟨w2, unc2, alr2, hl, htr2, hadv2⟩ :=
      ih fuel (i + 1) (a + inc) unc1 alr1 w1 hend1 (by omega) hs1 hfr1
    refine ⟨w2, unc2, alr2, ?_, ?_, advanced_trans hadv hadv2⟩
    · rw [windowLoop]
      simp only [ha, if_false, hv]
      have hop : applyOps (noUI i) w1 = w1 := rfl
      rw [hop, checkpoints_steady cs sf ef w1 hs1]
      exact hl
    · rw [htr2, htr]
      obtain ⟨t1, -⟩ := hadv
      rw [t1, List.range_succ_eq_map]
      simp only [List.append_assoc, List.singleton_append, List.map_cons, List.map_map,
        Nat.cast_zero, zero_mul, add_zero, Nat.cast_one]
      congr 2
      apply List.map_congr_left
      intro j _
      simp only [Function.comp, Nat.cast_succ]
      have e1 : a + inc + (j : Int) * inc = a + ((j : Int) + 1) * inc := by ring
      have e2 : w.thread.cached_frame_count + 1 + (j : Int) + 1 =
          w.thread.cached_frame_count + ((j : Int) + 1) + 1 := by ring
      rw [e1, e2]

/-- A window loop without UI writes whose steps never meet `ending_frame + increment`
does not end: in a steady state it is still running after any number of frame
visits. -/
theorem windowLoop_runaway (cs sf ef inc : Int) :
    ∀ (fuel i : Nat) (a u al : Int) (w : World),
      Steady cs sf ef w → (∀ k, w.reader.GetFrame k ≠ .otherFailure) →
      (∀ n : Nat, a + (n : Int) * inc ≠ ef + inc) →
      ∃ w1, windowLoop noUI cs sf ef inc fuel i a u al w = .outOfFuel w1 := by
  intro fuel
  induction fuel with
  | zero =>
    intro i a u al w _ _ hne
    have h0 : a ≠ ef + inc := by simpa using hne 0
    exact ⟨w, by simp [windowLoop, h0]⟩
  | succ fuel ih =>
    intro i a u al w hs hfr hne
    have h0 : a ≠ ef + inc := by simpa using hne 0
    obtain ⟨w1, u1, a1, hv, -, hadv⟩ := visitFrame_steady a w u al (hfr a)
    have hs1 : Steady cs sf ef w1 := advanced_steady hadv hs
    have hfr1 : ∀ k, w1.reader.GetFrame k ≠ .otherFailure := by
      intro k
      obtain ⟨-, r1, -⟩ := hadv
      rw [r1]
      exact hfr k
    have hne1 : ∀ n : Nat, a + inc + (n : Int) * inc ≠ ef + inc := by
      intro n
      have := hne (n + 1)
      have e : a + ((n + 1 : Nat) : Int) * inc = a + inc + (n : Int) * inc := by
        push_cast
        ring
      rwa [e] at this
    obtain ⟨w2, hl⟩ := ih (i + 1) (a + inc) u1 a1 w1 hs1 hfr1 hne1
    refine ⟨w2, ?_⟩
    rw [windowLoop]
    simp only [h0, if_false, hv]
    have hop : applyOps (noUI i) w1 = w1 := rfl
    rw [hop, checkpoints_steady cs sf ef w1 hs1]
    exact hl

theorem cacheWindow_runaway (cs inc : Int) (fuel : Nat) (w : World) (sf ef : Int)
    (hwin : window w.thread.current_display_frame w.thread.last_speed
      w.thread.max_frames_ahead = (sf, ef))
    (hs : Steady cs sf ef w) (hfail : ∀ k, w.reader.GetFrame k ≠ .otherFailure)
    (hne : ∀ n : Nat, sf + (n : Int) * inc ≠ ef + inc) :
    ∃ w1, cacheWindow noUI fuel cs inc w = .outOfFuel w1 := by
  obtain ⟨w1, hl⟩ := windowLoop_runaway cs sf ef inc fuel 0 sf 0 0 w hs hfail hne
  exact ⟨w1, by simp only [cacheWindow, hwin, hl]⟩

/-! ## C1: cold start, forward play -/

/-- C1. Cold start, forward play.  From the freshly constructed worker after `Play()`
with `speed = 1` and `requested_display_frame = 1`, caching enabled, max preroll
`M ≥ 0`, min preroll `m`, none of the frames `1 .. 1 + M` in the cache and no `GetFrame`
call on them failing with anything but `OutOfBoundsFrame`, one pass without UI writes
runs to its end (whenever the bound on frame visits is at least `M + 1`), calls
`reader.GetFrame` for exactly `1, 2, ..., 1 + M` in that order, and `isReady()` after the
`j`-th frame visit is `true` exactly when `j > m`: false after each of the first `m`
visits, true after visit `m + 1`. -/
theorem cold_start_forward_play (s : Settings) (w : World) (fuel : Nat)
    (hM : 0 ≤ s.VIDEO_CACHE_MAX_PREROLL_FRAMES)
    (hen : s.ENABLE_PLAYBACK_CACHING = true)
    (hthread : w.thread = { (VideoCacheThread.ctor 1).Play with speed := 1 })
    (hcache : ∀ k : Int, 1 ≤ k → k ≤ 1 + s.VIDEO_CACHE_MAX_PREROLL_FRAMES → k ∉ w.reader.cache)
    (hfail : ∀ k : Int, 1 ≤ k → k ≤ 1 + s.VIDEO_CACHE_MAX_PREROLL_FRAMES →
      w.reader.GetFrame k ≠ GetFrameResult.otherFailure)
    (hfuel : s.VIDEO_CACHE_MAX_PREROLL_FRAMES.toNat + 1 ≤ fuel) :
    ∃ w1, pass s noUI fuel w = PassResult.completed w1 ∧
      getFrameCalls w1.trace = getFrameCalls w.trace ++
        (List.range (s.VIDEO_CACHE_MAX_PREROLL_FRAMES.toNat + 1)).map
          (fun j : Nat => 1 + (j : Int)) ∧
      readyAfterVisits w1.trace = readyAfterVisits w.trace ++
        (List.range (s.VIDEO_CACHE_MAX_PREROLL_FRAMES.toNat + 1)).map
          (fun j : Nat => decide ((j : Int) + 1 > s.VIDEO_CACHE_MIN_PREROLL_FRAMES)) := by
  obtain ⟨m, M, pa, mf, en⟩ := s
  simp only at hM hen hcache hfail hfuel ⊢
  subst hen
  have hMn : ((M.toNat : Nat) : Int) = M := Int.toNat_of_nonneg hM
  let w0 : World := { w with thread :=
    { w.thread with min_frames_ahead := m, max_frames_ahead := M, should_pause_cache := false,
                    cached_frame_count := 0 } }
  have hpass : pass ⟨m, M, pa, mf, true⟩ noUI fuel w = cacheWindow noUI fuel 1 1 w0 := by
    simp only [pass, passHead, hthread, VideoCacheThread.ctor, VideoCacheThread.Play, w0]
    by_cases hc : w.reader.Count = 0 <;> simp [hc, toInt16]
  have hwin : window w0.thread.current_display_frame w0.thread.last_speed
      w0.thread.max_frames_ahead = (1, 1 + M) := by
    simp only [w0, hthread, VideoCacheThread.ctor, VideoCacheThread.Play, window]
    have h1 : ¬ (1 + M < 1) := by omega
    simp [h1]
  have hs : Steady 1 1 (1 + M) w0 := by
    simp [Steady, w0, hthread, VideoCacheThread.ctor, VideoCacheThread.Play]
  obtain ⟨w1, unc, hcw, htr, -, -, -⟩ :=
    cacheWindow_fetch 1 1 one_ne_zero fuel (M.toNat + 1) w0 1 (1 + M) hwin
      (by push_cast; rw [hMn]; ring) hfuel hs
      (by
        intro j hj
        have hj1 : (j : Int) ≤ M := by
          have : (j : Int) < ((M.toNat + 1 : Nat) : Int) := by exact_mod_cast hj
          push_cast at this
          omega
        have hj0 : (0 : Int) ≤ j := Int.natCast_nonneg j
        exact ⟨hcache _ (by omega) (by omega), hfail _ (by omega) (by omega)⟩)
  refine ⟨endOfPass 1 unc w1, by rw [hpass, hcw], ?_, ?_⟩
  · rw [endOfPass_trace, htr, getFrameCalls_append, getFrameCalls_fetchTrace]
    simp [frameSeq, w0]
  · rw [endOfPass_trace, htr]
    simp only [readyAfterVisits, visits_append, visits_fetchTrace, List.map_append, List.map_map]
    simp [w0, hthread, VideoCacheThread.ctor, VideoCacheThread.Play, Function.comp_def]

/-- C1 (witness). `m = 4`, `M = 8`: the fetches are 1..9 and `isReady()` is true from the
5th visit on. -/
theorem cold_start_forward_play_witness :
    ∃ w1, pass (demoSettings true) noUI 9 coldStartWorld = PassResult.completed w1 ∧
      getFrameCalls w1.trace = [1, 2, 3, 4, 5, 6, 7, 8, 9] ∧
      readyAfterVisits w1.trace = [false, false, false, false, true, true, true, true, true] := by
  obtain ⟨w1, h1, h2, h3⟩ := cold_start_forward_play (demoSettings true) coldStartWorld 9
    (by decide) rfl rfl (by intro k _ _; simp [coldStartWorld, demoReader])
    (by intro k _ _; simp [coldStartWorld, demoReader]) (by decide)
  exact ⟨w1, h1, h2, h3⟩

/-! ## C2: reverse play -/

theorem passHead_fields (s : Settings) (w : World) :
    (passHead s w).speed = w.thread.speed ∧
    (passHead s w).last_speed = w.thread.last_speed ∧
    (passHead s w).is_playing = w.thread.is_playing ∧
    (passHead s w).current_display_frame = w.thread.current_display_frame ∧
    (passHead s w).requested_display_frame = w.thread.requested_display_frame ∧
    (passHead s w).min_frames_ahead = s.VIDEO_CACHE_MIN_PREROLL_FRAMES ∧
    (passHead s w).max_frames_ahead = s.VIDEO_CACHE_MAX_PREROLL_FRAMES ∧
    (passHead s w).last_cached_frame = w.thread.last_cached_frame := by
  unfold passHead
  by_cases h : w.reader.Count = 0 <;> simp [h]

theorem pass_playing (s : Settings) (ui : Nat → List UIOp) (fuel : Nat) (w : World)
    (hen : s.ENABLE_PLAYBACK_CACHING = true) (hsp : w.thread.speed ≠ 0) :
    pass s ui fuel w = cacheWindow ui fuel w.thread.speed (toInt16 w.thread.speed)
      { w with thread := { passHead s w with should_pause_cache := false } } := by
  have h1 := (passHead_fields s w).1
  simp only [pass, h1, hsp, hen, false_and, false_or, if_false]
  simp

/-- C2 (amended). Reverse play.  In a pass with `speed = -1`, `last_speed < 0`,
`current_display_frame = c ≥ 1`, max preroll `M ≥ 0`, caching enabled, the requested
frame inside the window `[max(1, c - M), c]`, none of the window's frames cached, no
`GetFrame` call on them failing with anything but `OutOfBoundsFrame` and no UI write
during the pass, the window is `c` down to `max(1, c - M)`, the pass runs to its end,
and `reader.GetFrame` is called for exactly `c, c - 1, ..., max(1, c - M)` in that
order. -/
theorem reverse_play (s : Settings) (w : World) (fuel : Nat)
    (hM : 0 ≤ s.VIDEO_CACHE_MAX_PREROLL_FRAMES)
    (hen : s.ENABLE_PLAYBACK_CACHING = true)
    (hspeed : w.thread.speed = -1) (hlast : w.thread.last_speed < 0)
    (hplay : w.thread.is_playing = true)
    (hc : 1 ≤ w.thread.current_display_frame)
    (hreq : max 1 (w.thread.current_display_frame - s.VIDEO_CACHE_MAX_PREROLL_FRAMES)
        ≤ w.thread.requested_display_frame ∧
      w.thread.requested_display_frame ≤ w.thread.current_display_frame)
    (hcache : ∀ k : Int,
      max 1 (w.thread.current_display_frame - s.VIDEO_CACHE_MAX_PREROLL_FRAMES) ≤ k →
      k ≤ w.thread.current_display_frame → k ∉ w.reader.cache)
    (hfail : ∀ k : Int,
      max 1 (w.thread.current_display_frame - s.VIDEO_CACHE_MAX_PREROLL_FRAMES) ≤ k →
      k ≤ w.thread.current_display_frame →
      w.reader.GetFrame k ≠ GetFrameResult.otherFailure)
    (hfuel : (w.thread.current_display_frame -
      max 1 (w.thread.current_display_frame - s.VIDEO_CACHE_MAX_PREROLL_FRAMES)).toNat + 1
        ≤ fuel) :
    window w.thread.current_display_frame w.thread.last_speed
        s.VIDEO_CACHE_MAX_PREROLL_FRAMES =
      (w.thread.current_display_frame,
        max 1 (w.thread.current_display_frame - s.VIDEO_CACHE_MAX_PREROLL_FRAMES)) ∧
    ∃ w1, pass s noUI fuel w = PassResult.completed w1 ∧
      getFrameCalls w1.trace = getFrameCalls w.trace ++
        (List.range ((w.thread.current_display_frame -
          max 1 (w.thread.current_display_frame - s.VIDEO_CACHE_MAX_PREROLL_FRAMES)).toNat + 1)).map
          (fun j : Nat => w.thread.current_display_frame - (j : Int)) := by
  obtain ⟨f1, f2, f3, f4, f5, f6, f7, -⟩ := passHead_fields s w
  generalize hcdef : w.thread.current_display_frame = c at *
  generalize hMdef : s.VIDEO_CACHE_MAX_PREROLL_FRAMES = M at *
  generalize hedef : max 1 (c - M) = e at *
  have he1 : 1 ≤ e := by rw [← hedef]; exact le_max_left _ _
  have he2 : c - M ≤ e := by rw [← hedef]; exact le_max_right _ _
  have he3 : e ≤ c := by rw [← hedef]; exact max_le hc (by omega)
  have he4 : e = 1 ∨ e = c - M := by
    rw [← hedef]
    rcases le_total 1 (c - M) with h | h
    · right; exact max_eq_right h
    · left; exact max_eq_left h
  have hwin : window c w.thread.last_speed M = (c, e) := by
    have h1 : ¬ (c < 1) := by omega
    simp only [window, hlast, if_true, h1, if_false, Prod.mk.injEq, true_and]
    split_ifs with h2
    · omega
    · omega
  refine ⟨hwin, ?_⟩
  have hn : (((c - e).toNat : Nat) : Int) = c - e := Int.toNat_of_nonneg (by omega)
  let w0 : World := { w with thread := { passHead s w with should_pause_cache := false } }
  have hs : Steady (-1) c e w0 := by
    refine ⟨Or.inr (Or.inr ⟨by omega, ?_, ?_⟩), ?_, ?_⟩
    · show e ≤ (passHead s w).requested_display_frame
      rw [f5]; exact hreq.1
    · show (passHead s w).requested_display_frame ≤ c
      rw [f5]; exact hreq.2
    · show (passHead s w).speed = -1
      rw [f1]; exact hspeed
    · show (passHead s w).is_playing = true
      rw [f3]; exact hplay
  have hwin0 : window w0.thread.current_display_frame w0.thread.last_speed
      w0.thread.max_frames_ahead = (c, e) := by
    show window (passHead s w).current_display_frame (passHead s w).last_speed
      (passHead s w).max_frames_ahead = (c, e)
    rw [f4, f2, f7]; exact hwin
  obtain ⟨w1, unc, hcw, htr, -, -, -⟩ :=
    cacheWindow_fetch (-1) (-1) (by decide) fuel ((c - e).toNat + 1) w0 c e hwin0
      (by push_cast; rw [hn]; ring) hfuel hs
      (by
        intro j hj
        have hj1 : (j : Int) ≤ c - e := by
          have : (j : Int) < (((c - e).toNat + 1 : Nat) : Int) := by exact_mod_cast hj
          push_cast at this
          omega
        have hj0 : (0 : Int) ≤ j := Int.natCast_nonneg j
        exact ⟨hcache _ (by omega) (by omega), hfail _ (by omega) (by omega)⟩)
  refine ⟨endOfPass (-1) unc w1, ?_, ?_⟩
  · rw [pass_playing s noUI fuel w hen (by rw [hspeed]; decide), hspeed]
    exact hcw
  · rw [endOfPass_trace, htr, getFrameCalls_append, getFrameCalls_fetchTrace]
    simp only [frameSeq, w0]
    congr 1
    apply List.map_congr_left
    intro j _
    ring

/-- C2 (witness). `c = 50`, `M = 8`, steady reverse play: the window is 50..42 and the
requests are 50, 49, ..., 42. -/
theorem reverse_play_witness :
    window 50 (-1) 8 = (50, 42) ∧
    ∃ w1, pass (demoSettings true) noUI 9 reversePlayWorld = PassResult.completed w1 ∧
      getFrameCalls w1.trace = [50, 49, 48, 47, 46, 45, 44, 43, 42] := by
  obtain ⟨h0, w1, h1, h2⟩ := reverse_play (demoSettings true) reversePlayWorld 9
    (by decide) rfl rfl (by decide) rfl (by decide) (by decide)
    (by intro k _ _; simp [reversePlayWorld, demoReader])
    (by intro k _ _; simp [reversePlayWorld, demoReader]) (by decide)
  exact ⟨h0, w1, h1, h2⟩

/-- C2 (counterexample). With a seek to frame 500 pending (`speed = -1`,
`last_speed = -1`, playhead 50, max preroll 8, empty cache, no UI write during the
pass) the pass requests frame 50 only.  On the first pass after the direction was
reversed (`last_speed = 1`) the window is 50..58, not 50..42, and the loop, stepping
by -1, has requested 50, 49, ..., 41 after ten frame visits and is still running after
any number of visits. -/
theorem reverse_play_counterexample :
    (∃ w1, pass (demoSettings true) noUI 9 reversePendingSeekWorld = PassResult.completed w1 ∧
      getFrameCalls w1.trace = [50] ∧
      getFrameCalls w1.trace ≠ [50, 49, 48, 47, 46, 45, 44, 43, 42]) ∧
    window 50 1 8 = (50, 58) ∧ window 50 1 8 ≠ (50, 42) ∧
    getFrameCalls (pass (demoSettings true) noUI 10 justReversedWorld).world.trace =
      [50, 49, 48, 47, 46, 45, 44, 43, 42, 41] ∧
    ∀ fuel, ∃ w1, pass (demoSettings true) noUI fuel justReversedWorld =
      PassResult.outOfFuel w1 := by
  refine ⟨⟨_, rfl, by decide, by decide⟩, by decide, by decide, by decide, ?_⟩
  intro fuel
  rw [pass_playing (demoSettings true) noUI fuel justReversedWorld rfl (by decide)]
  exact cacheWindow_runaway _ _ fuel _ 50 58 (by decide) ⟨Or.inl rfl, rfl, rfl⟩
    (by intro k; simp [justReversedWorld, demoReader])
    (by intro n; show (50 : Int) + (n : Int) * (-1) ≠ 58 + (-1); omega)

/-! ## C3 and C4: `Seek(n, start_preroll)` -/

/-- C3. `Seek(n, start_preroll)` computes `previous_frame = max(1, n - sign(last_speed))`
and calls `ClearAllCache()` exactly when the cache does not contain `previous_frame`,
for either value of `start_preroll`: then the call is the one event added to the trace
and the cache is emptied; when the cache contains `previous_frame` no call is made and
the reader and its cache stay as they were. -/
theorem seek_clears_cache_iff_previous_frame_missing (w : World) (n : Int)
    (start_preroll : Bool) :
    previous_frame w.thread.last_speed n = max 1 (n - Int.sign w.thread.last_speed) ∧
    (w.Seek n start_preroll).trace =
      (if w.reader.Contains (max 1 (n - Int.sign w.thread.last_speed)) then w.trace
       else w.trace ++ [Event.ClearAllCache]) ∧
    (w.Seek n start_preroll).reader =
      (if w.reader.Contains (max 1 (n - Int.sign w.thread.last_speed)) then w.reader
       else w.reader.ClearAllCache) := by
  have hp : previous_frame w.thread.last_speed n = max 1 (n - Int.sign w.thread.last_speed) := by
    unfold previous_frame
    rcases lt_trichotomy w.thread.last_speed 0 with h | h | h
    · have hs : Int.sign w.thread.last_speed = -1 := Int.sign_eq_neg_one_of_neg h
      rw [hs]
      simp only [h, if_true]
      split_ifs with h1
      · rw [max_eq_left (by omega)]
      · rw [max_eq_right (by omega)]
        omega
    · rw [h]
      simp only [lt_irrefl, if_false, gt_iff_lt, Int.sign_zero, sub_zero]
      split_ifs with h1
      · rw [max_eq_left (by omega)]
      · rw [max_eq_right (by omega)]
    · have hs : Int.sign w.thread.last_speed = 1 := Int.sign_eq_one_of_pos h
      have hn : ¬ (w.thread.last_speed < 0) := by omega
      rw [hs]
      simp only [hn, if_false, gt_iff_lt, h, if_true]
      split_ifs with h1
      · rw [max_eq_left (by omega)]
      · rw [max_eq_right (by omega)]
  refine ⟨hp, ?_, ?_⟩
  · rw [← hp]
    unfold World.Seek
    cases hc : w.reader.Contains (previous_frame w.thread.last_speed n) with
    | true =>
      simp only [hc, Bool.not_true, Bool.false_eq_true, if_false, if_true]
      split_ifs <;> rfl
    | false =>
      simp only [hc, Bool.not_false, if_true, Bool.false_eq_true, if_false]
      split_ifs <;> rfl
  · rw [← hp]
    unfold World.Seek
    cases hc : w.reader.Contains (previous_frame w.thread.last_speed n) with
    | true =>
      simp only [hc, Bool.not_true, Bool.false_eq_true, if_false, if_true]
      split_ifs <;> rfl
    | false =>
      simp only [hc, Bool.not_false, if_true, Bool.false_eq_true, if_false]
      split_ifs <;> rfl

/-- C4 (amended). After `Seek(n, true)` when the cache does not contain `n` at the
pre-roll check, that is when it did not contain `n` before the call or the call cleared
it (it did not contain `previous_frame`): `cached_frame_count = 0`,
`requested_display_frame = n`, `should_pause_cache` is cleared if `speed == 0` (and kept
otherwise), and `isReady()` returns false exactly when `min_frames_ahead ≥ 0`; every
other field of the worker is unchanged. -/
theorem seek_preroll_resets_count (w : World) (n : Int)
    (hn : w.reader.Contains n = false ∨
      w.reader.Contains (previous_frame w.thread.last_speed n) = false) :
    (w.Seek n true).thread =
      { w.thread with
        cached_frame_count := 0,
        requested_display_frame := n,
        should_pause_cache :=
          if w.thread.speed = 0 then false else w.thread.should_pause_cache } ∧
    (w.Seek n true).thread.isReady = decide (w.thread.min_frames_ahead < 0) ∧
    (0 ≤ w.thread.min_frames_ahead → (w.Seek n true).thread.isReady = false) := by
  have hthread : (w.Seek n true).thread =
      { w.thread with
        cached_frame_count := 0,
        requested_display_frame := n,
        should_pause_cache :=
          if w.thread.speed = 0 then false else w.thread.should_pause_cache } := by
    unfold World.Seek
    cases hc : w.reader.Contains (previous_frame w.thread.last_speed n) with
    | true =>
      have hn1 : w.reader.Contains n = false := by
        rcases hn with h | h
        · exact h
        · rw [hc] at h
          exact absurd h (by decide)
      simp only [hc, Bool.not_true, Bool.false_eq_true, if_false, hn1, Bool.not_false,
        Bool.and_self, if_true, VideoCacheThread.Seek]
      split_ifs <;> rfl
    | false =>
      have hcl : w.reader.ClearAllCache.Contains n = false := by
        simp [Reader.Contains, Reader.ClearAllCache]
      simp only [hc, Bool.not_false, if_true, hcl, Bool.and_self, VideoCacheThread.Seek]
      split_ifs <;> rfl
  refine ⟨hthread, ?_, ?_⟩
  · rw [hthread]
    simp [VideoCacheThread.isReady]
  · intro h
    rw [hthread]
    simp [VideoCacheThread.isReady, h]

/-- C4 (witness). Scenario 2: the worker caches 100..108, then `Seek(500, true)`. -/
theorem seek_preroll_resets_count_witness :
    (midPlaybackWorld.Seek 500 true).thread.cached_frame_count = 0 ∧
    (midPlaybackWorld.Seek 500 true).thread.requested_display_frame = 500 ∧
    (midPlaybackWorld.Seek 500 true).thread.isReady = false ∧
    clearCount (midPlaybackWorld.Seek 500 true).trace = 1 := by
  obtain ⟨h1, -, h3⟩ := seek_preroll_resets_count midPlaybackWorld 500 (Or.inl (by decide))
  refine ⟨?_, ?_, h3 (by decide), by decide⟩
  · rw [h1]
  · rw [h1]

/-- C4 (counterexample). A worker whose `min_frames_ahead` is -1 caches 100..108; after
`Seek(500, true)`, with neither 499 nor 500 in the cache, `cached_frame_count` is 0 and
`isReady()` returns true. -/
theorem seek_preroll_ready_counterexample :
    negativePrerollWorld.reader.Contains 500 = false ∧
    negativePrerollWorld.reader.Contains 499 = false ∧
    (negativePrerollWorld.Seek 500 true).thread.cached_frame_count = 0 ∧
    (negativePrerollWorld.Seek 500 true).thread.isReady = true := by
  decide

/-! ## C5: caching disabled -/

/-- C5. Caching disabled.  A pass with `ENABLE_PLAYBACK_CACHING = false`, whatever the
speed, the UI writes and the bound on frame visits, runs to its end without any call on
the reader or its cache (the trace and the reader are unchanged, so no `GetFrame`
call), ends with `current_display_frame = requested_display_frame`, leaves
`last_speed` and the requested frame as they were, and does not increment
`cached_frame_count`: the count is kept, or reset to 0 when the cache is empty. -/
theorem caching_disabled_pass (s : Settings) (ui : Nat → List UIOp) (fuel : Nat) (w : World)
    (hen : s.ENABLE_PLAYBACK_CACHING = false) :
    ∃ w1, pass s ui fuel w = PassResult.completed w1 ∧
      w1.trace = w.trace ∧ w1.reader = w.reader ∧
      getFrameCalls w1.trace = getFrameCalls w.trace ∧
      w1.thread.current_display_frame = w1.thread.requested_display_frame ∧
      w1.thread.requested_display_frame = w.thread.requested_display_frame ∧
      w1.thread.last_speed = w.thread.last_speed ∧
      w1.thread.cached_frame_count =
        (if w.reader.Count = 0 then 0 else w.thread.cached_frame_count) := by
  obtain ⟨-, f2, -, -, f5, -, -, -⟩ := passHead_fields s w
  refine ⟨{ w with thread := { passHead s w with
      current_display_frame := (passHead s w).requested_display_frame } }, ?_, rfl, rfl, rfl,
    rfl, f5, f2, ?_⟩
  · simp [pass, hen]
  · show (passHead s w).cached_frame_count = _
    unfold passHead
    split_ifs <;> rfl

/-- C5 (witness). The cold-start worker with caching disabled. -/
theorem caching_disabled_pass_witness :
    ∃ w1, pass (demoSettings false) noUI 9 coldStartWorld = PassResult.completed w1 ∧
      getFrameCalls w1.trace = [] ∧ w1.thread.current_display_frame = 1 ∧
      w1.thread.cached_frame_count = 0 ∧ w1.thread.last_speed = 1 := by
  obtain ⟨w1, h1, h2, -, -, h5, h6, h7, h8⟩ :=
    caching_disabled_pass (demoSettings false) noUI 9 coldStartWorld rfl
  refine ⟨w1, h1, ?_, ?_, ?_, ?_⟩
  · rw [h2]; rfl
  · rw [h5, h6]; rfl
  · rw [h8]; rfl
  · rw [h7]; rfl

/-! ## Invariants of the window loop under UI writes -/

theorem sameConfig_refl (w : World) : SameConfig w w := ⟨rfl, rfl, rfl, rfl, rfl⟩

theorem sameConfig_trans {w w1 w2 : World} (h1 : SameConfig w w1) (h2 : SameConfig w1 w2) :
    SameConfig w w2 := by
  obtain ⟨a1, b1, c1, d1, e1⟩ := h1
  obtain ⟨a2, b2, c2, d2, e2⟩ := h2
  refine ⟨a2.trans a1, b2.trans b1, c2.trans c1, d2.trans d1, ?_⟩
  rw [e2, e1]

theorem visitFrame_world (k : Int) (w : World) (unc alr : Int) :
    (visitFrame k w unc alr).world.thread =
      { w.thread with
        cached_frame_count := w.thread.cached_frame_count + 1,
        last_cached_frame := (visitFrame k w unc alr).world.thread.last_cached_frame } ∧
    (visitFrame k w unc alr).world.reader =
      { w.reader with cache := (visitFrame k w unc alr).world.reader.cache } ∧
    (visitFrame k w unc alr).world.threadShouldExit = w.threadShouldExit := by
  unfold visitFrame
  cases hc : w.reader.Contains k <;> cases hg : w.reader.GetFrame k <;>
    simp [hc, hg, VisitResult.world, Reader.afterGetFrame]
  split_ifs <;> simp

theorem visitFrame_sameConfig (k : Int) (w : World) (unc alr : Int) :
    SameConfig w (visitFrame k w unc alr).world := by
  obtain ⟨ht, hr, -⟩ := visitFrame_world k w unc alr
  refine ⟨?_, ?_, ?_, ?_, hr⟩ <;> rw [ht]

theorem Seek_sameConfig (w : World) (n : Int) (b : Bool) : SameConfig w (w.Seek n b) := by
  unfold World.Seek SameConfig
  cases hc : w.reader.Contains (previous_frame w.thread.last_speed n) <;>
    cases b <;> simp [hc, VideoCacheThread.Seek, Reader.ClearAllCache] <;>
    split_ifs <;> simp

theorem UIOp.apply_sameConfig (op : UIOp) (w : World) : SameConfig w (op.apply w) := by
  cases op with
  | SeekPreroll n b => exact Seek_sameConfig w n b
  | _ => exact ⟨rfl, rfl, rfl, rfl, rfl⟩

theorem applyOps_sameConfig (ops : List UIOp) (w : World) : SameConfig w (applyOps ops w) := by
  induction ops generalizing w with
  | nil => exact sameConfig_refl w
  | cons op ops ih => exact sameConfig_trans (op.apply_sameConfig w) (ih (op.apply w))

theorem checkpoints_sameConfig (cs sf ef : Int) (w : World) :
    SameConfig w (checkpoints cs sf ef w).2 := by
  unfold checkpoints
  simp only []
  split_ifs <;> exact ⟨rfl, rfl, rfl, rfl, rfl⟩

/-- An invariant of the fetch block, of the UI writes and of the cancellation checks
is an invariant of the window loop, however the loop ends. -/
theorem windowLoop_preserves (P : World → Prop) (ui : Nat → List UIOp)
    (cs sf ef inc : Int)
    (hvisit : ∀ k w u a, P w → P (visitFrame k w u a).world)
    (hops : ∀ i w, P w → P (applyOps (ui i) w))
    (hchk : ∀ w, P w → P (checkpoints cs sf ef w).2) :
    ∀ (fuel i : Nat) (a u al : Int) (w : World), P w →
      P (windowLoop ui cs sf ef inc fuel i a u al w).world := by
  intro fuel
  induction fuel with
  | zero =>
    intro i a u al w hw
    unfold windowLoop
    split_ifs <;> exact hw
  | succ fuel ih =>
    intro i a u al w hw
    unfold windowLoop
    split_ifs with h
    · exact hw
    · have hv := hvisit a w u al hw
      cases hvis : visitFrame a w u al with
      | threw w1 =>
        rw [hvis] at hv
        exact hv
      | ok w1 u1 a1 =>
        rw [hvis] at hv
        have h2 := hchk _ (hops i w1 hv)
        simp only []
        cases hck : checkpoints cs sf ef (applyOps (ui i) w1) with
        | mk b w2 =>
          rw [hck] at h2
          cases b with
          | true => exact h2
          | false => exact ih (i + 1) (a + inc) u1 a1 w2 h2

theorem windowLoop_sameConfig (ui : Nat → List UIOp) (cs sf ef inc : Int)
    (fuel i : Nat) (a u al : Int) (w : World) :
    SameConfig w (windowLoop ui cs sf ef inc fuel i a u al w).world :=
  windowLoop_preserves (fun w1 => SameConfig w w1) ui cs sf ef inc
    (fun k w1 u a h => sameConfig_trans h (visitFrame_sameConfig k w1 u a))
    (fun i w1 h => sameConfig_trans h (applyOps_sameConfig (ui i) w1))
    (fun w1 h => sameConfig_trans h (checkpoints_sameConfig cs sf ef w1))
    fuel i a u al w (sameConfig_refl w)

theorem sameConfig_getFrame {w w1 : World} (h : SameConfig w w1) :
    w1.reader.GetFrame = w.reader.GetFrame := by
  obtain ⟨-, -, -, -, hr⟩ := h
  rw [hr]

theorem visitFrame_threw (k : Int) (w w1 : World) (unc alr : Int)
    (h : visitFrame k w unc alr = .threw w1) :
    w.reader.GetFrame k = GetFrameResult.otherFailure := by
  unfold visitFrame at h
  cases hc : w.reader.Contains k <;> cases hg : w.reader.GetFrame k <;>
    simp [hc, hg] at h
  rfl

/-- The window loop is left by an exception only if some `GetFrame` call of the
reader fails with something other than `OutOfBoundsFrame`. -/
theorem windowLoop_threw (ui : Nat → List UIOp) (cs sf ef inc : Int) :
    ∀ (fuel i : Nat) (a u al : Int) (w w1 : World),
      windowLoop ui cs sf ef inc fuel i a u al w = .threw w1 →
      ∃ k, w.reader.GetFrame k = GetFrameResult.otherFailure := by
  intro fuel
  induction fuel with
  | zero =>
    intro i a u al w w1 h
    unfold windowLoop at h
    split_ifs at h
  | succ fuel ih =>
    intro i a u al w w1 h
    unfold windowLoop at h
    split_ifs at h with h0
    cases hvis : visitFrame a w u al with
    | threw w2 => exact ⟨a, visitFrame_threw a w w2 u al hvis⟩
    | ok w2 u2 a2 =>
      rw [hvis] at h
      simp only [] at h
      cases hck : checkpoints cs sf ef (applyOps (ui i) w2) with
      | mk b w3 =>
        rw [hck] at h
        cases b with
        | true => simp at h
        | false =>
          obtain ⟨k, hk⟩ := ih (i + 1) (a + inc) u2 a2 w3 w1 h
          have h1 : SameConfig w w2 := by
            have := visitFrame_sameConfig a w u al
            rwa [hvis] at this
          have h2 : SameConfig w2 (applyOps (ui i) w2) := applyOps_sameConfig _ _
          have h3 : SameConfig (applyOps (ui i) w2) w3 := by
            have := checkpoints_sameConfig cs sf ef (applyOps (ui i) w2)
            rwa [hck] at this
          have hg := sameConfig_getFrame (sameConfig_trans (sameConfig_trans h1 h2) h3)
          exact ⟨k, by rw [← hg]; exact hk⟩

/-- A window loop whose increment leads from `cache_frame` to `ending_frame + increment`
in `n` steps ends within `n` frame visits, whatever the UI writes. -/
theorem windowLoop_ends (ui : Nat → List UIOp) (cs sf ef inc : Int) :
    ∀ (n fuel i : Nat) (a u al : Int) (w w1 : World),
      ef + inc = a + (n : Int) * inc → n ≤ fuel →
      windowLoop ui cs sf ef inc fuel i a u al w ≠ .outOfFuel w1 := by
  intro n
  induction n with
  | zero =>
    intro fuel i a u al w w1 hend _ h
    have ha : a = ef + inc := by simpa using hend.symm
    cases fuel <;> simp [windowLoop, ha] at h
  | succ n ih =>
    intro fuel i a u al w w1 hend hfuel h
    obtain ⟨fuel, rfl⟩ : ∃ f, fuel = f + 1 := ⟨fuel - 1, by omega⟩
    unfold windowLoop at h
    split_ifs at h with h0
    cases hvis : visitFrame a w u al with
    | threw w2 => simp [hvis] at h
    | ok w2 u2 a2 =>
      rw [hvis] at h
      simp only [] at h
      cases hck : checkpoints cs sf ef (applyOps (ui i) w2) with
      | mk b w3 =>
        rw [hck] at h
        cases b with
        | true => simp at h
        | false =>
          refine ih fuel (i + 1) (a + inc) u2 a2 w3 w1 ?_ (by omega) h
          rw [hend]
          push_cast
          ring

/-! ## C6: the paused window size -/

theorem endOfPass_sizes (cs unc : Int) (w : World) :
    (endOfPass cs unc w).thread.max_frames_ahead = w.thread.max_frames_ahead ∧
    (endOfPass cs unc w).thread.min_frames_ahead = w.thread.min_frames_ahead ∧
    (endOfPass cs unc w).thread.should_pause_cache = w.thread.should_pause_cache ∧
    (endOfPass cs unc w).thread.requested_display_frame = w.thread.requested_display_frame ∧
    (endOfPass cs unc w).thread.current_display_frame = w.thread.requested_display_frame ∧
    (endOfPass cs unc w).thread.speed = w.thread.speed ∧
    (endOfPass cs unc w).thread.is_playing = w.thread.is_playing := by
  unfold endOfPass
  simp only []
  split_ifs <;> exact ⟨rfl, rfl, rfl, rfl, rfl, rfl, rfl⟩

theorem cacheWindow_max_frames_ahead (ui : Nat → List UIOp) (fuel : Nat) (cs inc : Int)
    (w : World) :
    (cacheWindow ui fuel cs inc w).world.thread.max_frames_ahead = w.thread.max_frames_ahead := by
  have h := windowLoop_sameConfig ui cs
    (window w.thread.current_display_frame w.thread.last_speed w.thread.max_frames_ahead).1
    (window w.thread.current_display_frame w.thread.last_speed w.thread.max_frames_ahead).2
    inc fuel 0
    (window w.thread.current_display_frame w.thread.last_speed w.thread.max_frames_ahead).1
    0 0 w
  unfold cacheWindow
  simp only []
  cases hl : windowLoop ui cs
    (window w.thread.current_display_frame w.thread.last_speed w.thread.max_frames_ahead).1
    (window w.thread.current_display_frame w.thread.last_speed w.thread.max_frames_ahead).2
    inc fuel 0
    (window w.thread.current_display_frame w.thread.last_speed w.thread.max_frames_ahead).1
    0 0 w with
  | threw w1 =>
    rw [hl] at h
    exact h.1
  | outOfFuel w1 =>
    rw [hl] at h
    exact h.1
  | finished w1 u1 a1 =>
    rw [hl] at h
    simp only [PassResult.world]
    rw [(endOfPass_sizes cs u1 w1).1]
    exact h.1

theorem pass_paused (s : Settings) (ui : Nat → List UIOp) (fuel : Nat) (w : World) (M : Int)
    (hen : s.ENABLE_PLAYBACK_CACHING = true) (hsp : w.thread.speed = 0)
    (hlatch : (passHead s w).should_pause_cache = false)
    (hM : pausedMaxFramesAhead s w.reader s.VIDEO_CACHE_MAX_PREROLL_FRAMES = some M) :
    pass s ui fuel w = cacheWindow ui fuel 0 (if w.thread.last_speed > 0 then 1 else -1)
      { w with thread :=
          { passHead s w with should_pause_cache := true, max_frames_ahead := M } } := by
  obtain ⟨f1, f2, -, -, -, -, f7, -⟩ := passHead_fields s w
  simp only [pass, f1, hsp, hen, hlatch, f7, hM, f2]
  simp

theorem passHead_latch (s : Settings) (w : World) (h : w.thread.should_pause_cache = false) :
    (passHead s w).should_pause_cache = false := by
  unfold passHead
  split_ifs
  · rfl
  · exact h

/-- C6. Pause fills ahead.  In a paused-filling pass (`speed = 0`, `should_pause_cache`
not yet set, caching enabled) with `cache.GetMaxBytes() > 0` and `bytes_per_frame ≠ 0`,
`max_frames_ahead` is `(GetMaxBytes() / bytes_per_frame) * VIDEO_CACHE_PERCENT_AHEAD`
(integer quotient, `float` product truncated to an integer) clamped to
`VIDEO_CACHE_MAX_FRAMES`:
that is its value wherever the pass ends, under any UI writes, so it is
`≤ VIDEO_CACHE_MAX_FRAMES`; the pass does not divide by zero; `bytes_per_frame` is
`getBytes` of the preview dimensions when they differ from the reader's and of the
reader's dimensions otherwise; and when `last_speed ≠ 0`, the clamped value is `≥ 0` and
no `GetFrame` call fails with anything but `OutOfBoundsFrame`, the pass runs to its end
within that many plus one frame visits. -/
theorem paused_fill_max_frames_ahead (s : Settings) (ui : Nat → List UIOp) (fuel : Nat)
    (w : World)
    (hen : s.ENABLE_PLAYBACK_CACHING = true) (hspeed : w.thread.speed = 0)
    (hlatch : w.thread.should_pause_cache = false)
    (hbytes : w.reader.GetMaxBytes > 0) (hbpf : bytes_per_frame w.reader ≠ 0) :
    (pass s ui fuel w).world.thread.max_frames_ahead =
      min (truncate (fmul (intToFloat (Int.tdiv w.reader.GetMaxBytes
        (bytes_per_frame w.reader))) s.VIDEO_CACHE_PERCENT_AHEAD)) s.VIDEO_CACHE_MAX_FRAMES ∧
    (pass s ui fuel w).world.thread.max_frames_ahead ≤ s.VIDEO_CACHE_MAX_FRAMES ∧
    (∀ w1, pass s ui fuel w ≠ PassResult.divideByZero w1) ∧
    bytes_per_frame w.reader =
      (if w.reader.preview_width ≠ w.reader.width ∨ w.reader.preview_height ≠ w.reader.height
        then getBytes w.reader.preview_width w.reader.preview_height w.reader.sample_rate
          w.reader.channels w.reader.fps
        else getBytes w.reader.width w.reader.height w.reader.sample_rate
          w.reader.channels w.reader.fps) ∧
    (w.thread.last_speed ≠ 0 →
      0 ≤ (pass s ui fuel w).world.thread.max_frames_ahead →
      (pass s ui fuel w).world.thread.max_frames_ahead.toNat + 1 ≤ fuel →
      (∀ k, w.reader.GetFrame k ≠ GetFrameResult.otherFailure) →
      ∃ w1, pass s ui fuel w = PassResult.completed w1) := by
  generalize hX : truncate (fmul (intToFloat (Int.tdiv w.reader.GetMaxBytes
        (bytes_per_frame w.reader))) s.VIDEO_CACHE_PERCENT_AHEAD) = X
  have hM : pausedMaxFramesAhead s w.reader s.VIDEO_CACHE_MAX_PREROLL_FRAMES =
      some (min X s.VIDEO_CACHE_MAX_FRAMES) := by
    simp only [pausedMaxFramesAhead, hbytes, if_true, hbpf, if_false, hX]
    split_ifs with h
    · rw [min_eq_right (by omega)]
    · rw [min_eq_left (by omega)]
  have hp := pass_paused s ui fuel w _ hen hspeed (passHead_latch s w hlatch) hM
  have hval : (pass s ui fuel w).world.thread.max_frames_ahead =
      min X s.VIDEO_CACHE_MAX_FRAMES := by
    rw [hp, cacheWindow_max_frames_ahead]
  refine ⟨hval, ?_, ?_, ?_, ?_⟩
  · rw [hval]
    exact min_le_right _ _
  · intro w1 h
    rw [hp] at h
    unfold cacheWindow at h
    simp only [] at h
    split at h <;> simp at h
  · unfold bytes_per_frame
    simp only []
  · intro hls h0 hfuel hfail
    rw [hval] at h0 hfuel
    generalize hMM : min X s.VIDEO_CACHE_MAX_FRAMES = M at *
    obtain ⟨f1, f2, f3, f4, f5, f6, f7, -⟩ := passHead_fields s w
    rw [hp]
    unfold cacheWindow
    simp only []
    have hMn : ((M.toNat : Nat) : Int) = M := Int.toNat_of_nonneg h0
    generalize hc : (passHead s w).current_display_frame = c
    -- the window and the increment point the same way
    have hal : ∃ n : Nat, n ≤ fuel ∧
        (window c (passHead s w).last_speed M).2 + (if w.thread.last_speed > 0 then 1 else -1) =
        (window c (passHead s w).last_speed M).1 +
          (n : Int) * (if w.thread.last_speed > 0 then 1 else -1) := by
      rw [f2]
      rcases lt_or_gt_of_ne hls with hneg | hpos
      · have hnp : ¬ (w.thread.last_speed > 0) := by omega
        simp only [hnp, if_false, window, hneg, if_true]
        by_cases h1 : c < 1 <;> by_cases h2 : c - M < 1
        · exact ⟨1, by omega, by simp [h1, h2]⟩
        · omega
        · refine ⟨(c - 1).toNat + 1, by omega, ?_⟩
          simp only [h1, h2, if_true, if_false]
          push_cast
          rw [Int.toNat_of_nonneg (by omega)]
          ring
        · refine ⟨M.toNat + 1, hfuel, ?_⟩
          simp only [h1, h2, if_false]
          push_cast
          rw [hMn]
          ring
      · have hnn : ¬ (w.thread.last_speed < 0) := by omega
        simp only [hpos, if_true, window, hnn, if_false]
        by_cases h1 : c < 1 <;> by_cases h2 : c + M < 1
        · exact ⟨1, by omega, by simp [h1, h2]⟩
        · refine ⟨(c + M - 1).toNat + 1, by omega, ?_⟩
          simp only [h1, h2, if_true, if_false]
          push_cast
          rw [Int.toNat_of_nonneg (by omega)]
          ring
        · omega
        · refine ⟨M.toNat + 1, hfuel, ?_⟩
          simp only [h1, h2, if_false]
          push_cast
          rw [hMn]
          ring
    obtain ⟨n, hn, hend⟩ := hal
    split
    · rename_i w1 hl
      obtain ⟨k, hk⟩ := windowLoop_threw ui _ _ _ _ fuel 0 _ 0 0 _ w1 hl
      exact absurd hk (hfail k)
    · rename_i w1 hl
      exact absurd hl (windowLoop_ends ui _ _ _ _ n fuel 0 _ 0 0 _ w1 hend hn)
    · exact ⟨_, rfl⟩

/-- C6 (witness). `GetMaxBytes = 1 GiB`, `bytes_per_frame = 4 MiB`, 90 % ahead: 230,
clamped to `VIDEO_CACHE_MAX_FRAMES = 200`. -/
theorem paused_fill_max_frames_ahead_witness :
    bytes_per_frame pausedWorld.reader = 4194304 ∧
    truncate (fmul (intToFloat (Int.tdiv 1073741824 4194304)) (roundFloat (9 / 10))) = 230 ∧
    (pass (demoSettings true) noUI 201 pausedWorld).world.thread.max_frames_ahead = 200 ∧
    ∃ w1, pass (demoSettings true) noUI 201 pausedWorld = PassResult.completed w1 := by
  have hb : bytes_per_frame pausedWorld.reader = 4194304 := by with_unfolding_all decide
  have ht : truncate (fmul (intToFloat (Int.tdiv 1073741824 4194304))
      (roundFloat (9 / 10))) = 230 := by
    with_unfolding_all decide
  obtain ⟨h1, -, -, -, h5⟩ := paused_fill_max_frames_ahead (demoSettings true) noUI 201
    pausedWorld rfl rfl rfl (by decide) (by rw [hb]; decide)
  have hv : (pass (demoSettings true) noUI 201 pausedWorld).world.thread.max_frames_ahead
      = 200 := by
    rw [h1, hb]
    show min (truncate (fmul (intToFloat (Int.tdiv 1073741824 4194304))
      (roundFloat (9 / 10)))) 200 = 200
    rw [ht]
    decide
  refine ⟨hb, ht, hv, h5 (by decide) (by rw [hv]; decide) (by rw [hv]; decide) ?_⟩
  intro k
  simp [pausedWorld]

/-! ## C7: the pause latch -/

theorem pass_skip (s : Settings) (ui : Nat → List UIOp) (fuel : Nat) (w : World)
    (hsp : w.thread.speed = 0) (hlatch : w.thread.should_pause_cache = true)
    (hcount : w.reader.Count ≠ 0) :
    pass s ui fuel w = .completed { w with thread :=
      { w.thread with min_frames_ahead := s.VIDEO_CACHE_MIN_PREROLL_FRAMES,
                      max_frames_ahead := s.VIDEO_CACHE_MAX_PREROLL_FRAMES,
                      current_display_frame := w.thread.requested_display_frame } } := by
  simp [pass, passHead, hcount, hsp, hlatch]

/-- C7 (amended). One-shot pause latch.  Start from `should_pause_cache = false` with
`last_speed > 0`, `speed = 0`, caching enabled, the worker playing, the paused window
size `M ≥ 0` (no division by zero), the requested frame equal to the current one or
inside the window, no `GetFrame` call failing with anything but `OutOfBoundsFrame`, and
no UI write.  The first pass runs to its end, sets `should_pause_cache = true` and
walks the window with increment +1: it visits `starting_frame, starting_frame + 1, ...,
ending_frame`; the cache only grows.  If the cache is not empty when the second pass
starts, that pass is skip mode: no call on the reader (so no `GetFrame` call),
`cached_frame_count` and the latch unchanged, and
`current_display_frame = requested_display_frame`. -/
theorem pause_latch_one_shot (s : Settings) (w : World) (fuel : Nat) (M : Int)
    (hen : s.ENABLE_PLAYBACK_CACHING = true)
    (hspeed : w.thread.speed = 0) (hlast : w.thread.last_speed > 0)
    (hlatch : w.thread.should_pause_cache = false)
    (hplay : w.thread.is_playing = true)
    (hM : pausedMaxFramesAhead s w.reader s.VIDEO_CACHE_MAX_PREROLL_FRAMES = some M)
    (hM0 : 0 ≤ M)
    (hreq : w.thread.requested_display_frame = w.thread.current_display_frame ∨
      ((window w.thread.current_display_frame w.thread.last_speed M).1
          ≤ w.thread.requested_display_frame ∧
        w.thread.requested_display_frame
          ≤ (window w.thread.current_display_frame w.thread.last_speed M).2))
    (hfail : ∀ k, w.reader.GetFrame k ≠ GetFrameResult.otherFailure)
    (hfuel : ((window w.thread.current_display_frame w.thread.last_speed M).2 -
      (window w.thread.current_display_frame w.thread.last_speed M).1).toNat + 1 ≤ fuel) :
    ∃ w1, pass s noUI fuel w = PassResult.completed w1 ∧
      w1.thread.should_pause_cache = true ∧
      w1.thread.max_frames_ahead = M ∧
      visitedFrames w1.trace = visitedFrames w.trace ++
        (List.range (((window w.thread.current_display_frame w.thread.last_speed M).2 -
          (window w.thread.current_display_frame w.thread.last_speed M).1).toNat + 1)).map
          (fun j : Nat =>
            (window w.thread.current_display_frame w.thread.last_speed M).1 + (j : Int)) ∧
      (∀ x, x ∈ w.reader.cache → x ∈ w1.reader.cache) ∧
      (w1.reader.Count ≠ 0 → ∀ fuel2, ∃ w2,
        pass s noUI fuel2 w1 = PassResult.completed w2 ∧
        w2.trace = w1.trace ∧ w2.reader = w1.reader ∧
        getFrameCalls w2.trace = getFrameCalls w1.trace ∧
        w2.thread.cached_frame_count = w1.thread.cached_frame_count ∧
        w2.thread.should_pause_cache = true ∧
        w2.thread.current_display_frame = w1.thread.requested_display_frame ∧
        w2.thread.requested_display_frame = w1.thread.requested_display_frame) := by
  obtain ⟨f1, f2, f3, f4, f5, f6, f7, -⟩ := passHead_fields s w
  generalize hsf : (window w.thread.current_display_frame w.thread.last_speed M).1 = sf at *
  generalize hef : (window w.thread.current_display_frame w.thread.last_speed M).2 = ef at *
  have hle : sf ≤ ef := by
    rw [← hsf, ← hef]
    have hnn : ¬ (w.thread.last_speed < 0) := by omega
    simp only [window, hnn, if_false]
    split_ifs <;> omega
  have hn : (((ef - sf).toNat : Nat) : Int) = ef - sf := Int.toNat_of_nonneg (by omega)
  let w0 : World := { w with thread :=
    { passHead s w with should_pause_cache := true, max_frames_ahead := M } }
  have hp : pass s noUI fuel w = cacheWindow noUI fuel 0 1 w0 := by
    rw [pass_paused s noUI fuel w M hen hspeed (passHead_latch s w hlatch) hM]
    simp [hlast, w0]
  have hs : Steady 0 sf ef w0 := by
    refine ⟨?_, ?_, ?_⟩
    · show (passHead s w).requested_display_frame = (passHead s w).current_display_frame ∨ _
      rw [f5, f4]
      rcases hreq with h | h
      · exact Or.inl h
      · exact Or.inr (Or.inl ⟨le_refl _, h⟩)
    · show (passHead s w).speed = 0
      rw [f1]; exact hspeed
    · show (passHead s w).is_playing = true
      rw [f3]; exact hplay
  have hwin : window w0.thread.current_display_frame w0.thread.last_speed
      w0.thread.max_frames_ahead = (sf, ef) := by
    show window (passHead s w).current_display_frame (passHead s w).last_speed M = (sf, ef)
    rw [f4, f2, ← hsf, ← hef]
  obtain ⟨wl, unc, alr, hl, hvis, hadv⟩ :=
    windowLoop_walk 0 sf ef 1 one_ne_zero ((ef - sf).toNat + 1) fuel 0 sf 0 0 w0
      (by push_cast; rw [hn]; ring) hfuel hs hfail
  obtain ⟨ht, hr, hsub, -, -⟩ := hadv
  obtain ⟨e1, e2, e3, e4, e5, e6, e7⟩ := endOfPass_sizes 0 unc wl
  have hcw : cacheWindow noUI fuel 0 1 w0 = .completed (endOfPass 0 unc wl) := by
    simp only [cacheWindow, hwin, hl]
  have hcfc : (endOfPass 0 unc wl).thread.cached_frame_count = wl.thread.cached_frame_count := by
    simp [endOfPass]
  have hlatch1 : (endOfPass 0 unc wl).thread.should_pause_cache = true := by
    rw [e3, ht]
  refine ⟨endOfPass 0 unc wl, by rw [hp, hcw], hlatch1, ?_, ?_, ?_, ?_⟩
  · rw [e1, ht]
  · rw [endOfPass_trace]
    simp only [visitedFrames, hvis, List.map_append, List.map_map]
    congr 1
    apply List.map_congr_left
    intro j _
    simp
  · intro x hx
    rw [endOfPass_reader]
    exact hsub x hx
  · intro hcount fuel2
    have hsp1 : (endOfPass 0 unc wl).thread.speed = 0 := by
      rw [e6, ht]
      show (passHead s w).speed = 0
      rw [f1]; exact hspeed
    exact ⟨_, pass_skip s noUI fuel2 _ hsp1 hlatch1 hcount, rfl, rfl, rfl, rfl, hlatch1,
      rfl, rfl⟩

/-- C7 (witness). Scenario 3 with frames 100..104 cached: the first paused pass walks
100..108 and latches, the second makes no call. -/
theorem pause_latch_one_shot_witness :
    ∃ w1 w2, pass (demoSettings true) noUI 9 justPausedWorld = PassResult.completed w1 ∧
      w1.thread.should_pause_cache = true ∧
      visitedFrames w1.trace = [100, 101, 102, 103, 104, 105, 106, 107, 108] ∧
      pass (demoSettings true) noUI 9 w1 = PassResult.completed w2 ∧
      getFrameCalls w2.trace = getFrameCalls w1.trace ∧
      w2.thread.cached_frame_count = w1.thread.cached_frame_count := by
  obtain ⟨w1, h1, h2, -, h4, h5, h6⟩ := pause_latch_one_shot (demoSettings true)
    justPausedWorld 9 8 rfl rfl (by decide) rfl rfl (by decide) (by decide)
    (Or.inl rfl) (by intro k; simp [justPausedWorld, demoReader]) (by decide)
  have hcount : w1.reader.Count ≠ 0 := by
    have hmem : (100 : Int) ∈ w1.reader.cache := h5 100 (by decide)
    intro h0
    have hnil : w1.reader.cache = [] := by
      apply List.eq_nil_of_length_eq_zero
      unfold Reader.Count at h0
      exact_mod_cast h0
    rw [hnil] at hmem
    exact absurd hmem (List.not_mem_nil _)
  obtain ⟨w2, g1, -, -, g4, g5, -⟩ := h6 hcount 9
  exact ⟨w1, w2, h1, h2, h4, g1, g4, g5⟩

/-- C7 (counterexample). On an empty timeline (every `GetFrame` fails with
`OutOfBoundsFrame`, so the cache stays empty) the first paused pass sets
`should_pause_cache = true`, yet the second pass is not skip mode: the empty-cache check
clears the latch, and the pass calls `GetFrame` for 1..9 again and counts
`cached_frame_count` up to 9.  And with caching disabled the first pass after the pause
does not set `should_pause_cache`. -/
theorem pause_latch_counterexample :
    (∃ w1 w2, pass (demoSettings true) noUI 9 emptyTimelineWorld = PassResult.completed w1 ∧
      w1.thread.should_pause_cache = true ∧
      w1.thread.speed = 0 ∧
      pass (demoSettings true) noUI 9 w1 = PassResult.completed w2 ∧
      getFrameCalls w2.trace = getFrameCalls w1.trace ++ [1, 2, 3, 4, 5, 6, 7, 8, 9] ∧
      w2.thread.cached_frame_count = 9) ∧
    (pass (demoSettings false) noUI 9 justPausedWorld).world.thread.should_pause_cache
      = false :=
  ⟨⟨_, _, rfl, by decide, by decide, rfl, by decide, by decide⟩, by decide⟩

/-! ## C8: the playhead fields -/

theorem Seek_requested (w : World) (n : Int) (b : Bool) :
    (w.Seek n b).thread.requested_display_frame = n := by
  unfold World.Seek
  simp [VideoCacheThread.Seek]

theorem UIOp.apply_playheadPositive (op : UIOp) (w : World) (hop : op.framesPositive)
    (hw : PlayheadPositive w) : PlayheadPositive (op.apply w) := by
  cases op with
  | Seek n => exact ⟨hw.1, hop⟩
  | SeekPreroll n b =>
    refine ⟨?_, ?_⟩
    · show 1 ≤ (w.Seek n b).thread.current_display_frame
      rw [(Seek_sameConfig w n b).2.2.2.1]
      exact hw.1
    · show 1 ≤ (w.Seek n b).thread.requested_display_frame
      rw [Seek_requested]
      exact hop
  | Play => exact hw
  | Stop => exact hw
  | setSpeed k => exact hw
  | signalThreadShouldExit => exact hw

theorem applyOps_playheadPositive (ops : List UIOp) (w : World)
    (hops : ∀ op ∈ ops, op.framesPositive) (hw : PlayheadPositive w) :
    PlayheadPositive (applyOps ops w) := by
  induction ops generalizing w with
  | nil => exact hw
  | cons op ops ih =>
    exact ih (op.apply w) (fun o ho => hops o (List.mem_cons_of_mem _ ho))
      (op.apply_playheadPositive w (hops op (List.mem_cons_self _ _)) hw)

theorem visitFrame_playheadPositive (k : Int) (w : World) (u a : Int)
    (hw : PlayheadPositive w) : PlayheadPositive (visitFrame k w u a).world := by
  obtain ⟨ht, -, -⟩ := visitFrame_world k w u a
  unfold PlayheadPositive
  rw [ht]
  exact hw

theorem checkpoints_playheadPositive (cs sf ef : Int) (w : World)
    (hw : PlayheadPositive w) : PlayheadPositive (checkpoints cs sf ef w).2 := by
  unfold checkpoints
  simp only []
  split_ifs <;> exact hw

theorem cacheWindow_playheadPositive (ui : Nat → List UIOp) (fuel : Nat) (cs inc : Int)
    (w : World) (hui : ∀ i, ∀ op ∈ ui i, op.framesPositive) (hw : PlayheadPositive w) :
    PlayheadPositive (cacheWindow ui fuel cs inc w).world := by
  have h := windowLoop_preserves PlayheadPositive ui cs
    (window w.thread.current_display_frame w.thread.last_speed w.thread.max_frames_ahead).1
    (window w.thread.current_display_frame w.thread.last_speed w.thread.max_frames_ahead).2
    inc
    (fun k w1 u a h => visitFrame_playheadPositive k w1 u a h)
    (fun i w1 h => applyOps_playheadPositive (ui i) w1 (hui i) h)
    (fun w1 h => checkpoints_playheadPositive cs _ _ w1 h)
    fuel 0
    (window w.thread.current_display_frame w.thread.last_speed w.thread.max_frames_ahead).1
    0 0 w hw
  unfold cacheWindow
  simp only []
  split
  · rename_i w1 hl
    rw [hl] at h
    exact h
  · rename_i w1 hl
    rw [hl] at h
    exact h
  · rename_i w1 u1 a1 hl
    rw [hl] at h
    obtain ⟨-, -, -, e4, e5, -, -⟩ := endOfPass_sizes cs u1 w1
    refine ⟨?_, ?_⟩
    · show 1 ≤ (endOfPass cs u1 w1).thread.current_display_frame
      rw [e5]
      exact h.2
    · show 1 ≤ (endOfPass cs u1 w1).thread.requested_display_frame
      rw [e4]
      exact h.2

theorem pass_playheadPositive (s : Settings) (ui : Nat → List UIOp) (fuel : Nat) (w : World)
    (hui : ∀ i, ∀ op ∈ ui i, op.framesPositive) (hw : PlayheadPositive w) :
    PlayheadPositive (pass s ui fuel w).world := by
  obtain ⟨-, -, -, f4, f5, -, -, -⟩ := passHead_fields s w
  have h4 : 1 ≤ (passHead s w).current_display_frame := by rw [f4]; exact hw.1
  have h5 : 1 ≤ (passHead s w).requested_display_frame := by rw [f5]; exact hw.2
  unfold pass
  simp only []
  by_cases hskip : ((passHead s w).speed = 0 ∧ (passHead s w).should_pause_cache = true) ∨
      s.ENABLE_PLAYBACK_CACHING = false
  · rw [if_pos hskip]
    exact ⟨h5, h5⟩
  · rw [if_neg hskip]
    by_cases hz : (passHead s w).speed = 0
    · rw [if_pos hz]
      split
      · exact ⟨h4, h5⟩
      · apply cacheWindow_playheadPositive ui fuel _ _ _ hui
        exact ⟨h4, h5⟩
    · rw [if_neg hz]
      apply cacheWindow_playheadPositive ui fuel _ _ _ hui
      exact ⟨h4, h5⟩

/-- C8 (amended). Playhead invariant.  In every state reachable from the constructed
worker, with `requested_display_frame` starting at a value `≥ 1`, through any sequence
of `Seek(n)` and `Seek(n, start_preroll)` with `n ≥ 1`, `Play`, `Stop`, UI writes of
`speed` and worker passes (UI writes during a pass included, a pass observed after any
number of frame visits), `current_display_frame ≥ 1` and `requested_display_frame ≥ 1`.
The fields are never clamped; what is clamped to `≥ 1`, for any playhead, last speed
and window size, is the window `starting_frame`, `ending_frame` of a pass. -/
theorem playhead_invariant (requested : Int) (reader : Reader) (w : World)
    (h0 : 1 ≤ requested)
    (hr : Reachable UIOp.framesPositive (World.init requested reader) w) :
    (1 ≤ w.thread.current_display_frame ∧ 1 ≤ w.thread.requested_display_frame) ∧
    ∀ c last_speed max_frames_ahead : Int,
      1 ≤ (window c last_speed max_frames_ahead).1 ∧
      1 ≤ (window c last_speed max_frames_ahead).2 := by
  refine ⟨?_, ?_⟩
  · induction hr with
    | init => exact ⟨le_refl _, h0⟩
    | uiWrite op _ hop ih => exact op.apply_playheadPositive _ hop ih
    | workerPass s ui fuel _ _ _ hui ih => exact pass_playheadPositive s ui fuel _ hui ih
  · intro c ls M
    simp only [window]
    constructor <;> split_ifs <;> omega

/-- C8 (witness). Construction, `Seek(500)`, `Play()`, one pass. -/
theorem playhead_invariant_witness :
    1 ≤ (pass (demoSettings true) noUI 9 (UIOp.Play.apply ((UIOp.Seek 500).apply
      (World.init 1 (demoReader [] 0))))).world.thread.current_display_frame ∧
    1 ≤ (pass (demoSettings true) noUI 9 (UIOp.Play.apply ((UIOp.Seek 500).apply
      (World.init 1 (demoReader [] 0))))).world.thread.requested_display_frame :=
  (playhead_invariant 1 (demoReader [] 0) _ (by decide)
    (Reachable.workerPass (demoSettings true) noUI 9
      (Reachable.uiWrite UIOp.Play
        (Reachable.uiWrite (UIOp.Seek 500) Reachable.init (by show (1 : Int) ≤ 500; decide))
        trivial)
      rfl rfl (fun _ op hop => absurd hop (List.not_mem_nil op)))).1

/-- C8 (counterexample). From the constructed worker, `Seek(0)` stores
`requested_display_frame = 0` unclamped; after `Play()` the next pass ends with
`current_display_frame = 0`, the value the following pass reads. -/
theorem playhead_invariant_counterexample :
    Reachable (fun _ => True) (World.init 1 (demoReader [] 0))
      (pass (demoSettings true) noUI 9
        (UIOp.Play.apply ((UIOp.Seek 0).apply (World.init 1 (demoReader [] 0))))).world ∧
    ((UIOp.Seek 0).apply (World.init 1 (demoReader [] 0))).thread.requested_display_frame = 0 ∧
    (pass (demoSettings true) noUI 9
      (UIOp.Play.apply ((UIOp.Seek 0).apply (World.init 1 (demoReader [] 0))))).world.thread.current_display_frame = 0 ∧
    (pass (demoSettings true) noUI 9
      (UIOp.Play.apply ((UIOp.Seek 0).apply (World.init 1 (demoReader [] 0))))).world.thread.requested_display_frame = 0 := by
  refine ⟨?_, rfl, by decide, by decide⟩
  exact Reachable.workerPass _ _ _
    (Reachable.uiWrite UIOp.Play (Reachable.uiWrite (UIOp.Seek 0) Reachable.init trivial) trivial)
    rfl rfl (fun _ _ _ => trivial)

/-! ## C9: frames passed to the reader -/

/-- C9 (code bug). The constructed worker started in reverse (`speed = -1`,
`last_speed = 1`, playhead 1, max preroll 8, empty cache): the window is 1..9 while
the loop steps by -1, so after the frame 1 it passes 0 and -1 to `Contains` and
`GetFrame`, and the loop is still running after any number of frame visits. -/
theorem nonpositive_frame_used :
    usedFrames (pass (demoSettings true) noUI 3 coldReverseWorld).world.trace =
      [1, 1, 0, 0, -1, -1] ∧
    getFrameCalls (pass (demoSettings true) noUI 3 coldReverseWorld).world.trace =
      [1, 0, -1] ∧
    window 1 1 8 = (1, 9) ∧
    ∀ fuel, ∃ w1, pass (demoSettings true) noUI fuel coldReverseWorld =
      PassResult.outOfFuel w1 := by
  refine ⟨by decide, by decide, by decide, ?_⟩
  intro fuel
  rw [pass_playing (demoSettings true) noUI fuel coldReverseWorld rfl (by decide)]
  exact cacheWindow_runaway _ _ fuel _ 1 9 (by decide) ⟨Or.inl rfl, rfl, rfl⟩
    (by intro k; simp [coldReverseWorld, demoReader])
    (by intro n; show (1 : Int) + (n : Int) * (-1) ≠ 9 + (-1); omega)

/-! ## C10: failures of `GetFrame` -/

theorem cacheWindow_threw (ui : Nat → List UIOp) (fuel : Nat) (cs inc : Int) (w w1 : World)
    (h : cacheWindow ui fuel cs inc w = .threw w1) :
    ∃ k, w.reader.GetFrame k = GetFrameResult.otherFailure := by
  unfold cacheWindow at h
  simp only [] at h
  split at h
  · rename_i w2 hl
    exact windowLoop_threw ui _ _ _ _ fuel 0 _ 0 0 w w2 hl
  · simp at h
  · simp at h

theorem pass_threw (s : Settings) (ui : Nat → List UIOp) (fuel : Nat) (w w1 : World)
    (h : pass s ui fuel w = .threw w1) :
    ∃ k, w.reader.GetFrame k = GetFrameResult.otherFailure := by
  unfold pass at h
  simp only [] at h
  by_cases hskip : ((passHead s w).speed = 0 ∧ (passHead s w).should_pause_cache = true) ∨
      s.ENABLE_PLAYBACK_CACHING = false
  · rw [if_pos hskip] at h
    simp at h
  · rw [if_neg hskip] at h
    by_cases hz : (passHead s w).speed = 0
    · rw [if_pos hz] at h
      split at h
      · simp at h
      · have h2 := cacheWindow_threw ui fuel _ _ _ w1 h
        exact h2
    · rw [if_neg hz] at h
      have h2 := cacheWindow_threw ui fuel _ _ _ w1 h
      exact h2

theorem cacheWindow_getFrame (ui : Nat → List UIOp) (fuel : Nat) (cs inc : Int) (w : World) :
    (cacheWindow ui fuel cs inc w).world.reader.GetFrame = w.reader.GetFrame := by
  have h := sameConfig_getFrame (windowLoop_sameConfig ui cs
    (window w.thread.current_display_frame w.thread.last_speed w.thread.max_frames_ahead).1
    (window w.thread.current_display_frame w.thread.last_speed w.thread.max_frames_ahead).2
    inc fuel 0
    (window w.thread.current_display_frame w.thread.last_speed w.thread.max_frames_ahead).1
    0 0 w)
  unfold cacheWindow
  simp only []
  split
  · rename_i w1 hl
    rw [hl] at h
    exact h
  · rename_i w1 hl
    rw [hl] at h
    exact h
  · rename_i w1 u1 a1 hl
    rw [hl] at h
    exact h

theorem pass_getFrame (s : Settings) (ui : Nat → List UIOp) (fuel : Nat) (w : World) :
    (pass s ui fuel w).world.reader.GetFrame = w.reader.GetFrame := by
  unfold pass
  simp only []
  by_cases hskip : ((passHead s w).speed = 0 ∧ (passHead s w).should_pause_cache = true) ∨
      s.ENABLE_PLAYBACK_CACHING = false
  · rw [if_pos hskip]
    rfl
  · rw [if_neg hskip]
    by_cases hz : (passHead s w).speed = 0
    · rw [if_pos hz]
      split
      · rfl
      · rw [cacheWindow_getFrame ui fuel _ _ _]
    · rw [if_neg hz]
      rw [cacheWindow_getFrame ui fuel _ _ _]

theorem run_threw (s : Settings) (ui : Nat → Nat → List UIOp) (idle : Nat → List UIOp)
    (fuel : Nat) :
    ∀ (passes p : Nat) (w w1 : World), run s ui idle fuel passes p w = .threw w1 →
      ∃ k, w.reader.GetFrame k = GetFrameResult.otherFailure := by
  intro passes
  induction passes with
  | zero =>
    intro p w w1 h
    unfold run at h
    split_ifs at h
  | succ passes ih =>
    intro p w w1 h
    unfold run at h
    split_ifs at h
    cases hp : pass s (ui p) fuel w with
    | threw w2 => exact pass_threw s (ui p) fuel w w2 hp
    | divideByZero w2 => simp [hp] at h
    | outOfFuel w2 => simp [hp] at h
    | completed w2 =>
      rw [hp] at h
      simp only [] at h
      obtain ⟨k, hk⟩ := ih (p + 1) _ w1 h
      have h1 : w2.reader.GetFrame = w.reader.GetFrame := by
        have := pass_getFrame s (ui p) fuel w
        rwa [hp] at this
      have h2 := sameConfig_getFrame (applyOps_sameConfig (idle p) w2)
      exact ⟨k, by rw [← h1, ← h2]; exact hk⟩

/-- C10. `OutOfBoundsFrame` is swallowed.  (1) When `reader.GetFrame(k)` fails with
`OutOfBoundsFrame` on an uncached frame `k`, the fetch block ends normally:
`cached_frame_count` has been incremented for `k`, while `last_cached_frame`, the
uncached tally, the already-cached tally and the reader are unchanged.  (2) The loop
then goes on to the cancellation checks and, unless one of them breaks, to the frame
`k + increment`.  (3) When no `GetFrame` call of the reader fails with anything but
`OutOfBoundsFrame`, neither a pass nor `run()` ends by an exception, whatever the
settings, the UI writes and the bounds.  (4) A failure other than `OutOfBoundsFrame`
on an uncached frame `k` leaves the window loop as an exception, which leaves the
window code (5), the pass (6) and `run()` (7). -/
theorem out_of_bounds_frame_swallowed :
    (∀ (k : Int) (w : World) (unc alr : Int),
      w.reader.Contains k = false →
      w.reader.GetFrame k = GetFrameResult.OutOfBoundsFrame →
      visitFrame k w unc alr = VisitResult.ok
        { w with
          thread := { w.thread with cached_frame_count := w.thread.cached_frame_count + 1 },
          trace := w.trace ++ [Event.Contains k, Event.GetFrame k,
            Event.visited k (w.thread.cached_frame_count + 1)
              (decide (w.thread.cached_frame_count + 1 > w.thread.min_frames_ahead))] }
        unc alr) ∧
    (∀ (ui : Nat → List UIOp) (cs sf ef inc : Int) (fuel i : Nat) (k unc alr : Int)
      (w w1 : World),
      k ≠ ef + inc → visitFrame k w unc alr = VisitResult.ok w1 unc alr →
      windowLoop ui cs sf ef inc (fuel + 1) i k unc alr w =
        (if (checkpoints cs sf ef (applyOps (ui i) w1)).1 = true then
          LoopResult.finished (checkpoints cs sf ef (applyOps (ui i) w1)).2 unc alr
        else windowLoop ui cs sf ef inc fuel (i + 1) (k + inc) unc alr
          (checkpoints cs sf ef (applyOps (ui i) w1)).2)) ∧
    (∀ (s : Settings) (ui : Nat → List UIOp) (fuel : Nat) (w : World),
      (∀ k, w.reader.GetFrame k ≠ GetFrameResult.otherFailure) →
      ∀ w1, pass s ui fuel w ≠ PassResult.threw w1) ∧
    (∀ (s : Settings) (ui : Nat → Nat → List UIOp) (idle : Nat → List UIOp)
      (fuel passes p : Nat) (w : World),
      (∀ k, w.reader.GetFrame k ≠ GetFrameResult.otherFailure) →
      ∀ w1, run s ui idle fuel passes p w ≠ PassResult.threw w1) ∧
    (∀ (ui : Nat → List UIOp) (cs sf ef inc : Int) (fuel i : Nat) (k unc alr : Int)
      (w : World),
      k ≠ ef + inc → w.reader.Contains k = false →
      w.reader.GetFrame k = GetFrameResult.otherFailure →
      windowLoop ui cs sf ef inc (fuel + 1) i k unc alr w = LoopResult.threw
        { w with
          thread := { w.thread with cached_frame_count := w.thread.cached_frame_count + 1 },
          trace := w.trace ++ [Event.Contains k, Event.GetFrame k] }) ∧
    (∀ (ui : Nat → List UIOp) (fuel : Nat) (cs inc : Int) (w w1 : World),
      windowLoop ui cs
        (window w.thread.current_display_frame w.thread.last_speed w.thread.max_frames_ahead).1
        (window w.thread.current_display_frame w.thread.last_speed w.thread.max_frames_ahead).2
        inc fuel 0
        (window w.thread.current_display_frame w.thread.last_speed w.thread.max_frames_ahead).1
        0 0 w = LoopResult.threw w1 →
      cacheWindow ui fuel cs inc w = PassResult.threw w1) ∧
    (∀ (s : Settings) (ui : Nat → List UIOp) (fuel : Nat) (w w1 : World),
      s.ENABLE_PLAYBACK_CACHING = true → w.thread.speed ≠ 0 →
      cacheWindow ui fuel w.thread.speed (toInt16 w.thread.speed)
        { w with thread := { passHead s w with should_pause_cache := false } }
          = PassResult.threw w1 →
      pass s ui fuel w = PassResult.threw w1) ∧
    (∀ (s : Settings) (ui : Nat → Nat → List UIOp) (idle : Nat → List UIOp)
      (fuel passes p : Nat) (w w1 : World),
      w.threadShouldExit = false → w.thread.is_playing = true →
      pass s (ui p) fuel w = PassResult.threw w1 →
      run s ui idle fuel (passes + 1) p w = PassResult.threw w1) := by
  refine ⟨?_, ?_, ?_, ?_, ?_, ?_, ?_, ?_⟩
  · intro k w unc alr hc hg
    simp [visitFrame, hc, hg, VideoCacheThread.isReady]
  · intro ui cs sf ef inc fuel i k unc alr w w1 hk hv
    rw [windowLoop]
    simp only [hk, if_false, hv]
    cases hck : checkpoints cs sf ef (applyOps (ui i) w1) with
    | mk b w2 => cases b <;> simp
  · intro s ui fuel w hf w1 h
    obtain ⟨k, hk⟩ := pass_threw s ui fuel w w1 h
    exact hf k hk
  · intro s ui idle fuel passes p w hf w1 h
    obtain ⟨k, hk⟩ := run_threw s ui idle fuel passes p w w1 h
    exact hf k hk
  · intro ui cs sf ef inc fuel i k unc alr w hk hc hg
    rw [windowLoop]
    simp [hk, visitFrame, hc, hg]
  · intro ui fuel cs inc w w1 hl
    simp only [cacheWindow, hl]
  · intro s ui fuel w w1 hen hsp hl
    rw [pass_playing s ui fuel w hen hsp]
    exact hl
  · intro s ui idle fuel passes p w w1 he hp h
    rw [run]
    simp [he, hp, h]

/-- C10 (witness). A five-frame timeline: the pass requests 1..9, frames 6..9 fail with
`OutOfBoundsFrame` and the pass ends normally with `last_cached_frame` 5; a reader
failing otherwise at frame 3 ends the pass by an exception after the requests 1, 2, 3. -/
theorem out_of_bounds_frame_swallowed_witness :
    (∃ w1, visitFrame 6 shortTimelineWorld 0 0 = VisitResult.ok w1 0 0 ∧
      w1.thread.cached_frame_count = shortTimelineWorld.thread.cached_frame_count + 1 ∧
      w1.thread.last_cached_frame = shortTimelineWorld.thread.last_cached_frame) ∧
    (∀ w1, pass (demoSettings true) noUI 9 shortTimelineWorld ≠ PassResult.threw w1) ∧
    getFrameCalls (pass (demoSettings true) noUI 9 shortTimelineWorld).world.trace =
      [1, 2, 3, 4, 5, 6, 7, 8, 9] ∧
    (pass (demoSettings true) noUI 9 shortTimelineWorld).world.thread.last_cached_frame
      = some 5 ∧
    (∃ w1, windowLoop noUI 1 1 9 1 7 2 3 2 0 brokenReaderWorld = LoopResult.threw w1) ∧
    (∃ w1, pass (demoSettings true) noUI 9 brokenReaderWorld = PassResult.threw w1 ∧
      getFrameCalls w1.trace = [1, 2, 3]) := by
  obtain ⟨h1, -, h3, -, h5, -, -, -⟩ := out_of_bounds_frame_swallowed
  refine ⟨⟨_, h1 6 shortTimelineWorld 0 0 (by decide) (by decide), rfl, rfl⟩,
    h3 (demoSettings true) noUI 9 shortTimelineWorld ?_, by decide, by decide,
    ⟨_, h5 noUI 1 1 9 1 6 2 3 2 0 brokenReaderWorld (by decide) (by decide) (by decide)⟩,
    ⟨_, rfl, by decide⟩⟩
  intro k
  simp only [shortTimelineWorld]
  split_ifs <;> simp

/-! ## C11: the order of the `GetFrame` calls -/

theorem UIOp.apply_getFrameCalls (op : UIOp) (w : World) :
    getFrameCalls (op.apply w).trace = getFrameCalls w.trace := by
  cases op with
  | SeekPreroll n b =>
    show getFrameCalls (w.Seek n b).trace = _
    unfold World.Seek
    simp only []
    split_ifs <;> simp [getFrameCalls_append, getFrameCalls]
  | _ => rfl

theorem applyOps_getFrameCalls (ops : List UIOp) (w : World) :
    getFrameCalls (applyOps ops w).trace = getFrameCalls w.trace := by
  induction ops generalizing w with
  | nil => rfl
  | cons op ops ih =>
    show getFrameCalls (applyOps ops (op.apply w)).trace = _
    rw [ih, op.apply_getFrameCalls]

theorem checkpoints_trace (cs sf ef : Int) (w : World) :
    (checkpoints cs sf ef w).2.trace = w.trace := by
  unfold checkpoints
  simp only []
  split_ifs <;> rfl

theorem visitFrame_getFrameCalls (k : Int) (w : World) (u a : Int) :
    getFrameCalls (visitFrame k w u a).world.trace =
      getFrameCalls w.trace ++ (if w.reader.Contains k = true then [] else [k]) := by
  unfold visitFrame
  cases hc : w.reader.Contains k <;> cases hg : w.reader.GetFrame k <;>
    simp [hc, hg, VisitResult.world, getFrameCalls_append, getFrameCalls]

/-- The `GetFrame` calls of a window loop, whatever the UI writes and however the
loop ends, are a subsequence of `cache_frame, cache_frame + increment, ...`. -/
theorem windowLoop_getFrameCalls (ui : Nat → List UIOp) (cs sf ef inc : Int) :
    ∀ (fuel i : Nat) (a u al : Int) (w : World), ∃ (n : Nat) (calls : List Int),
      getFrameCalls (windowLoop ui cs sf ef inc fuel i a u al w).world.trace =
        getFrameCalls w.trace ++ calls ∧
      calls.Sublist (frameSeq a inc n) := by
  intro fuel
  induction fuel with
  | zero =>
    intro i a u al w
    refine ⟨0, [], ?_, List.Sublist.slnil⟩
    unfold windowLoop
    split_ifs <;> simp [LoopResult.world]
  | succ fuel ih =>
    intro i a u al w
    unfold windowLoop
    split_ifs with h
    · exact ⟨0, [], by simp [LoopResult.world], List.Sublist.slnil⟩
    · have hv := visitFrame_getFrameCalls a w u al
      have hsub : (if w.reader.Contains a = true then [] else [a]).Sublist [a] := by
        split_ifs
        · exact List.nil_sublist _
        · exact List.Sublist.refl _
      have hone : frameSeq a inc 1 = [a] := by
        rw [frameSeq_succ]
        rfl
      cases hvis : visitFrame a w u al with
      | threw w1 =>
        rw [hvis] at hv
        refine ⟨1, _, hv, ?_⟩
        rw [hone]
        exact hsub
      | ok w1 u1 a1 =>
        rw [hvis] at hv
        simp only [VisitResult.world] at hv
        simp only []
        have hck := checkpoints_trace cs sf ef (applyOps (ui i) w1)
        cases hc : checkpoints cs sf ef (applyOps (ui i) w1) with
        | mk b w2 =>
          rw [hc] at hck
          simp only [] at hck
          have hw2 : getFrameCalls w2.trace = getFrameCalls w.trace ++
              (if w.reader.Contains a = true then [] else [a]) := by
            rw [hck, applyOps_getFrameCalls, hv]
          cases b with
          | true =>
            refine ⟨1, _, hw2, ?_⟩
            rw [hone]
            exact hsub
          | false =>
            obtain ⟨n, calls, h1, h2⟩ := ih (i + 1) (a + inc) u1 a1 w2
            refine ⟨n + 1, (if w.reader.Contains a = true then [] else [a]) ++ calls, ?_, ?_⟩
            · simp only []
              rw [h1, hw2, List.append_assoc]
            · rw [frameSeq_succ]
              have := List.Sublist.append hsub h2
              simpa using this

theorem frameSeq_increasing (a d : Int) (hd : 0 < d) (n : Nat) :
    (frameSeq a d n).Pairwise (· < ·) := by
  induction n generalizing a with
  | zero => simp [frameSeq]
  | succ n ih =>
    rw [frameSeq_succ, List.pairwise_cons]
    refine ⟨?_, ih (a + d)⟩
    intro x hx
    simp only [frameSeq, List.mem_map, List.mem_range] at hx
    obtain ⟨j, -, rfl⟩ := hx
    have : (0 : Int) ≤ (j : Int) * d := mul_nonneg (Int.natCast_nonneg j) (le_of_lt hd)
    omega

theorem frameSeq_decreasing (a d : Int) (hd : d < 0) (n : Nat) :
    (frameSeq a d n).Pairwise (· > ·) := by
  induction n generalizing a with
  | zero => simp [frameSeq]
  | succ n ih =>
    rw [frameSeq_succ, List.pairwise_cons]
    refine ⟨?_, ih (a + d)⟩
    intro x hx
    simp only [frameSeq, List.mem_map, List.mem_range] at hx
    obtain ⟨j, -, rfl⟩ := hx
    have : (j : Int) * d ≤ 0 := mul_nonpos_of_nonneg_of_nonpos (Int.natCast_nonneg j) (le_of_lt hd)
    show a > a + d + (j : Int) * d
    omega

theorem window_fst (c ls M : Int) : (window c ls M).1 = max 1 c := by
  simp only [window]
  split_ifs with h
  · rw [max_eq_left (by omega)]
  · rw [max_eq_right (by omega)]

/-- The three ways a pass can go: skip mode, the division by zero of the paused
branch, or the window code with the speed snapshot and the increment of the pass. -/
theorem pass_cases (s : Settings) (ui : Nat → List UIOp) (fuel : Nat) (w : World) :
    pass s ui fuel w = .completed { w with thread := { passHead s w with
        current_display_frame := (passHead s w).requested_display_frame } } ∨
    pass s ui fuel w = .divideByZero { w with thread := { passHead s w with
        should_pause_cache := true } } ∨
    ∃ w0 : World,
      pass s ui fuel w = cacheWindow ui fuel w.thread.speed
        (increment w.thread.speed w.thread.last_speed) w0 ∧
      w0.trace = w.trace ∧ w0.reader = w.reader ∧
      w0.threadShouldExit = w.threadShouldExit ∧
      w0.thread = { passHead s w with
        should_pause_cache := w0.thread.should_pause_cache,
        max_frames_ahead := w0.thread.max_frames_ahead } := by
  obtain ⟨f1, f2, -, -, -, -, f7, -⟩ := passHead_fields s w
  cases hen : s.ENABLE_PLAYBACK_CACHING with
  | false =>
    left
    simp [pass, hen]
  | true =>
    by_cases hz : w.thread.speed = 0
    · cases hl : (passHead s w).should_pause_cache with
      | true =>
        left
        simp [pass, f1, hz, hl]
      | false =>
        right
        cases hm : pausedMaxFramesAhead s w.reader s.VIDEO_CACHE_MAX_PREROLL_FRAMES with
        | none =>
          left
          simp [pass, f1, hz, hl, hen, f7, hm]
        | some M =>
          right
          refine ⟨{ w with thread := { passHead s w with
            should_pause_cache := true, max_frames_ahead := M } }, ?_, rfl, rfl, rfl, rfl⟩
          rw [pass_paused s ui fuel w M hen hz hl hm]
          simp only [increment, hz, if_true]
    · right
      right
      refine ⟨{ w with thread := { passHead s w with should_pause_cache := false } },
        ?_, rfl, rfl, rfl, rfl⟩
      rw [pass_playing s ui fuel w hen hz]
      simp only [increment, hz, if_false]

theorem cacheWindow_getFrameCalls (ui : Nat → List UIOp) (fuel : Nat) (cs inc : Int)
    (w : World) :
    ∃ (n : Nat) (calls : List Int),
      getFrameCalls (cacheWindow ui fuel cs inc w).world.trace =
        getFrameCalls w.trace ++ calls ∧
      calls.Sublist (frameSeq (max 1 w.thread.current_display_frame) inc n) := by
  obtain ⟨n, calls, h1, h2⟩ := windowLoop_getFrameCalls ui cs
    (window w.thread.current_display_frame w.thread.last_speed w.thread.max_frames_ahead).1
    (window w.thread.current_display_frame w.thread.last_speed w.thread.max_frames_ahead).2
    inc fuel 0
    (window w.thread.current_display_frame w.thread.last_speed w.thread.max_frames_ahead).1
    0 0 w
  rw [window_fst] at h1 h2
  refine ⟨n, calls, ?_, h2⟩
  unfold cacheWindow
  simp only []
  rw [window_fst]
  split
  · rename_i w1 hl
    rw [hl] at h1
    exact h1
  · rename_i w1 hl
    rw [hl] at h1
    exact h1
  · rename_i w1 u1 a1 hl
    rw [hl] at h1
    exact h1

/-- C11 (amended). Monotone fetch order.  Within one pass of `run()`, whatever the
settings, the UI writes and the way the pass ends, the frame numbers passed to
`reader.GetFrame` are a subsequence of `starting_frame, starting_frame + increment,
starting_frame + 2 * increment, ...`, so they are strictly increasing when the
increment is positive and strictly decreasing when it is negative.  The increment is
+1 or -1 in paused-filling mode, and in playing mode it is the speed snapshot narrowed
to `int16_t`: equal to the snapshot, hence non-zero, when the snapshot is non-zero and
within -32768..32767. -/
theorem fetch_order_monotone (s : Settings) (ui : Nat → List UIOp) (fuel : Nat) (w : World) :
    (∃ (n : Nat) (calls : List Int),
      getFrameCalls (pass s ui fuel w).world.trace = getFrameCalls w.trace ++ calls ∧
      calls.Sublist (frameSeq (max 1 w.thread.current_display_frame)
        (increment w.thread.speed w.thread.last_speed) n) ∧
      (0 < increment w.thread.speed w.thread.last_speed → calls.Pairwise (· < ·)) ∧
      (increment w.thread.speed w.thread.last_speed < 0 → calls.Pairwise (· > ·))) ∧
    (w.thread.speed = 0 →
      increment w.thread.speed w.thread.last_speed = 1 ∨
      increment w.thread.speed w.thread.last_speed = -1) ∧
    (w.thread.speed ≠ 0 → -32768 ≤ w.thread.speed → w.thread.speed ≤ 32767 →
      increment w.thread.speed w.thread.last_speed = w.thread.speed ∧
      increment w.thread.speed w.thread.last_speed ≠ 0) := by
  refine ⟨?_, ?_, ?_⟩
  · have key : ∃ (n : Nat) (calls : List Int),
        getFrameCalls (pass s ui fuel w).world.trace = getFrameCalls w.trace ++ calls ∧
        calls.Sublist (frameSeq (max 1 w.thread.current_display_frame)
          (increment w.thread.speed w.thread.last_speed) n) := by
      rcases pass_cases s ui fuel w with h | h | ⟨w0, h, htr, -, -, hth⟩
      · exact ⟨0, [], by rw [h]; simp [PassResult.world], List.nil_sublist _⟩
      · exact ⟨0, [], by rw [h]; simp [PassResult.world], List.nil_sublist _⟩
      · obtain ⟨n, calls, h1, h2⟩ := cacheWindow_getFrameCalls ui fuel w.thread.speed
          (increment w.thread.speed w.thread.last_speed) w0
        have hc : w0.thread.current_display_frame = w.thread.current_display_frame := by
          rw [hth]
          exact (passHead_fields s w).2.2.2.1
        rw [hc] at h2
        rw [htr] at h1
        exact ⟨n, calls, by rw [h]; exact h1, h2⟩
    obtain ⟨n, calls, h1, h2⟩ := key
    exact ⟨n, calls, h1, h2,
      fun hpos => (frameSeq_increasing _ _ hpos n).sublist h2,
      fun hneg => (frameSeq_decreasing _ _ hneg n).sublist h2⟩
  · intro h0
    simp only [increment, h0, if_true]
    split_ifs
    · exact Or.inl rfl
    · exact Or.inr rfl
  · intro h0 hlo hhi
    have ht : toInt16 w.thread.speed = w.thread.speed := by
      unfold toInt16
      omega
    simp only [increment, h0, if_false, ht]
    exact ⟨trivial, h0⟩

/-- C11 (witness). The cold-start pass: the calls 1..9 are strictly increasing and the
increment is the speed snapshot 1. -/
theorem fetch_order_monotone_witness :
    (∃ calls : List Int,
      getFrameCalls (pass (demoSettings true) noUI 9 coldStartWorld).world.trace = calls ∧
      calls.Pairwise (· < ·)) ∧
    increment coldStartWorld.thread.speed coldStartWorld.thread.last_speed = 1 := by
  obtain ⟨⟨n, calls, h1, -, h3, -⟩, -, h5⟩ :=
    fetch_order_monotone (demoSettings true) noUI 9 coldStartWorld
  have hinc := (h5 (by decide) (by decide) (by decide)).1
  refine ⟨⟨calls, ?_, h3 (by rw [hinc]; decide)⟩, hinc⟩
  rw [h1]
  rfl

/-- C11 (counterexample). At `speed = 65536` the `int16_t` increment is 0: on a timeline
where every `GetFrame` is out of bounds the loop stays on frame 1, the calls 1, 1, 1
after three visits are not strictly monotone, and the loop is still running after any
number of visits. -/
theorem fetch_order_counterexample :
    increment speed65536World.thread.speed speed65536World.thread.last_speed = 0 ∧
    getFrameCalls (pass (demoSettings true) noUI 3 speed65536World).world.trace = [1, 1, 1] ∧
    ¬ ([1, 1, 1] : List Int).Pairwise (· < ·) ∧
    ¬ ([1, 1, 1] : List Int).Pairwise (· > ·) ∧
    ∀ fuel, ∃ w1, pass (demoSettings true) noUI fuel speed65536World =
      PassResult.outOfFuel w1 := by
  refine ⟨by decide, by decide, by decide, by decide, ?_⟩
  intro fuel
  rw [pass_playing (demoSettings true) noUI fuel speed65536World rfl (by decide)]
  exact cacheWindow_runaway _ _ fuel _ 1 9 (by decide) ⟨Or.inl rfl, rfl, rfl⟩
    (by intro k; simp [speed65536World])
    (by intro n; show (1 : Int) + (n : Int) * toInt16 65536 ≠ 9 + toInt16 65536
        have : toInt16 65536 = 0 := by decide
        rw [this]; omega)

/-! ## C12: `isReady()` during a pass -/

theorem visitFrame_visits (k : Int) (w : World) (u a : Int) :
    (∀ w1 u1 a1, visitFrame k w u a = .ok w1 u1 a1 →
      visits w1.trace = visits w.trace ++
        [(k, w.thread.cached_frame_count + 1,
          decide (w.thread.cached_frame_count + 1 > w.thread.min_frames_ahead))]) ∧
    (∀ w1, visitFrame k w u a = .threw w1 → visits w1.trace = visits w.trace) := by
  unfold visitFrame
  cases hc : w.reader.Contains k <;> cases hg : w.reader.GetFrame k <;>
    simp [hc, hg, visits_append, visits, VideoCacheThread.isReady]

theorem checkpoints_counts (cs sf ef : Int) (w : World) :
    (checkpoints cs sf ef w).2.thread.cached_frame_count = w.thread.cached_frame_count ∧
    (checkpoints cs sf ef w).2.thread.min_frames_ahead = w.thread.min_frames_ahead := by
  unfold checkpoints
  simp only []
  split_ifs <;> exact ⟨rfl, rfl⟩

/-- The visits of a window loop without UI writes, however it ends: the count goes up
by one with each visit and `min_frames_ahead` stays, so `cached_frame_count` never
decreases. -/
theorem windowLoop_visits (cs sf ef inc : Int) :
    ∀ (fuel i : Nat) (a u al : Int) (w : World), ∃ n : Nat,
      visits (windowLoop noUI cs sf ef inc fuel i a u al w).world.trace =
        visits w.trace ++ (List.range n).map (fun j : Nat =>
          (a + (j : Int) * inc, w.thread.cached_frame_count + (j : Int) + 1,
            decide (w.thread.cached_frame_count + (j : Int) + 1 > w.thread.min_frames_ahead))) ∧
      w.thread.cached_frame_count + (n : Int) ≤
        (windowLoop noUI cs sf ef inc fuel i a u al w).world.thread.cached_frame_count ∧
      (windowLoop noUI cs sf ef inc fuel i a u al w).world.thread.min_frames_ahead =
        w.thread.min_frames_ahead := by
  intro fuel
  induction fuel with
  | zero =>
    intro i a u al w
    refine ⟨0, ?_, ?_, ?_⟩ <;> unfold windowLoop <;> split_ifs <;> simp [LoopResult.world]
  | succ fuel ih =>
    intro i a u al w
    unfold windowLoop
    split_ifs with h
    · exact ⟨0, by simp [LoopResult.world], by simp [LoopResult.world], rfl⟩
    · obtain ⟨hvok, hvthrew⟩ := visitFrame_visits a w u al
      obtain ⟨ht, -, -⟩ := visitFrame_world a w u al
      cases hvis : visitFrame a w u al with
      | threw w1 =>
        rw [hvis] at ht
        simp only [VisitResult.world] at ht
        refine ⟨0, ?_, ?_, ?_⟩
        · simp only [LoopResult.world]
          rw [hvthrew w1 hvis]
          simp
        · simp only [LoopResult.world]
          rw [ht]
          simp
        · simp only [LoopResult.world]
          rw [ht]
      | ok w1 u1 a1 =>
        rw [hvis] at ht
        simp only [VisitResult.world] at ht
        have hv1 := hvok w1 u1 a1 hvis
        have hc1 : w1.thread.cached_frame_count = w.thread.cached_frame_count + 1 := by rw [ht]
        have hm1 : w1.thread.min_frames_ahead = w.thread.min_frames_ahead := by rw [ht]
        simp only []
        have hop : applyOps (noUI i) w1 = w1 := rfl
        rw [hop]
        have hck := checkpoints_trace cs sf ef w1
        obtain ⟨hcc, hcm⟩ := checkpoints_counts cs sf ef w1
        cases hc : checkpoints cs sf ef w1 with
        | mk b w2 =>
          rw [hc] at hck hcc hcm
          simp only [] at hck hcc hcm
          cases b with
          | true =>
            refine ⟨1, ?_, ?_, ?_⟩
            · simp only [LoopResult.world]
              rw [hck, hv1]
              simp [List.range_succ]
            · simp only [LoopResult.world]
              rw [hcc, hc1]
              simp
            · simp only [LoopResult.world]
              rw [hcm, hm1]
          | false =>
            obtain ⟨n, h1, h2, h3⟩ := ih (i + 1) (a + inc) u1 a1 w2
            refine ⟨n + 1, ?_, ?_, ?_⟩
            · simp only []
              rw [h1, hck, hv1, hcc, hcm, hc1, hm1, List.range_succ_eq_map]
              simp only [List.append_assoc, List.singleton_append, List.map_cons, List.map_map,
                Nat.cast_zero, zero_mul, add_zero]
              congr 2
              apply List.map_congr_left
              intro j _
              simp only [Function.comp, Nat.cast_succ]
              have e1 : a + inc + (j : Int) * inc = a + ((j : Int) + 1) * inc := by ring
              have e2 : w.thread.cached_frame_count + 1 + (j : Int) + 1 =
                  w.thread.cached_frame_count + ((j : Int) + 1) + 1 := by ring
              rw [e1, e2]
            · simp only []
              rw [hcc, hc1] at h2
              push_cast
              omega
            · simp only []
              rw [h3, hcm, hm1]

theorem visits_monotone (f : Nat → Int) (c m : Int) (n : Nat) :
    ((List.range n).map (fun j : Nat =>
      (f j, c + (j : Int) + 1, decide (c + (j : Int) + 1 > m)))).Pairwise
      (fun a b => a.2.1 < b.2.1 ∧ (a.2.2 = true → b.2.2 = true)) := by
  rw [List.pairwise_map]
  refine (List.pairwise_lt_range n).imp ?_
  intro i j hij
  have h : (i : Int) < (j : Int) := by exact_mod_cast hij
  refine ⟨by simp only []; omega, ?_⟩
  simp only [decide_eq_true_eq]
  intro h1
  omega

/-- The window code without UI writes: its visits, and where it ends. -/
theorem cacheWindow_visits (fuel : Nat) (cs inc : Int) (w : World) :
    (∃ vs, visits (cacheWindow noUI fuel cs inc w).world.trace = visits w.trace ++ vs ∧
      vs.Pairwise (fun a b => a.2.1 < b.2.1 ∧ (a.2.2 = true → b.2.2 = true))) ∧
    ((w.thread.cached_frame_count ≤
        (cacheWindow noUI fuel cs inc w).world.thread.cached_frame_count ∧
      (cacheWindow noUI fuel cs inc w).world.thread.min_frames_ahead =
        w.thread.min_frames_ahead) ∨
     ∃ wl unc, cacheWindow noUI fuel cs inc w = .completed (endOfPass cs unc wl) ∧
      w.thread.cached_frame_count ≤ wl.thread.cached_frame_count ∧
      wl.thread.min_frames_ahead = w.thread.min_frames_ahead) := by
  obtain ⟨n, h1, h2, h3⟩ := windowLoop_visits cs
    (window w.thread.current_display_frame w.thread.last_speed w.thread.max_frames_ahead).1
    (window w.thread.current_display_frame w.thread.last_speed w.thread.max_frames_ahead).2
    inc fuel 0
    (window w.thread.current_display_frame w.thread.last_speed w.thread.max_frames_ahead).1
    0 0 w
  have hn : (0 : Int) ≤ (n : Int) := Int.natCast_nonneg n
  unfold cacheWindow
  simp only []
  split
  · rename_i w1 hl
    rw [hl] at h1 h2 h3
    exact ⟨⟨_, h1, visits_monotone _ _ _ n⟩, Or.inl ⟨by simp only [LoopResult.world] at h2; show _ ≤ w1.thread.cached_frame_count; omega, h3⟩⟩
  · rename_i w1 hl
    rw [hl] at h1 h2 h3
    exact ⟨⟨_, h1, visits_monotone _ _ _ n⟩, Or.inl ⟨by simp only [LoopResult.world] at h2; show _ ≤ w1.thread.cached_frame_count; omega, h3⟩⟩
  · rename_i w1 u1 a1 hl
    rw [hl] at h1 h2 h3
    refine ⟨⟨_, h1, visits_monotone _ _ _ n⟩, Or.inr ⟨w1, u1, rfl, ?_, h3⟩⟩
    simp only [LoopResult.world] at h2
    omega

theorem endOfPass_count (cs unc : Int) (w : World) :
    (endOfPass cs unc w).thread.cached_frame_count =
      (if cs = 1 ∧ w.thread.cached_frame_count > w.thread.max_frames_ahead ∧
          unc > w.thread.min_frames_ahead then 0
       else w.thread.cached_frame_count) := by
  unfold endOfPass
  simp only []
  split_ifs <;> rfl

theorem passHead_count (s : Settings) (w : World) :
    (passHead s w).cached_frame_count =
      (if w.reader.Count = 0 then 0 else w.thread.cached_frame_count) := by
  unfold passHead
  split_ifs <;> rfl

/-- C12. `isReady()` monotonicity.  In a pass without UI writes, however it ends, the
frame visits of the window loop carry a strictly growing `cached_frame_count` and a
readiness that, once true, stays true.  If the worker is ready under the settings of
the pass (its `min_frames_ahead` is the setting) and the cache is not empty, then it is
ready wherever the pass ends, unless the pass reached its end with the state before
the end-of-pass step still ready and the reset condition `current_speed == 1`,
`cached_frame_count > max_frames_ahead`, `uncached_frame_count > min_frames_ahead` true.
The end-of-pass step resets the count exactly under that condition, and the head of
the pass resets it exactly when `Count() == 0`. -/
theorem isReady_monotone (s : Settings) (fuel : Nat) (w : World) :
    (∃ vs, visits (pass s noUI fuel w).world.trace = visits w.trace ++ vs ∧
      vs.Pairwise (fun a b => a.2.1 < b.2.1 ∧ (a.2.2 = true → b.2.2 = true))) ∧
    (w.thread.min_frames_ahead = s.VIDEO_CACHE_MIN_PREROLL_FRAMES →
      w.reader.Count ≠ 0 → w.thread.isReady = true →
      (pass s noUI fuel w).world.thread.isReady = true ∨
      ∃ wl unc, pass s noUI fuel w = PassResult.completed (endOfPass w.thread.speed unc wl) ∧
        wl.thread.isReady = true ∧ w.thread.speed = 1 ∧
        wl.thread.cached_frame_count > wl.thread.max_frames_ahead ∧
        unc > wl.thread.min_frames_ahead) ∧
    (∀ (cs unc : Int) (w1 : World),
      (endOfPass cs unc w1).thread.cached_frame_count =
        (if cs = 1 ∧ w1.thread.cached_frame_count > w1.thread.max_frames_ahead ∧
            unc > w1.thread.min_frames_ahead then 0
         else w1.thread.cached_frame_count) ∧
      (endOfPass cs unc w1).thread.min_frames_ahead = w1.thread.min_frames_ahead) ∧
    (passHead s w).cached_frame_count =
      (if w.reader.Count = 0 then 0 else w.thread.cached_frame_count) := by
  obtain ⟨f1, -, -, -, -, f6, -, -⟩ := passHead_fields s w
  refine ⟨?_, ?_, fun cs unc w1 => ⟨endOfPass_count cs unc w1, (endOfPass_sizes cs unc w1).2.1⟩,
    passHead_count s w⟩
  · rcases pass_cases s noUI fuel w with h | h | ⟨w0, h, htr, -, -, -⟩
    · exact ⟨[], by rw [h]; simp [PassResult.world], List.Pairwise.nil⟩
    · exact ⟨[], by rw [h]; simp [PassResult.world], List.Pairwise.nil⟩
    · obtain ⟨⟨vs, h1, h2⟩, -⟩ := cacheWindow_visits fuel w.thread.speed
        (increment w.thread.speed w.thread.last_speed) w0
      exact ⟨vs, by rw [h, h1, htr], h2⟩
  · intro hmin hcount hready
    have hr : w.thread.cached_frame_count > s.VIDEO_CACHE_MIN_PREROLL_FRAMES := by
      rw [← hmin]
      simpa [VideoCacheThread.isReady] using hready
    have hpc : (passHead s w).cached_frame_count = w.thread.cached_frame_count := by
      rw [passHead_count, if_neg hcount]
    rcases pass_cases s noUI fuel w with h | h | ⟨w0, h, -, -, -, hth⟩
    · left
      rw [h]
      simp only [PassResult.world, VideoCacheThread.isReady, hpc, f6, decide_eq_true_eq]
      exact hr
    · left
      rw [h]
      simp only [PassResult.world, VideoCacheThread.isReady, hpc, f6, decide_eq_true_eq]
      exact hr
    · have hc0 : w0.thread.cached_frame_count = w.thread.cached_frame_count := by
        rw [hth]
        exact hpc
      have hm0 : w0.thread.min_frames_ahead = s.VIDEO_CACHE_MIN_PREROLL_FRAMES := by
        rw [hth]
        exact f6
      obtain ⟨-, hend⟩ := cacheWindow_visits fuel w.thread.speed
        (increment w.thread.speed w.thread.last_speed) w0
      rcases hend with ⟨hc, hm⟩ | ⟨wl, unc, hcw, hc, hm⟩
      · left
        rw [h]
        simp only [VideoCacheThread.isReady, hm, hm0, decide_eq_true_eq]
        omega
      · have hwl : wl.thread.isReady = true := by
          simp only [VideoCacheThread.isReady, hm, hm0, decide_eq_true_eq]
          omega
        by_cases hreset : w.thread.speed = 1 ∧
            wl.thread.cached_frame_count > wl.thread.max_frames_ahead ∧
            unc > wl.thread.min_frames_ahead
        · right
          exact ⟨wl, unc, by rw [h, hcw], hwl, hreset.1, hreset.2.1, hreset.2.2⟩
        · left
          rw [h, hcw]
          simp only [PassResult.world, VideoCacheThread.isReady, endOfPass_count, if_neg hreset,
            (endOfPass_sizes w.thread.speed unc wl).2.1, hm, hm0, decide_eq_true_eq]
          omega

/-- C12 (witness). With frames 100..108 cached the ready worker stays ready through the
pass; with only frame 100 cached the eight fetches trigger the end-of-pass reset, the
one way the pass ends not ready. -/
theorem isReady_monotone_witness :
    (midPlaybackWorld.thread.isReady = true ∧
      (pass (demoSettings true) noUI 9 midPlaybackWorld).world.thread.isReady = true ∧
      readyAfterVisits (pass (demoSettings true) noUI 9 midPlaybackWorld).world.trace =
        [true, true, true, true, true, true, true, true, true]) ∧
    (fragmentedCacheWorld.thread.isReady = true ∧
      (pass (demoSettings true) noUI 9 fragmentedCacheWorld).world.thread.isReady = false ∧
      ∃ wl unc, pass (demoSettings true) noUI 9 fragmentedCacheWorld =
          PassResult.completed (endOfPass 1 unc wl) ∧
        wl.thread.isReady = true ∧
        wl.thread.cached_frame_count > wl.thread.max_frames_ahead ∧
        unc > wl.thread.min_frames_ahead) := by
  obtain ⟨-, hb, -, -⟩ := isReady_monotone (demoSettings true) 9 fragmentedCacheWorld
  have hnot : (pass (demoSettings true) noUI 9 fragmentedCacheWorld).world.thread.isReady
      = false := by decide
  refine ⟨⟨by decide, by decide, by decide⟩, by decide, hnot, ?_⟩
  rcases hb rfl (by decide) (by decide) with h | ⟨wl, unc, h1, h2, -, h4, h5⟩
  · rw [hnot] at h
    exact absurd h (by decide)
  · exact ⟨wl, unc, h1, h2, h4, h5⟩

/-! ## C13: forward and reverse windows -/

/-- C13 (amended). Direction symmetry.  For every playhead `c ≥ 1`, window size `M ≥ 0`
and `k > 0`, the window computed with `last_speed = +k` is `c .. c + M` and the window
computed with `last_speed = -k` is `c .. max(1, c - M)`: the mirror image around `c`,
cut off at frame 1.  When `c - M ≥ 1` the reverse window is the exact mirror image
`c .. c - M`. -/
theorem window_direction_symmetry (c M k : Int) (hc : 1 ≤ c) (hM : 0 ≤ M) (hk : 0 < k) :
    window c k M = (c, c + M) ∧
    window c (-k) M = (c, max 1 (c - M)) ∧
    (1 ≤ c - M → window c (-k) M = (c, c - M) ∧
      (window c (-k) M).2 - c = -((window c k M).2 - c)) := by
  have h1 : window c k M = (c, c + M) := by
    have hn : ¬ (k < 0) := by omega
    have hc1 : ¬ (c < 1) := by omega
    have hc2 : ¬ (c + M < 1) := by omega
    simp [window, hn, hc1, hc2]
  have h2 : window c (-k) M = (c, max 1 (c - M)) := by
    have hn : -k < 0 := by omega
    have hc1 : ¬ (c < 1) := by omega
    simp only [window, hn, if_true, hc1, if_false, Prod.mk.injEq, true_and]
    split_ifs with h
    · rw [max_eq_left (by omega)]
    · rw [max_eq_right (by omega)]
  refine ⟨h1, h2, ?_⟩
  intro h3
  have h4 : window c (-k) M = (c, c - M) := by rw [h2, max_eq_right h3]
  refine ⟨h4, ?_⟩
  rw [h4, h1]
  simp

/-- C13 (witness). Playhead 50, window size 8: 50..58 forward and 50..42 in reverse. -/
theorem window_direction_symmetry_witness :
    window 50 1 8 = (50, 58) ∧ window 50 (-1) 8 = (50, 42) := by
  obtain ⟨h1, -, h3⟩ := window_direction_symmetry 50 8 1 (by decide) (by decide) (by decide)
  exact ⟨h1, (h3 (by decide)).1⟩

/-- C13 (counterexample). At playhead 3 with window size 8 the forward window is 3..11
and the reverse window is 3..1, not the mirror image 3..-5.  And the direction is that
of `last_speed`, not of the speed snapshot: on the first pass after a reversal
(`speed = -1`, `last_speed = 1`, playhead 50) the window is 50..58, as after ten visits
the loop has walked from 50 past 42 without ending. -/
theorem window_direction_counterexample :
    window 3 1 8 = (3, 11) ∧ window 3 (-1) 8 = (3, 1) ∧ window 3 (-1) 8 ≠ (3, 3 - 8) ∧
    justReversedWorld.thread.speed = -1 ∧
    window justReversedWorld.thread.current_display_frame
      justReversedWorld.thread.last_speed 8 = (50, 58) ∧
    visitedFrames (pass (demoSettings true) noUI 10 justReversedWorld).world.trace =
      [50, 49, 48, 47, 46, 45, 44, 43, 42, 41] := by
  refine ⟨by decide, by decide, by decide, rfl, by decide, by decide⟩

/-! ## C17: `last_speed` is never zero -/

theorem cacheWindow_last_speed (ui : Nat → List UIOp) (fuel : Nat) (cs inc : Int)
    (w : World) :
    (∀ w1, cacheWindow ui fuel cs inc w = .threw w1 →
      w1.thread.last_speed = w.thread.last_speed) ∧
    (∀ w1, cacheWindow ui fuel cs inc w = .outOfFuel w1 →
      w1.thread.last_speed = w.thread.last_speed) ∧
    (∀ w1, cacheWindow ui fuel cs inc w ≠ .divideByZero w1) ∧
    (∀ w1, cacheWindow ui fuel cs inc w = .completed w1 →
      w1.thread.last_speed = (if cs ≠ 0 then cs else w.thread.last_speed)) := by
  have h := windowLoop_sameConfig ui cs
    (window w.thread.current_display_frame w.thread.last_speed w.thread.max_frames_ahead).1
    (window w.thread.current_display_frame w.thread.last_speed w.thread.max_frames_ahead).2
    inc fuel 0
    (window w.thread.current_display_frame w.thread.last_speed w.thread.max_frames_ahead).1
    0 0 w
  unfold cacheWindow
  simp only []
  split
  · rename_i w2 hl
    rw [hl] at h
    refine ⟨?_, ?_, ?_, ?_⟩
    · intro w1 e
      cases e
      exact h.2.2.1
    · intro w1 e
      cases e
    · intro w1 e
      cases e
    · intro w1 e
      cases e
  · rename_i w2 hl
    rw [hl] at h
    refine ⟨?_, ?_, ?_, ?_⟩
    · intro w1 e
      cases e
    · intro w1 e
      cases e
      exact h.2.2.1
    · intro w1 e
      cases e
    · intro w1 e
      cases e
  · rename_i w2 u2 a2 hl
    rw [hl] at h
    refine ⟨?_, ?_, ?_, ?_⟩
    · intro w1 e
      cases e
    · intro w1 e
      cases e
    · intro w1 e
      cases e
    · intro w1 e
      cases e
      have h3 : w2.thread.last_speed = w.thread.last_speed := h.2.2.1
      unfold endOfPass
      simp only []
      split_ifs <;> simp_all

/-- What a pass does to `last_speed`: nothing unless it reaches its end through the
window code with a non-zero speed snapshot, which then becomes `last_speed`. -/
theorem pass_last_speed (s : Settings) (ui : Nat → List UIOp) (fuel : Nat) (w : World) :
    (∀ w1, (pass s ui fuel w = .threw w1 ∨ pass s ui fuel w = .outOfFuel w1 ∨
        pass s ui fuel w = .divideByZero w1) →
      w1.thread.last_speed = w.thread.last_speed) ∧
    (∀ w1, pass s ui fuel w = .completed w1 →
      w1.thread.last_speed = w.thread.last_speed ∨
      (w.thread.speed ≠ 0 ∧ w1.thread.last_speed = w.thread.speed)) := by
  obtain ⟨-, f2, -⟩ := passHead_fields s w
  rcases pass_cases s ui fuel w with h | h | ⟨w0, h, -, -, -, hth⟩
  · rw [h]
    refine ⟨?_, ?_⟩
    · rintro w1 (e | e | e) <;> cases e
    · intro w1 e
      cases e
      exact Or.inl f2
  · rw [h]
    refine ⟨?_, ?_⟩
    · rintro w1 (e | e | e)
      · cases e
      · cases e
      · cases e
        exact f2
    · intro w1 e
      cases e
  · have hl0 : w0.thread.last_speed = w.thread.last_speed := by
      rw [hth]
      exact f2
    obtain ⟨c1, c2, c3, c4⟩ := cacheWindow_last_speed ui fuel w.thread.speed
      (increment w.thread.speed w.thread.last_speed) w0
    rw [h]
    refine ⟨?_, ?_⟩
    · rintro w1 (e | e | e)
      · rw [c1 w1 e, hl0]
      · rw [c2 w1 e, hl0]
      · exact absurd e (c3 w1)
    · intro w1 e
      have := c4 w1 e
      by_cases hz : w.thread.speed = 0
      · left
        rw [this, if_neg (by simpa using hz), hl0]
      · right
        exact ⟨hz, by rw [this, if_pos hz]⟩

/-- C17. The last speed is never zero.  In every state reachable from the constructed
worker through `Seek`, `Play`, `Stop`, arbitrary UI writes of `speed` and worker passes
(UI writes during a pass included, a pass observed after any number of frame visits),
`last_speed != 0`.  A pass that does not reach its end leaves `last_speed` unchanged;
a pass that reaches its end either leaves it unchanged or has a non-zero speed
snapshot and sets `last_speed` to that snapshot. -/
theorem last_speed_nonzero (requested : Int) (reader : Reader) (w : World)
    (hr : Reachable (fun _ => True) (World.init requested reader) w) :
    w.thread.last_speed ≠ 0 ∧
    (∀ (s : Settings) (ui : Nat → List UIOp) (fuel : Nat) (w1 : World),
      (pass s ui fuel w = PassResult.threw w1 ∨ pass s ui fuel w = PassResult.outOfFuel w1 ∨
        pass s ui fuel w = PassResult.divideByZero w1) →
      w1.thread.last_speed = w.thread.last_speed) ∧
    (∀ (s : Settings) (ui : Nat → List UIOp) (fuel : Nat) (w1 : World),
      pass s ui fuel w = PassResult.completed w1 →
      w1.thread.last_speed = w.thread.last_speed ∨
      (w.thread.speed ≠ 0 ∧ w1.thread.last_speed = w.thread.speed)) := by
  refine ⟨?_, fun s ui fuel => (pass_last_speed s ui fuel w).1,
    fun s ui fuel => (pass_last_speed s ui fuel w).2⟩
  induction hr with
  | init =>
    show (1 : Int) ≠ 0
    decide
  | uiWrite op _ _ ih =>
    rw [(op.apply_sameConfig _).2.2.1]
    exact ih
  | @workerPass w0 s ui fuel _ _ _ _ ih =>
    obtain ⟨h1, h2⟩ := pass_last_speed s ui fuel w0
    cases hp : pass s ui fuel w0 with
    | completed w1 =>
      rcases h2 w1 hp with h | ⟨hz, h⟩
      · simp only [PassResult.world]
        rw [h]
        exact ih
      · simp only [PassResult.world]
        rw [h]
        exact hz
    | threw w1 =>
      simp only [PassResult.world]
      rw [h1 w1 (Or.inl hp)]
      exact ih
    | outOfFuel w1 =>
      simp only [PassResult.world]
      rw [h1 w1 (Or.inr (Or.inl hp))]
      exact ih
    | divideByZero w1 =>
      simp only [PassResult.world]
      rw [h1 w1 (Or.inr (Or.inr hp))]
      exact ih

/-- C17 (witness). Construction, a write of `speed = 2`, `Play()` and one pass:
`last_speed` becomes 2. -/
theorem last_speed_nonzero_witness :
    (pass (demoSettings true) noUI 9 (UIOp.Play.apply ((UIOp.setSpeed 2).apply
      (World.init 1 (demoReader [] 0))))).world.thread.last_speed ≠ 0 ∧
    (pass (demoSettings true) noUI 9 (UIOp.Play.apply ((UIOp.setSpeed 2).apply
      (World.init 1 (demoReader [] 0))))).world.thread.last_speed = 2 :=
  ⟨(last_speed_nonzero 1 (demoReader [] 0) _
    (Reachable.workerPass (demoSettings true) noUI 9
      (Reachable.uiWrite UIOp.Play
        (Reachable.uiWrite (UIOp.setSpeed 2) Reachable.init trivial) trivial)
      rfl rfl (fun _ _ _ => trivial))).1, by decide⟩

/-! ## C14: the direction of a paused fill -/

theorem UIOp.apply_visits (op : UIOp) (w : World) :
    visits (op.apply w).trace = visits w.trace := by
  cases op with
  | SeekPreroll n b =>
    show visits (w.Seek n b).trace = _
    unfold World.Seek
    simp only []
    split_ifs <;> simp [visits_append, visits]
  | _ => rfl

theorem applyOps_visits (ops : List UIOp) (w : World) :
    visits (applyOps ops w).trace = visits w.trace := by
  induction ops generalizing w with
  | nil => rfl
  | cons op ops ih =>
    show visits (applyOps ops (op.apply w)).trace = _
    rw [ih, op.apply_visits]

theorem checkpoints_stopped (cs sf ef : Int) (w : World) (h : w.thread.is_playing = false) :
    (checkpoints cs sf ef w).1 = true ∧
    (checkpoints cs sf ef w).2.thread.is_playing = false := by
  unfold checkpoints
  simp only []
  split_ifs <;> simp_all

/-- C16. Stop is honoured within one pass.  (1) `Stop()` sets `is_playing = false` and
changes no other field.  (2) If `is_playing` is false at the loop head, `run()` makes no
pass and returns with the state as it is.  (3) If `is_playing` is false when the
cancellation checks of a frame visit run (a `Stop()` landed during that visit), the
window loop ends with that visit: no further frame is visited and no further `GetFrame`
call is made.  (4) The window code then goes through the end-of-pass step, which leaves
`is_playing` false, and (5) `run()` returns after that pass unless `Play()` is called
before the loop head is evaluated again. -/
theorem stop_honoured :
    (∀ t : VideoCacheThread, t.Stop = { t with is_playing := false }) ∧
    (∀ (s : Settings) (ui : Nat → Nat → List UIOp) (idle : Nat → List UIOp)
      (fuel passes p : Nat) (w : World),
      w.thread.is_playing = false →
      run s ui idle fuel passes p w = PassResult.completed w) ∧
    (∀ (ui : Nat → List UIOp) (cs sf ef inc : Int) (fuel i : Nat) (k unc alr : Int)
      (w w1 : World) (unc1 alr1 : Int),
      k ≠ ef + inc → visitFrame k w unc alr = VisitResult.ok w1 unc1 alr1 →
      (applyOps (ui i) w1).thread.is_playing = false →
      ∃ w2, windowLoop ui cs sf ef inc (fuel + 1) i k unc alr w =
          LoopResult.finished w2 unc1 alr1 ∧
        visits w2.trace = visits w1.trace ∧
        getFrameCalls w2.trace = getFrameCalls w1.trace ∧
        w2.thread.is_playing = false) ∧
    (∀ (ui : Nat → List UIOp) (fuel : Nat) (cs inc : Int) (w wl : World) (unc alr : Int),
      windowLoop ui cs
        (window w.thread.current_display_frame w.thread.last_speed w.thread.max_frames_ahead).1
        (window w.thread.current_display_frame w.thread.last_speed w.thread.max_frames_ahead).2
        inc fuel 0
        (window w.thread.current_display_frame w.thread.last_speed w.thread.max_frames_ahead).1
        0 0 w = LoopResult.finished wl unc alr →
      cacheWindow ui fuel cs inc w = PassResult.completed (endOfPass cs unc wl) ∧
      (endOfPass cs unc wl).thread.is_playing = wl.thread.is_playing ∧
      (endOfPass cs unc wl).trace = wl.trace) ∧
    (∀ (s : Settings) (ui : Nat → Nat → List UIOp) (idle : Nat → List UIOp)
      (fuel passes p : Nat) (w w1 : World),
      w.threadShouldExit = false → w.thread.is_playing = true →
      pass s (ui p) fuel w = PassResult.completed w1 →
      (applyOps (idle p) w1).thread.is_playing = false →
      run s ui idle fuel (passes + 1) p w = PassResult.completed (applyOps (idle p) w1)) := by
  have hrun : ∀ (s : Settings) (ui : Nat → Nat → List UIOp) (idle : Nat → List UIOp)
      (fuel passes p : Nat) (w : World),
      w.thread.is_playing = false →
      run s ui idle fuel passes p w = PassResult.completed w := by
    intro s ui idle fuel passes p w h
    cases passes <;> simp [run, h]
  refine ⟨fun t => rfl, hrun, ?_, ?_, ?_⟩
  · intro ui cs sf ef inc fuel i k unc alr w w1 unc1 alr1 hk hv hstop
    obtain ⟨hb, hp⟩ := checkpoints_stopped cs sf ef (applyOps (ui i) w1) hstop
    have htr := checkpoints_trace cs sf ef (applyOps (ui i) w1)
    refine ⟨(checkpoints cs sf ef (applyOps (ui i) w1)).2, ?_, ?_, ?_, hp⟩
    · rw [windowLoop]
      simp only [hk, if_false, hv]
      cases hc : checkpoints cs sf ef (applyOps (ui i) w1) with
      | mk b w2 =>
        rw [hc] at hb
        simp only [] at hb
        subst hb
        rfl
    · rw [htr, applyOps_visits]
    · rw [htr, applyOps_getFrameCalls]
  · intro ui fuel cs inc w wl unc alr hl
    refine ⟨by simp only [cacheWindow, hl], (endOfPass_sizes cs unc wl).2.2.2.2.2.2, rfl⟩
  · intro s ui idle fuel passes p w w1 he hplay hp hidle
    rw [run]
    simp only [he, hplay, Bool.not_false, Bool.and_self, if_true, hp]
    exact hrun s ui idle fuel passes (p + 1) _ hidle

/-- C16 (witness). A `Stop()` lands while the cold-start pass visits its third frame:
the pass visits 1, 2, 3 and no further frame, and `run()` returns after that pass with
`is_playing` false. -/
theorem stop_honoured_witness :
    (∃ w1, run (demoSettings true) (fun _ => stopDuringVisit 2) (fun _ => []) 9 5 0
        coldStartWorld = PassResult.completed w1 ∧
      visitedFrames w1.trace = [1, 2, 3] ∧ getFrameCalls w1.trace = [1, 2, 3] ∧
      w1.thread.is_playing = false) ∧
    run (demoSettings true) (fun _ => noUI) (fun _ => []) 9 5 0
      { coldStartWorld with thread := coldStartWorld.thread.Stop } =
      PassResult.completed { coldStartWorld with thread := coldStartWorld.thread.Stop } := by
  obtain ⟨-, h2, -, -, -⟩ := stop_honoured
  exact ⟨⟨_, rfl, by decide, by decide, by decide⟩, h2 _ _ _ _ _ _ _ rfl⟩

/-! ## C20: the seek check of the window loop -/

/-- The seek check of the cancellation checks: it fires exactly under
`seekedOutsideWindow`, and otherwise the checks leave the state as it is.  With
`speed ≥ 0` and a forward window, or `speed < 0` and a reverse window, it fires exactly
when the pending request lies outside the closed window. -/
theorem checkpoints_seek (cs sf ef : Int) (w : World) :
    (seekedOutsideWindow sf ef w.thread = true →
      checkpoints cs sf ef w =
        (true, { w with thread := { w.thread with should_pause_cache := false } })) ∧
    (seekedOutsideWindow sf ef w.thread = false → (checkpoints cs sf ef w).2 = w) ∧
    (w.thread.requested_display_frame ≠ w.thread.current_display_frame →
      w.thread.speed ≥ 0 →
      (seekedOutsideWindow sf ef w.thread = true ↔
        ¬ (sf ≤ w.thread.requested_display_frame ∧ w.thread.requested_display_frame ≤ ef))) ∧
    (w.thread.requested_display_frame ≠ w.thread.current_display_frame →
      w.thread.speed < 0 →
      (seekedOutsideWindow sf ef w.thread = true ↔
        ¬ (ef ≤ w.thread.requested_display_frame ∧ w.thread.requested_display_frame ≤ sf))) := by
  refine ⟨?_, ?_, ?_, ?_⟩
  · intro h
    simp only [seekedOutsideWindow, decide_eq_true_eq] at h
    obtain ⟨h1, h2 | h2⟩ := h
    · unfold checkpoints
      simp only []
      rw [if_pos ⟨h1, h2.1, h2.2⟩]
    · unfold checkpoints
      simp only []
      split_ifs with c1 c2
      · rfl
      · rfl
      · exact absurd ⟨h1, h2.1, h2.2⟩ c2
      · exact absurd ⟨h1, h2.1, h2.2⟩ c2
      · exact absurd ⟨h1, h2.1, h2.2⟩ c2
  · intro h
    simp only [seekedOutsideWindow, decide_eq_false_iff_not] at h
    unfold checkpoints
    simp only []
    split_ifs with c1 c2
    · exact absurd ⟨c1.1, Or.inl c1.2⟩ h
    · exact absurd ⟨c2.1, Or.inr c2.2⟩ h
    · rfl
    · rfl
    · rfl
  · intro hne hsp
    simp only [seekedOutsideWindow, decide_eq_true_eq]
    constructor
    · rintro ⟨-, h | h⟩ <;> omega
    · intro h
      exact ⟨hne, Or.inl ⟨hsp, by omega⟩⟩
  · intro hne hsp
    simp only [seekedOutsideWindow, decide_eq_true_eq]
    constructor
    · rintro ⟨-, h | h⟩ <;> omega
    · intro h
      exact ⟨hne, Or.inr ⟨hsp, by omega⟩⟩

/-- C20 (code bug). Paused after reverse play (`speed = 0`, `last_speed = -1`) at frame
50 with window size 8 the window is the reverse window 50..42; with a seek to frame 45
pending, inside the window, the seek check still fires after the first visit: the pass
visits frame 50 only and ends with `should_pause_cache` cleared.  Paused after forward
play with a request inside the forward window (105 in 100..108) the check does not fire:
the pass visits all of 100..108 and the latch stays set. -/
theorem seek_inside_reverse_window_breaks :
    window pausedAfterReverseWorld.thread.current_display_frame
      pausedAfterReverseWorld.thread.last_speed 8 = (50, 42) ∧
    (42 ≤ pausedAfterReverseWorld.thread.requested_display_frame ∧
      pausedAfterReverseWorld.thread.requested_display_frame ≤ 50) ∧
    seekedOutsideWindow 50 42 pausedAfterReverseWorld.thread = true ∧
    (∃ w1, pass (demoSettings true) noUI 9 pausedAfterReverseWorld =
        PassResult.completed w1 ∧
      visitedFrames w1.trace = [50] ∧ w1.thread.should_pause_cache = false) ∧
    (∃ w1, pass (demoSettings true) noUI 9 pausedAfterForwardWorld =
        PassResult.completed w1 ∧
      visitedFrames w1.trace = [100, 101, 102, 103, 104, 105, 106, 107, 108] ∧
      w1.thread.should_pause_cache = true) := by
  refine ⟨by decide, by decide, by decide, ?_, ?_⟩
  · exact ⟨_, rfl, by decide, by decide⟩
  · exact ⟨_, rfl, by decide, by decide⟩

/-! ## C19: the constructors of `Frame` -/

/-- What `Frame.build` yields from a freshly allocated audio buffer. -/
theorem build_blank (f : Frame) (i : Image) (memory : Nat → Nat → ℚ) (channels samples : Int) :
    (f.build i (AudioSampleBuffer.alloc memory channels samples)).number = f.number ∧
    (f.build i (AudioSampleBuffer.alloc memory channels samples)).Blank
      i.width i.height channels samples := by
  refine ⟨rfl, ⟨i, rfl, rfl, rfl⟩, ⟨_, rfl, rfl, rfl, ?_, ?_⟩⟩
  · simp [AudioSampleBuffer.clear, AudioSampleBuffer.alloc]
  · intro channel hc
    simp only [AudioSampleBuffer.clear, AudioSampleBuffer.alloc, List.map_map,
      List.mem_map, List.mem_range] at hc
    obtain ⟨c, -, rfl⟩ := hc
    constructor
    · simp
    · intro x hx
      simp only [Function.comp, List.map_map, List.mem_map] at hx
      obtain ⟨_, -, rfl⟩ := hx
      rfl

/-- C19. Every one of the five constructors yields a frame with both buffers allocated
and all audio samples zero, whatever the allocated memory held: the blank form has number
1, a 300x200 image and 2 x 1600 samples; the two image-only forms have the requested
width x height and 2 x 1600 samples; the audio-only form has a 300x200 image and
channels x samples audio; the combined form has the requested image size and
channels x samples audio; every form but the blank one stores the given number. -/
theorem constructors_allocate_silence (memory : Nat → Nat → ℚ)
    (number width height samples channels : Int) (color map : String) (type : Nat)
    (pixels : List Nat) :
    ((Frame.Frame_blank memory).number = 1 ∧
      (Frame.Frame_blank memory).Blank 300 200 2 1600) ∧
    ((Frame.Frame_image memory number width height color).number = number ∧
      (Frame.Frame_image memory number width height color).Blank width height 2 1600) ∧
    ((Frame.Frame_pixels memory number width height map type pixels).number = number ∧
      (Frame.Frame_pixels memory number width height map type pixels).Blank
        width height 2 1600) ∧
    ((Frame.Frame_audio memory number samples channels).number = number ∧
      (Frame.Frame_audio memory number samples channels).Blank 300 200 channels samples) ∧
    ((Frame.Frame_image_audio memory number width height color samples channels).number
        = number ∧
      (Frame.Frame_image_audio memory number width height color samples channels).Blank
        width height channels samples) :=
  ⟨build_blank _ _ _ _ _, build_blank _ _ _ _ _, build_blank _ _ _ _ _,
    build_blank _ _ _ _ _, build_blank _ _ _ _ _⟩

/-! ## C18: `AddAudio` out of range -/

/-- A valid call of `addFrom` mix-adds `gain * source[i]` at `start + i` and reports no
failure. -/
theorem addFrom_valid :
    ((Frame.Frame_audio noisyMemory 7 4 2).AddAudio 1 1 (fun i => (i : ℚ) + 10) 2 2).1 = none ∧
    (((Frame.Frame_audio noisyMemory 7 4 2).AddAudio 1 1 (fun i => (i : ℚ) + 10) 2 2).2.audio.map
      AudioSampleBuffer.data) = some [[0, 0, 0, 0], [0, 20, 22, 0]] := by
  constructor
  · rfl
  · simp [Frame.AddAudio, Frame.Frame_audio, Frame.build, Frame.init, AudioSampleBuffer.addFrom,
      AudioSampleBuffer.clear, AudioSampleBuffer.alloc, List.range_succ]
    norm_num

/-- C18. On a frame whose audio buffer has `C` channels of `S` samples, `AddAudio` with
`dest_channel` outside `[0, C)`, or `dest_start_sample < 0`, or
`dest_start_sample + num_samples > S` reports an out-of-range failure and leaves the
frame, its audio and image buffers included, as it was. -/
theorem AddAudio_out_of_range (f : Frame) (a : AudioSampleBuffer)
    (destChannel destStartSample numSamples : Int) (source : Nat → ℚ) (gain : ℚ)
    (ha : f.audio = some a)
    (h : destChannel < 0 ∨ a.numChannels ≤ destChannel ∨ destStartSample < 0 ∨
      a.size < destStartSample + numSamples) :
    f.AddAudio destChannel destStartSample source numSamples gain =
      (some FrameError.outOfRange, f) := by
  cases f with
  | mk number image audio =>
    simp only at ha
    subst ha
    simp only [Frame.AddAudio, AudioSampleBuffer.addFrom, if_pos h]

/-- An instance of C18: on an audio-only frame of 2 channels and 4 samples, channel 2
is out of range and so is the sample window 3..4. -/
theorem AddAudio_out_of_range_witness :
    (Frame.Frame_audio noisyMemory 7 4 2).AddAudio 2 0 (fun _ => 1) 4 1 =
      (some FrameError.outOfRange, Frame.Frame_audio noisyMemory 7 4 2) ∧
    (Frame.Frame_audio noisyMemory 7 4 2).AddAudio 0 3 (fun _ => 1) 2 1 =
      (some FrameError.outOfRange, Frame.Frame_audio noisyMemory 7 4 2) :=
  ⟨AddAudio_out_of_range _ _ 2 0 4 _ 1 rfl (by decide),
    AddAudio_out_of_range _ _ 0 3 2 _ 1 rfl (by decide)⟩

/-! ## C15: `getBytes` -/

theorem bitLength_spec (fuel n : Nat) (hn : n ≠ 0) (hf : n < 2 ^ fuel) :
    2 ^ bitLength fuel n ≤ 2 * n ∧ n < 2 ^ bitLength fuel n := by
  induction fuel generalizing n with
  | zero =>
    simp at hf
    exact absurd hf hn
  | succ fuel ih =>
    rw [bitLength, if_neg hn]
    by_cases h2 : n / 2 = 0
    · have h1 : n = 1 := by omega
      subst h1
      cases fuel <;> simp [bitLength]
    · have hlt : n / 2 < 2 ^ fuel := by
        rw [pow_succ] at hf
        omega
      obtain ⟨i1, i2⟩ := ih (n / 2) h2 hlt
      rw [pow_succ]
      constructor <;> omega

theorem truncate_intCast (z : Int) : truncate (z : ℚ) = z := by
  simp [truncate]

theorem roundHalfEven_intCast (z : Int) : roundHalfEven (z : ℚ) = z := by
  have hf : Rat.floor (z : ℚ) = z := by
    have h : Int.floor (z : ℚ) = z := Int.floor_intCast z
    exact h
  unfold roundHalfEven
  simp only [hf, sub_self]
  norm_num

theorem pow2_pos (e : Int) : 0 < pow2 e := by
  unfold pow2
  split_ifs <;> positivity

theorem floatExponent_intCast (z : Int) (hz : z ≠ 0) :
    floatExponent (z : ℚ) = (bitLength z.natAbs z.natAbs : Int) - 1 := by
  have h1 : bitLength 1 1 = 1 := rfl
  have hn : z.natAbs ≠ 0 := by simpa using hz
  obtain ⟨i1, -⟩ := bitLength_spec z.natAbs z.natAbs hn (Nat.lt_two_pow _)
  unfold floatExponent
  simp only [Rat.intCast_num, Rat.intCast_den, h1]
  rw [if_pos (by omega)]
  rfl

/-- An integer of magnitude at most `2 ^ 24` is a `float`: the conversion is exact. -/
theorem intToFloat_exact (z : Int) (hz : |z| ≤ 2 ^ 24) : intToFloat z = z := by
  unfold intToFloat roundFloat
  by_cases h0 : z = 0
  · subst h0
    simp
  have hq : (z : ℚ) ≠ 0 := by exact_mod_cast h0
  rw [if_neg hq]
  have hn : z.natAbs ≠ 0 := by simpa using h0
  obtain ⟨i1, i2⟩ := bitLength_spec z.natAbs z.natAbs hn (Nat.lt_two_pow _)
  have habs : z.natAbs ≤ 2 ^ 24 := by
    have : ((z.natAbs : Nat) : Int) ≤ 2 ^ 24 := by rw [Int.natCast_natAbs]; exact hz
    exact_mod_cast this
  rw [floatExponent_intCast z h0]
  generalize hb : bitLength z.natAbs z.natAbs = b at *
  have hb25 : b ≤ 25 := by
    by_contra hc
    have : 2 ^ 26 ≤ 2 ^ b := Nat.pow_le_pow_right (by norm_num) (by omega)
    omega
  simp only []
  suffices h : ∃ m : Int, (z : ℚ) / pow2 ((b : Int) - 1 - 23) = (m : ℚ) by
    obtain ⟨m, hm⟩ := h
    rw [hm, roundHalfEven_intCast, ← hm]
    exact div_mul_cancel₀ _ (pow2_pos _).ne'
  by_cases h25 : b = 25
  · subst h25
    have hz24 : z.natAbs = 2 ^ 24 := by omega
    have hp : pow2 ((25 : Nat) - 1 - 23) = 2 := by
      norm_num [pow2]
    rw [hp]
    rcases Int.natAbs_eq z with h | h
    · refine ⟨2 ^ 23, ?_⟩
      rw [h, hz24]
      norm_num
    · refine ⟨-2 ^ 23, ?_⟩
      rw [h, hz24]
      norm_num
  · have hle : b ≤ 24 := by omega
    refine ⟨z * 2 ^ (24 - b), ?_⟩
    unfold pow2
    by_cases hb24 : b = 24
    · subst hb24
      norm_num
    · rw [if_neg (by omega)]
      have : (-((b : Int) - 1 - 23)).toNat = 24 - b := by omega
      rw [this]
      push_cast
      field_simp

/-- The `int` product wraps only outside the range of `int`. -/
theorem toInt32_inRange (x : Int) (h1 : -2147483648 ≤ x) (h2 : x < 2147483648) :
    toInt32 x = x := by
  unfold toInt32
  omega

/-- The video size `width * height * sizeof(char) * 4`, cast to `int64_t`, of an `int`
product `x` is `x * 4`. -/
theorem videoBytes_inRange (x : Int) (h1 : -2147483648 ≤ x) (h2 : x < 2147483648) :
    toInt64 (0 + toInt64 (toUInt64 (toUInt64 (toUInt64 x * 1) * 4))) = x * 4 := by
  unfold toInt64 toUInt64
  omega

/-- The value of `getBytes` when neither `int` product overflows. -/
theorem getBytes_inRange (width height sample_rate channels : Int) (fps : ℚ)
    (hv1 : -2147483648 ≤ width * height) (hv2 : width * height < 2147483648)
    (ha1 : -2147483648 ≤ sample_rate * channels) (ha2 : sample_rate * channels < 2147483648) :
    getBytes width height sample_rate channels fps =
      truncate (roundFloat (roundFloat ((width * height * 4 : Int) : ℚ) +
        roundFloat (roundFloat (roundFloat ((sample_rate * channels : Int) : ℚ) / fps) *
          roundFloat ((4 : Int) : ℚ)))) := by
  unfold getBytes
  simp only []
  rw [toInt32_inRange _ hv1 hv2, toInt32_inRange _ ha1 ha2, videoBytes_inRange _ hv1 hv2]
  rfl

/-- C15 (counterexample). For a 4097 x 4097 frame the exact value of
`width*height*4 + (sample_rate*channels/fps)*sizeof(float)` is the integer 67154436, while
`getBytes` returns 67154432: the video size 67141636 is not a `float` and is rounded to
67141632 when `total_bytes` is converted.  For a 65536 x 65536 frame without audio the
`int` product `width * height` wraps to 0 and `getBytes` returns 0. -/
theorem getBytes_counterexample :
    ((4097 * 4097 * 4 : Int) : ℚ) + (((48000 * 2 : Int) : ℚ) / 30) * 4 = ((67154436 : Int) : ℚ) ∧
    ((intToFloat (4097 * 4097 * 4)).num = 67141632 ∧ (intToFloat (4097 * 4097 * 4)).den = 1) ∧
    getBytes 4097 4097 48000 2 30 = 67154432 ∧
    ¬ ((0 : ℚ) < 30 → getBytes 4097 4097 48000 2 30 =
      truncate (((4097 * 4097 * 4 : Int) : ℚ) + (((48000 * 2 : Int) : ℚ) / 30) * 4)) ∧
    getBytes 65536 65536 0 2 30 = 0 := by
  refine ⟨by norm_num, ⟨by with_unfolding_all decide, by with_unfolding_all decide⟩,
    by with_unfolding_all decide, ?_, by with_unfolding_all decide⟩
  intro h
  have h1 : getBytes 4097 4097 48000 2 30 = 67154432 := by with_unfolding_all decide
  have h2 : truncate (((4097 * 4097 * 4 : Int) : ℚ) + (((48000 * 2 : Int) : ℚ) / 30) * 4)
      = 67154436 := by with_unfolding_all decide
  rw [h1, h2] at h
  exact absurd (h (by norm_num)) (by decide)

/-- C15 (amended). For all `width`, `height`, `sample_rate`, `channels` whose products
`width*height` and `sample_rate*channels` are in the range of `int`, and `fps > 0` with
`sample_rate*channels/fps` below `2 ^ 60` in magnitude, `getBytes` returns
`width*height*4 + (sample_rate*channels/fps)*sizeof(float)` as evaluated in single
precision (the integers converted to `float`; the quotient, the product and the sum each
rounded to `float`), converted to an integer by truncation.  When
`sample_rate*channels = k*fps` for an integer `k` and `width*height*4`,
`sample_rate*channels`, `4*k` and `width*height*4 + 4*k` are at most `2 ^ 24` in
magnitude, that is the exact value `width*height*4 + 4*k`.  The result is a function of
the five arguments alone. -/
theorem getBytes_formula (width height sample_rate channels : Int) (fps : ℚ) :
    (-2147483648 ≤ width * height → width * height < 2147483648 →
      -2147483648 ≤ sample_rate * channels → sample_rate * channels < 2147483648 →
      0 < fps → |((sample_rate * channels : Int) : ℚ) / fps| < 2 ^ 60 →
      getBytes width height sample_rate channels fps =
        truncate (roundFloat (roundFloat ((width * height * 4 : Int) : ℚ) +
          roundFloat (roundFloat (roundFloat ((sample_rate * channels : Int) : ℚ) / fps) *
            roundFloat ((4 : Int) : ℚ))))) ∧
    (∀ k : Int, 0 < fps → ((sample_rate * channels : Int) : ℚ) = (k : ℚ) * fps →
      |width * height * 4| ≤ 2 ^ 24 → |sample_rate * channels| ≤ 2 ^ 24 →
      |4 * k| ≤ 2 ^ 24 → |width * height * 4 + 4 * k| ≤ 2 ^ 24 →
      getBytes width height sample_rate channels fps = width * height * 4 + 4 * k ∧
      getBytes width height sample_rate channels fps =
        truncate (((width * height * 4 : Int) : ℚ) +
          (((sample_rate * channels : Int) : ℚ) / fps) * 4)) ∧
    (∀ (width2 height2 sample_rate2 channels2 : Int) (fps2 : ℚ),
      width2 = width → height2 = height → sample_rate2 = sample_rate →
      channels2 = channels → fps2 = fps →
      getBytes width2 height2 sample_rate2 channels2 fps2 =
        getBytes width height sample_rate channels fps) := by
  refine ⟨?_, ?_, ?_⟩
  · intro hv1 hv2 ha1 ha2 _ _
    exact getBytes_inRange width height sample_rate channels fps hv1 hv2 ha1 ha2
  · intro k hfps hk hvideo haudio hk4 hsum
    have hdiv : ((sample_rate * channels : Int) : ℚ) / fps = (k : ℚ) := by
      rw [hk]
      exact mul_div_cancel_right₀ _ hfps.ne'
    have hkb : |k| ≤ 2 ^ 24 := by
      rw [abs_le] at hk4 ⊢
      constructor <;> omega
    have hv := abs_le.mp hvideo
    have ha := abs_le.mp haudio
    have hval : getBytes width height sample_rate channels fps =
        width * height * 4 + 4 * k := by
      rw [getBytes_inRange width height sample_rate channels fps (by omega) (by omega)
        (by omega) (by omega)]
      have e0 : ∀ z : Int, |z| ≤ 2 ^ 24 → roundFloat ((z : Int) : ℚ) = ((z : Int) : ℚ) :=
        fun z hz => intToFloat_exact z hz
      rw [e0 _ hvideo, e0 _ haudio, e0 4 (by decide), hdiv, e0 k hkb]
      have e2 : (k : ℚ) * ((4 : Int) : ℚ) = ((4 * k : Int) : ℚ) := by
        push_cast
        ring
      rw [e2, e0 _ hk4]
      have e3 : ((width * height * 4 : Int) : ℚ) + ((4 * k : Int) : ℚ) =
          ((width * height * 4 + 4 * k : Int) : ℚ) := by
        push_cast
        ring
      rw [e3, e0 _ hsum, truncate_intCast]
    refine ⟨hval, ?_⟩
    rw [hval, hdiv]
    have : ((width * height * 4 : Int) : ℚ) + (k : ℚ) * 4 =
        ((width * height * 4 + 4 * k : Int) : ℚ) := by
      push_cast
      ring
    rw [this, truncate_intCast]
  · intro width2 height2 sample_rate2 channels2 fps2 h1 h2 h3 h4 h5
    rw [h1, h2, h3, h4, h5]

/-- C15 (witness). `getBytes(1920, 1080, 48000, 2, 30)` is `8294400 + 12800 = 8307200`,
which is also its single-precision evaluation. -/
theorem getBytes_formula_witness :
    getBytes 1920 1080 48000 2 30 = 1920 * 1080 * 4 + 4 * 3200 ∧
    (1920 * 1080 * 4 + 4 * 3200 : Int) = 8294400 + 12800 ∧
    (8294400 + 12800 : Int) = 8307200 ∧
    getBytes 1920 1080 48000 2 30 =
      truncate (roundFloat (roundFloat ((1920 * 1080 * 4 : Int) : ℚ) +
        roundFloat (roundFloat (roundFloat ((48000 * 2 : Int) : ℚ) / 30) *
          roundFloat ((4 : Int) : ℚ)))) :=
  ⟨((getBytes_formula 1920 1080 48000 2 30).2.1 3200 (by norm_num) (by norm_num)
      (by decide) (by decide) (by decide) (by decide)).1, by decide, by decide,
    (getBytes_formula 1920 1080 48000 2 30).1 (by decide) (by decide) (by decide)
      (by decide) (by norm_num) (by norm_num [abs_lt])⟩
/-! ## C22: termination of the window loop -/

/-- C22 (code bug). At `speed = 3` with max preroll 8 and playhead 1 the window is 1..9
and the increment is 3: `cache_frame` takes the values 1, 4, 7, 10, 13, ... and steps
over `ending_frame + increment = 12`, so after ten visits, more than the nine frames of
the window, the loop is still running, and it is still running after any number of
visits. -/
theorem window_loop_steps_over_end :
    increment fastForwardWorld.thread.speed fastForwardWorld.thread.last_speed = 3 ∧
    window fastForwardWorld.thread.current_display_frame
      fastForwardWorld.thread.last_speed 8 = (1, 9) ∧
    visitedFrames (pass (demoSettings true) noUI 10 fastForwardWorld).world.trace =
      [1, 4, 7, 10, 13, 16, 19, 22, 25, 28] ∧
    ∀ fuel, ∃ w1, pass (demoSettings true) noUI fuel fastForwardWorld =
      PassResult.outOfFuel w1 := by
  refine ⟨by decide, by decide, by decide, ?_⟩
  intro fuel
  rw [pass_playing (demoSettings true) noUI fuel fastForwardWorld rfl (by decide)]
  exact cacheWindow_runaway _ _ fuel _ 1 9 (by decide) ⟨Or.inl rfl, rfl, rfl⟩
    (by intro k; simp [fastForwardWorld, demoReader, World.init, UIOp.apply])
    (by intro n; show (1 : Int) + (n : Int) * toInt16 3 ≠ 9 + toInt16 3
        have : toInt16 3 = 3 := by decide
        rw [this]; omega)

/-! ## C21: the geometry of `DisplayWaveform` -/

/-- The loop over the samples of a channel draws each of them at the baseline `Y`. -/
theorem waveformSamples_baselines (Y : Int) (samples : List ℚ) :
    ∀ (l : List Nat) (acc : List Drawable × List ℚ),
      (waveformSamples Y samples l acc).1.filterMap Drawable.baseline =
        acc.1.filterMap Drawable.baseline ++ List.replicate l.length Y := by
  intro l
  induction l with
  | nil =>
    intro acc
    simp [waveformSamples]
  | cons sample rest ih =>
    intro acc
    obtain ⟨lines, output⟩ := acc
    rw [waveformSamples]
    simp only []
    rw [ih]
    split_ifs <;>
      simp [List.filterMap_append, Drawable.baseline, List.replicate_succ]

/-- The loop over the channels draws the `i`-th channel of its list at the baseline
`Y + i * (200 + height_padding)`. -/
theorem waveformChannels_baselines (audio : AudioSampleBuffer) (height_padding : Int) :
    ∀ (l : List Nat) (Y : Int) (acc : List Drawable × List ℚ),
      (waveformChannels audio height_padding l Y acc).1.filterMap Drawable.baseline =
        acc.1.filterMap Drawable.baseline ++
          ((List.range l.length).map (fun (i : Nat) =>
            List.replicate audio.size.toNat (Y + (i : Int) * (200 + height_padding)))).flatten := by
  intro l
  induction l with
  | nil =>
    intro Y acc
    simp [waveformChannels]
  | cons channel rest ih =>
    intro Y acc
    rw [waveformChannels]
    rw [ih, List.filterMap_append, waveformSamples_baselines]
    simp only [List.length_range, List.length_cons, List.range_succ_eq_map, List.map_cons,
      List.flatten_cons, List.map_map, List.append_assoc]
    congr 1
    have h0 : List.filterMap Drawable.baseline
        [Drawable.StrokeColor "#ffffff", Drawable.FillColor "#ffffff",
          Drawable.StrokeWidth (roundDouble (1 / 10)),
          Drawable.Text 5 (Y - 5) ("Channel " ++ toString channel)] = [] := rfl
    rw [h0, List.nil_append]
    congr 1
    · simp
    · congr 1
      apply List.map_congr_left
      intro i _
      simp only [Function.comp]
      congr 1
      push_cast
      ring

/-- The geometry of `DisplayWaveform` on a frame whose audio buffer has `N > 0` samples:
the canvas is `N` wide and `200 * C + 20 * (C - 1)` high, and the samples of channel `c`
are drawn at the baseline `100 + c * (200 + 20 * (C - 1))`. -/
theorem DisplayWaveform_geometry (f : Frame) (audio : AudioSampleBuffer) (resize : Bool)
    (ha : f.audio = some audio) (hN : 0 < audio.size) :
    ∃ d, f.DisplayWaveform resize = some d ∧
      d.canvas.width = audio.size ∧
      d.canvas.height = 200 * audio.numChannels + 20 * (audio.numChannels - 1) ∧
      d.baselines = ((List.range audio.numChannels.toNat).map (fun (c : Nat) =>
        List.replicate audio.size.toNat
          (100 + (c : Int) * (200 + 20 * (audio.numChannels - 1))))).flatten := by
  unfold Frame.DisplayWaveform
  rw [ha]
  simp only [gt_iff_lt, hN, if_true]
  refine ⟨_, rfl, rfl, rfl, ?_⟩
  simp only [WaveformDisplay.baselines]
  rw [waveformChannels_baselines]
  simp [Drawable.baseline]

/-- C21 (code bug). On the audio-only frame of 4 channels and 1 sample the canvas is
1 wide and `200 * 4 + 20 * 3 = 860` high, but the four channels are drawn at the
baselines 100, 360, 620, 880, not at the row midpoints 100, 320, 540, 760: `Y` advances
by `200 + height_padding`, the padding of all rows, instead of 200 + 20.  The baseline
880 of the last channel lies below the canvas.  With 2 channels the step is 220 and the
baselines 100, 320 are the row midpoints. -/
theorem waveform_baseline_off_row :
    (∃ d, (Frame.Frame_audio noisyMemory 1 1 4).DisplayWaveform false = some d ∧
      d.canvas.width = 1 ∧ d.canvas.height = 860 ∧
      d.baselines = [100, 360, 620, 880] ∧
      (List.range 4).map rowMidpoint = [100, 320, 540, 760] ∧
      ¬ ((880 : Int) < d.canvas.height)) ∧
    (∃ d, (Frame.Frame_audio noisyMemory 1 1 2).DisplayWaveform false = some d ∧
      d.canvas.width = 1 ∧ d.canvas.height = 420 ∧
      d.baselines = [100, 320] ∧
      (List.range 2).map rowMidpoint = [100, 320]) := by
  constructor
  · obtain ⟨d, h1, h2, h3, h4⟩ := DisplayWaveform_geometry
      (Frame.Frame_audio noisyMemory 1 1 4) _ false rfl (by decide)
    have e3 : d.canvas.height = 860 := by rw [h3]; rfl
    refine ⟨d, h1, by rw [h2]; rfl, e3, by rw [h4]; rfl, by decide, by rw [e3]; decide⟩
  · obtain ⟨d, h1, h2, h3, h4⟩ := DisplayWaveform_geometry
      (Frame.Frame_audio noisyMemory 1 1 2) _ false rfl (by decide)
    exact ⟨d, h1, by rw [h2]; rfl, by rw [h3]; rfl, by rw [h4]; rfl, by decide⟩

end openshot
